import Mathlib

/-! # SPV block manager (`cmd/spv/blockmanager.go`)

A shallow embedding of the header and filter-header synchronisation code of the
block manager.  Go state is passed explicitly, maps are association lists visited in
list order, and the collaborators whose code lives in other packages (the durable
stores, the peer objects, hashing, proof-of-work arithmetic) are fields of `Env`.
-/

namespace Spv

/-! ## Machine integers -/

/-- Conversion to `int32` (two's complement wrap-around). -/
def i32 (x : Int) : Int := (x + 2147483648) % 4294967296 - 2147483648

/-- Conversion to `uint32` (wrap-around). -/
def u32 (x : Int) : Nat := (x % 4294967296).toNat

/-! ## Data model -/

/-- A `chainhash.Hash`; `zeroHash` is the all-zero value. -/
abbrev Hash := Nat

/-- The zero value hash. -/
def zeroHash : Hash := 0

/-- A peer, identified by its address. -/
abbrev Peer := Nat

/-- The fields of `wire.BlockHeader`; `Timestamp` is in Unix seconds. -/
structure BlockHeader where
  Version : Int
  PrevBlock : Hash
  MerkleRoot : Hash
  Timestamp : Int
  Bits : Nat
  Nonce : Nat
deriving DecidableEq, Repr, Inhabited

/-- A `headerlist.Node`: a header with its `int32` height. -/
structure Node where
  Header : BlockHeader
  Height : Int
deriving DecidableEq, Repr, Inhabited

/-- A `headerfs.BlockHeader`: a header with its `uint32` height, as written to the store. -/
structure StoredHeader where
  Header : BlockHeader
  Height : Nat
deriving DecidableEq, Repr, Inhabited

/-- A `chaincfg.Checkpoint`. -/
structure Checkpoint where
  Height : Int
  Hash : Hash
deriving DecidableEq, Repr, Inhabited

/-- The fields of `chaincfg.Params` the block manager reads.  `MinDiffReductionTime` is
in seconds and `isSimNet` stands for `Net == chaincfg.SimNetParams.Net`. -/
structure Params where
  Checkpoints : List Checkpoint
  GenesisHash : Hash
  PowLimit : Int
  PowLimitBits : Nat
  ReduceMinDifficulty : Bool
  MinDiffReductionTime : Int
  TargetTimespan : Int
  isSimNet : Bool

/-- Modelled from the spec: the block-header store interface of section 6 (package
`headerfs` is not part of the sources at hand).  The store is a value of type `σ`;
a failed operation is `none`. -/
structure BlockHeaderStore (σ : Type) where
  ChainTip : σ → Option (BlockHeader × Nat)
  FetchHeader : σ → Hash → Option (BlockHeader × Nat)
  FetchHeaderByHeight : σ → Nat → Option BlockHeader
  FetchHeaderAncestors : σ → Nat → Hash → Option (List BlockHeader × Nat)
  WriteHeaders : σ → List StoredHeader → Option σ

/-- A `headerfs.FilterHeader` record. -/
structure FilterHeader where
  FilterHash : Hash
  HeaderHash : Hash
  Height : Nat
deriving DecidableEq, Repr, Inhabited

/-- Modelled from the spec: the filter-header store interface of section 6 (package
`headerfs` is not part of the sources at hand). -/
structure FilterHeaderStore (σ : Type) where
  ChainTip : σ → Option (Hash × Nat)
  FetchHeaderByHeight : σ → Nat → Option Hash
  WriteHeaders : σ → List FilterHeader → Option σ

/-- The collaborators of the block manager.  `σ` is the durable state behind
`b.server` (both header stores).  `rollBackToHeight` returns the new durable state and
whether it succeeded; `BestBlock` is `none` on error; `CheckProofOfWork h height`
stands for `blockchain.CheckProofOfWork` applied to the stub block of `h` with the
limit `fork.GetMinDiff(fork.GetAlgoName(h.Version, height), height)`;
`AdjustedTime` is the time source read during the call, in Unix seconds;
`UpdateLastBlockHeight old new` is the last announced height a peer holds after
`UpdateLastBlockHeight(new)`; `DoubleHashH a b` is the double hash of the 64 bytes
`a || b`. -/
structure Env (σ : Type) where
  chainParams : Params
  BlockHash : BlockHeader → Hash
  CalcWork : Nat → Int → Int → Int
  CheckProofOfWork : BlockHeader → Int → Bool
  CompactToBig : Nat → Int
  BigToCompact : Int → Nat
  GetCurrent : Int → Int
  MaxTimeOffsetSeconds : Int
  AdjustedTime : Int
  BlockHeaders : BlockHeaderStore σ
  RegFilterHeaders : FilterHeaderStore σ
  rollBackToHeight : σ → Nat → σ × Bool
  BestBlock : σ → Option Int
  StartingHeight : Peer → Int
  UpdateLastBlockHeight : Int → Int → Int
  PushGetHeadersMsg : Peer → List Hash → Hash → Bool
  DoubleHashH : Hash → Hash → Hash

/-- Observable calls made on collaborators, in the order they happen. -/
inductive Event where
  | Disconnect (p : Peer)
  | UpdateLastBlockHeight (p : Peer) (h : Int)
  | WriteHeaders (batch : List StoredHeader) (ok : Bool)
  | RollBack (h : Nat) (ok : Bool)
  | PushGetHeaders (p : Peer) (locator : List Hash) (stop : Hash) (ok : Bool)
  | NewHeadersBroadcast
  | WriteFilterHeaders (batch : List FilterHeader) (ok : Bool)
  | SubscribedMsg (header : BlockHeader)
  | NewFilterHeadersBroadcast
  | BanPeer (p : Peer)
deriving DecidableEq, Repr

/-- The fields of `blockManager` that the modelled functions read or write.  `server`
is the durable state, `LastBlock` the peers' last announced heights, `trace` the calls
made so far (latest last). -/
structure BM (σ : Type) where
  server : σ
  genesisHeader : Hash
  headerTip : Nat
  headerTipHash : Hash
  filterHeaderTip : Nat
  filterHeaderTipHash : Hash
  syncPeer : Option Peer
  headerList : List Node
  reorgList : List Node
  startHeader : Option Node
  nextCheckpoint : Option Checkpoint
  minRetargetTimespan : Int
  maxRetargetTimespan : Int
  blocksPerRetarget : Int
  LastBlock : Peer → Int
  trace : List Event

/-- Result of a Go call that returns `(value, error)` and may panic. -/
inductive Res (α : Type) where
  | ok (a : α)
  | err
  | panic
deriving DecidableEq, Repr

/-! ## The bounded in-memory header chain -/

/-- The bound on the number of headers kept in memory. -/
def numMaxMemHeaders : Nat := 10000

/-- Modelled from the spec: `headerlist.Chain` (section 4.1), whose package is not part
of the sources at hand.  A chain is the list of its nodes, most recent first; the
handle of a node is the list that starts at it, so `Prev()` is the tail and a `nil`
handle is the empty list.  `ResetHeaderState` discards all held nodes and seeds the
chain with one node. -/
def ResetHeaderState (n : Node) : List Node := [n]

/-- Modelled from the spec: `PushBack` of `headerlist.Chain` (section 4.1): append and,
if the capacity is exceeded, evict the oldest node. -/
def PushBack (l : List Node) (n : Node) : List Node := (n :: l).take numMaxMemHeaders

/-! ## Checkpoints -/

/-- The loop of `findNextHeaderCheckpoint`, over `checkpoints[len-2], ..., checkpoints[0]`. -/
def findNextLoop (height : Int) : List Checkpoint → Checkpoint → Checkpoint
  | [], nextCheckpoint => nextCheckpoint
  | c :: rest, nextCheckpoint =>
    if height ≥ c.Height then nextCheckpoint else findNextLoop height rest c

/-- The Go function `findNextHeaderCheckpoint`. -/
def findNextHeaderCheckpoint (P : Params) (height : Int) : Option Checkpoint :=
  match P.Checkpoints.getLast? with
  | none => none
  | some finalCheckpoint =>
    if height ≥ finalCheckpoint.Height then none
    else some (findNextLoop height P.Checkpoints.dropLast.reverse finalCheckpoint)

/-- The loop of `findPreviousHeaderCheckpoint`, over `checkpoints[0], checkpoints[1], ...`. -/
def findPrevLoop (height : Int) : List Checkpoint → Checkpoint → Checkpoint
  | [], prevCheckpoint => prevCheckpoint
  | c :: rest, prevCheckpoint =>
    if height ≤ c.Height then prevCheckpoint else findPrevLoop height rest c

/-- The Go function `findPreviousHeaderCheckpoint`. -/
def findPreviousHeaderCheckpoint (P : Params) (height : Int) : Checkpoint :=
  findPrevLoop height P.Checkpoints { Height := 0, Hash := P.GenesisHash }

/-! ## Sync status -/

/-- The Go function `BlockHeadersSynced`. -/
def BlockHeadersSynced {σ : Type} (env : Env σ) (b : BM σ) : Bool :=
  match env.BlockHeaders.ChainTip b.server with
  | none => false
  | some (header, height) =>
    if (match env.chainParams.Checkpoints.getLast? with
        | none => false
        | some last => decide (last.Height ≥ i32 height)) then false
    else if (match b.syncPeer with
        | none => false
        | some sp => decide (i32 height < b.LastBlock sp)) then false
    else if header.Timestamp < env.AdjustedTime - 86400 then false
    else
      match b.syncPeer with
      | none => true
      | some sp => decide (b.LastBlock sp ≥ env.StartingHeight sp)

/-! ## Difficulty -/

/-- The loop of `findPrevTestNetDifficulty`.  `prev` is `iterEl.Prev()`, which the loop
never advances.  The loop ends at the latest when `iterHeight` reaches zero, that is
after `u32 startNode.Height` rounds, the fuel it is run with; `panic` on exhausted
fuel is not reachable from there. -/
def findPrevTestNetLoop {σ : Type} (env : Env σ) (b : BM σ) (prev : List Node) :
    Nat → BlockHeader → Int → Res BlockHeader
  | fuel, iterNode, iterHeight =>
    if Int.tmod iterHeight b.blocksPerRetarget ≠ 0 ∧ iterNode.Bits = env.chainParams.PowLimitBits then
      match fuel with
      | 0 => .panic
      | fuel + 1 =>
        let iterHeight := i32 (iterHeight - 1)
        match prev with
        | el :: _ => findPrevTestNetLoop env b prev fuel el.Header iterHeight
        | [] =>
          match env.BlockHeaders.FetchHeaderByHeight b.server (u32 iterHeight) with
          | none => .err
          | some node => findPrevTestNetLoop env b prev fuel node iterHeight
    else .ok iterNode

/-- The Go function `findPrevTestNetDifficulty`.  A zero `blocksPerRetarget` makes the
first remainder panic. -/
def findPrevTestNetDifficulty {σ : Type} (env : Env σ) (b : BM σ) (hList : List Node) : Res Nat :=
  match hList with
  | [] => .ok env.chainParams.PowLimitBits
  | startNode :: prev =>
    if b.blocksPerRetarget = 0 then .panic
    else
      match findPrevTestNetLoop env b prev (u32 startNode.Height) startNode.Header startNode.Height with
      | .ok iterNode => .ok iterNode.Bits
      | .err => .err
      | .panic => .panic

/-- The Go function `calcNextRequiredDifficulty`.  Integer division by a zero
`blocksPerRetarget` or `TargetTimespan` panics. -/
def calcNextRequiredDifficulty {σ : Type} (env : Env σ) (b : BM σ) (newBlockTime : Int)
    (reorgAttempt : Bool) : Res Nat :=
  let hList := if reorgAttempt then b.reorgList else b.headerList
  match hList with
  | [] => .ok env.chainParams.PowLimitBits
  | lastNode :: _ =>
    if b.blocksPerRetarget = 0 then .panic
    else if Int.tmod (i32 (lastNode.Height + 1)) b.blocksPerRetarget ≠ 0 then
      if env.chainParams.ReduceMinDifficulty then
        let allowMinTime := lastNode.Header.Timestamp + env.chainParams.MinDiffReductionTime
        if newBlockTime > allowMinTime then .ok env.chainParams.PowLimitBits
        else findPrevTestNetDifficulty env b hList
      else .ok lastNode.Header.Bits
    else
      match env.BlockHeaders.FetchHeaderByHeight b.server
          (u32 (i32 (i32 (lastNode.Height + 1) - b.blocksPerRetarget))) with
      | none => .err
      | some firstNode =>
        let actualTimespan := lastNode.Header.Timestamp - firstNode.Timestamp
        let adjustedTimespan :=
          if actualTimespan < b.minRetargetTimespan then b.minRetargetTimespan
          else if actualTimespan > b.maxRetargetTimespan then b.maxRetargetTimespan
          else actualTimespan
        let oldTarget := env.CompactToBig lastNode.Header.Bits
        if env.chainParams.TargetTimespan = 0 then .panic
        else
          let newTarget := oldTarget * adjustedTimespan / env.chainParams.TargetTimespan
          let newTarget := if newTarget > env.chainParams.PowLimit then env.chainParams.PowLimit else newTarget
          .ok (env.BigToCompact newTarget)

/-- The Go function `checkHeaderSanity`.  It stores the required difficulty in the
header it is given, so the header as left behind is returned with the verdict. -/
def checkHeaderSanity {σ : Type} (env : Env σ) (b : BM σ) (blockHeader : BlockHeader)
    (maxTimestamp : Int) (reorgAttempt : Bool) (height : Int) : BlockHeader × Res Unit :=
  match calcNextRequiredDifficulty env b blockHeader.Timestamp reorgAttempt with
  | .err => (blockHeader, .err)
  | .panic => (blockHeader, .panic)
  | .ok diff =>
    let blockHeader := { blockHeader with Bits := diff }
    if ¬ env.CheckProofOfWork blockHeader height then (blockHeader, .err)
    else if blockHeader.Timestamp > maxTimestamp then (blockHeader, .err)
    else (blockHeader, .ok ())

/-! ## `handleHeadersMsg` -/

/-- Record a call in the trace. -/
def emit {σ : Type} (b : BM σ) (e : Event) : BM σ := { b with trace := b.trace ++ [e] }

/-- The locals of `handleHeadersMsg` that live across loop rounds.  `Headers` holds the
headers `msg.Headers` points to (`checkHeaderSanity` writes to them), and an entry
`(i, h)` of `headerWriteBatch` is the pointer `msg.Headers[i]` with height `h`. -/
structure LoopState (σ : Type) where
  b : BM σ
  Headers : List BlockHeader
  headerWriteBatch : List (Nat × Nat)
  receivedCheckpoint : Bool
  finalHash : Hash
  finalHeight : Int

/-- How a piece of the loop body ends: `fall` goes on to the checkpoint test with the
local `node`, `cont` is `continue` (or the end of the body), `brk` is `break`, `ret`
is `return` and `panic` a Go panic. -/
inductive Flow (σ : Type) where
  | fall (l : LoopState σ) (node : Node)
  | cont (l : LoopState σ)
  | brk (l : LoopState σ)
  | ret (b : BM σ)
  | panic (b : BM σ)

/-- How `handleHeadersMsg` ends. -/
inductive Outcome (σ : Type) where
  | returned (b : BM σ)
  | panicked (b : BM σ)

/-- Lines 1738-1764: the header extends the in-memory tip. -/
def connectBranch {σ : Type} (env : Env σ) (peer : Peer) (maxTimestamp : Int)
    (l : LoopState σ) (i : Nat) (blockHeader : BlockHeader) (prevNode : Node) : Flow σ :=
  let height := i32 (prevNode.Height + 1)
  match checkHeaderSanity env l.b blockHeader maxTimestamp false height with
  | (_, .err) => .ret (emit l.b (.Disconnect peer))
  | (_, .panic) => .panic l.b
  | (checked, .ok _) =>
    let node : Node := { Header := blockHeader, Height := height }
    let b := l.b
    let lastBlock := Function.update b.LastBlock peer
      (env.UpdateLastBlockHeight (b.LastBlock peer) height)
    let b := emit { b with LastBlock := lastBlock } (.UpdateLastBlockHeight peer height)
    let startHeader := match b.startHeader with
      | none => some node
      | some n => some n
    let b := { b with headerList := PushBack b.headerList node, startHeader := startHeader }
    .fall { l with b := b, Headers := l.Headers.set i checked,
                   headerWriteBatch := l.headerWriteBatch ++ [(i, u32 height)],
                   finalHeight := height } node

/-- Lines 1821-1838: sanity checks and work of the headers `msg.Headers[i:]`, pushed
on the reorg chain.  Returns the manager, the headers as left behind and the work. -/
def reorgSanityLoop {σ : Type} (env : Env σ) (maxTimestamp : Int) (height : Int)
    (backHeight : Nat) : List BlockHeader → Nat → BM σ → Int → BM σ × List BlockHeader × Res Int
  | [], _, b, totalWork => (b, [], .ok totalWork)
  | reorgHeader :: rest, j, b, totalWork =>
    match checkHeaderSanity env b reorgHeader maxTimestamp true height with
    | (checked, .err) => (b, checked :: rest, .err)
    | (checked, .panic) => (b, checked :: rest, .panic)
    | (checked, .ok _) =>
      let totalWork := totalWork + env.CalcWork checked.Bits height checked.Version
      let node : Node := { Header := checked, Height := i32 (i32 (u32 (backHeight + 1)) + i32 j) }
      let b := { b with reorgList := PushBack b.reorgList node }
      match reorgSanityLoop env maxTimestamp height backHeight rest (j + 1) b totalWork with
      | (b, rest, r) => (b, checked :: rest, r)

/-- Lines 1845-1868: the work of the known chain, `rounds` being the number of values
`j` takes from `uint32(prevNode.Height)` down to `backHeight + 1`.  Past the end of the
in-memory chain the store is asked for the parent of `knownHead` and both outcomes of
that call end in `panic(e)`: `none` is that panic. -/
def knownWorkLoop {σ : Type} (env : Env σ) (b : BM σ) :
    Nat → List Node → Option BlockHeader → Int → Option Int
  | 0, _, _, knownWork => some knownWork
  | rounds + 1, knownEl :: prev, _, knownWork =>
    match prev with
    | p :: _ => knownWorkLoop env b rounds prev (some knownEl.Header)
        (knownWork + env.CalcWork knownEl.Header.Bits p.Height knownEl.Header.Version)
    | [] => knownWorkLoop env b rounds prev (some knownEl.Header) knownWork
  | _ + 1, [], some knownHead, _ =>
    match env.BlockHeaders.FetchHeader b.server knownHead.PrevBlock with
    | some _ => none
    | none => none
  | rounds + 1, [], none, knownWork => knownWorkLoop env b rounds [] none knownWork

/-- Lines 1895-1917: once the store is rolled back, the first candidate header is
written at height `backHeight + 1` (a failed write is only logged) and the in-memory
chain is reset to the fork point followed by that header. -/
def reextend {σ : Type} (env : Env σ) (b : BM σ) (checked backHead : BlockHeader)
    (backHeight : Nat) : BM σ :=
  let hdr : StoredHeader := { Header := checked, Height := u32 (backHeight + 1) }
  let b := match env.BlockHeaders.WriteHeaders b.server [hdr] with
    | some srv => emit { b with server := srv } (.WriteHeaders [hdr] true)
    | none => emit b (.WriteHeaders [hdr] false)
  let backNode : Node := { Header := backHead, Height := i32 backHeight }
  let newNode : Node := { Header := checked, Height := i32 (u32 (backHeight + 1)) }
  { b with headerList := PushBack (ResetHeaderState backNode) newNode }

/-- Lines 1884-1917: the reorg is taken.  `hdrs` are the headers as the sanity loop
left them, `checked` is `msg.Headers[i]` among them and `original` is that header as
it was when the round began (the copy held by the local `node`). -/
def acceptReorg {σ : Type} (env : Env σ) (peer : Peer) (l : LoopState σ) (b : BM σ)
    (hdrs : List BlockHeader) (original checked backHead : BlockHeader) (backHeight : Nat) :
    Flow σ :=
  let b := { b with syncPeer := some peer }
  match env.rollBackToHeight b.server backHeight with
  | (srv, false) => .panic (emit { b with server := srv } (.RollBack backHeight false))
  | (srv, true) =>
    let b := emit { b with server := srv } (.RollBack backHeight true)
    .fall { l with b := reextend env b checked backHead backHeight, Headers := hdrs }
      { Header := original, Height := 0 }

/-- Lines 1766-1917: the header does not extend the in-memory tip. -/
def reorgBranch {σ : Type} (env : Env σ) (peer : Peer) (maxTimestamp : Int)
    (l : LoopState σ) (i : Nat) (blockHeader : BlockHeader) (blockHash prevHash : Hash)
    (prevNode : Node) : Flow σ :=
  let b := l.b
  if b.syncPeer ≠ some peer ∧ BlockHeadersSynced env b = false then .ret b
  else if blockHash = prevHash then .cont l
  else
    match env.BlockHeaders.FetchHeader b.server blockHash with
    | some _ => .cont l
    | none =>
      match env.BlockHeaders.FetchHeader b.server blockHeader.PrevBlock with
      | none => .ret (emit b (.Disconnect peer))
      | some (backHead, backHeight) =>
        let prevCheckpoint := findPreviousHeaderCheckpoint env.chainParams prevNode.Height
        if backHeight < u32 prevCheckpoint.Height then .ret (emit b (.Disconnect peer))
        else
          let backNode : Node := { Header := backHead, Height := i32 backHeight }
          let b := { b with reorgList := ResetHeaderState backNode }
          match reorgSanityLoop env maxTimestamp (i32 (prevNode.Height + 1)) backHeight
              (l.Headers.drop i) 0 b 0 with
          | (b, _, .err) => .ret (emit b (.Disconnect peer))
          | (b, _, .panic) => .panic b
          | (b, checkedTail, .ok totalWork) =>
            let hdrs := l.Headers.take i ++ checkedTail
            match knownWorkLoop env b (u32 prevNode.Height - backHeight) b.headerList none 0 with
            | none => .panic b
            | some knownWork =>
              if knownWork > totalWork then .ret (emit b (.Disconnect peer))
              else if knownWork = totalWork then .ret b
              else acceptReorg env peer l b hdrs blockHeader (checkedTail.headD blockHeader)
                backHead backHeight

/-- Lines 1919-1949: the test of `node` against the next checkpoint. -/
def checkpointCheck {σ : Type} (env : Env σ) (peer : Peer) (l : LoopState σ) (node : Node) :
    Flow σ :=
  match l.b.nextCheckpoint with
  | none => .cont l
  | some nextCheckpoint =>
    if node.Height = nextCheckpoint.Height then
      if env.BlockHash node.Header = nextCheckpoint.Hash then
        .brk { l with receivedCheckpoint := true }
      else
        let prevCheckpoint := findPreviousHeaderCheckpoint env.chainParams node.Height
        match env.rollBackToHeight l.b.server (u32 prevCheckpoint.Height) with
        | (srv, ok) =>
          .ret (emit (emit { l.b with server := srv } (.RollBack (u32 prevCheckpoint.Height) ok))
            (.Disconnect peer))
    else .cont l

/-- One round of the loop of `handleHeadersMsg` (lines 1718-1950), for index `i`. -/
def loopBody {σ : Type} (env : Env σ) (peer : Peer) (maxTimestamp : Int)
    (l : LoopState σ) (i : Nat) : Flow σ :=
  match l.Headers[i]? with
  | none => .cont l
  | some blockHeader =>
    let blockHash := env.BlockHash blockHeader
    let l := { l with finalHash := blockHash }
    match l.b.headerList with
    | [] => .ret (emit l.b (.Disconnect peer))
    | prevNode :: _ =>
      let prevHash := env.BlockHash prevNode.Header
      let r :=
        if prevHash = blockHeader.PrevBlock then
          connectBranch env peer maxTimestamp l i blockHeader prevNode
        else reorgBranch env peer maxTimestamp l i blockHeader blockHash prevHash prevNode
      match r with
      | .fall l node => checkpointCheck env peer l node
      | r => r

/-- The `for i, blockHeader := range msg.Headers` loop: `n` rounds from index `i`. -/
def headersLoop {σ : Type} (env : Env σ) (peer : Peer) (maxTimestamp : Int) :
    Nat → Nat → LoopState σ → Flow σ
  | 0, _, l => .brk l
  | n + 1, i, l =>
    match loopBody env peer maxTimestamp l i with
    | .cont l => headersLoop env peer maxTimestamp n (i + 1) l
    | .fall l _ => headersLoop env peer maxTimestamp n (i + 1) l
    | r => r

/-- The headers the write batch points to, with their heights. -/
def derefBatch {σ : Type} (l : LoopState σ) : List StoredHeader :=
  l.headerWriteBatch.map fun e => { Header := l.Headers.getD e.1 default, Height := e.2 }

/-- Lines 1951-1986: what follows the loop. -/
def afterLoop {σ : Type} (env : Env σ) (peer : Peer) (l : LoopState σ) : Outcome σ :=
  let batch := derefBatch l
  let written : Option (BM σ) :=
    if batch.length > 0 then
      match env.BlockHeaders.WriteHeaders l.b.server batch with
      | none => none
      | some srv => some (emit { l.b with server := srv } (.WriteHeaders batch true))
    else some l.b
  match written with
  | none => .panicked (emit l.b (.WriteHeaders batch false))
  | some b =>
    let b := if l.receivedCheckpoint then
        { b with nextCheckpoint := findNextHeaderCheckpoint env.chainParams l.finalHeight }
      else b
    let tip (b : BM σ) : BM σ :=
      emit { b with headerTip := u32 l.finalHeight, headerTipHash := l.finalHash }
        .NewHeadersBroadcast
    if env.chainParams.isSimNet ∨ BlockHeadersSynced env b = false then
      let nextHash := match b.nextCheckpoint with
        | some c => c.Hash
        | none => zeroHash
      let ok := env.PushGetHeadersMsg peer [l.finalHash] nextHash
      let b := emit b (.PushGetHeaders peer [l.finalHash] nextHash ok)
      if ok then .returned (tip b) else .returned b
    else .returned (tip b)

/-- Lines 1700-1709: the latest timestamp a header may carry, `bbHeight` being the
height of the best block. -/
def maxTimestampFor {σ : Type} (env : Env σ) (bbHeight : Int) : Int :=
  if env.GetCurrent bbHeight > 0 then env.AdjustedTime + env.MaxTimeOffsetSeconds
  else env.AdjustedTime + 7200

/-- The locals of `handleHeadersMsg` when its loop starts. -/
def initLoop {σ : Type} (b : BM σ) (Headers : List BlockHeader) : LoopState σ :=
  { b := b, Headers := Headers, headerWriteBatch := [], receivedCheckpoint := false,
    finalHash := zeroHash, finalHeight := 0 }

/-- The Go function `handleHeadersMsg`, for the message `Headers` received from `peer`.
A failed `BestBlock` leaves `bb` nil and its use panics. -/
def handleHeadersMsg {σ : Type} (env : Env σ) (b : BM σ) (peer : Peer)
    (Headers : List BlockHeader) : Outcome σ :=
  if Headers.length = 0 then .returned b
  else
    match env.BestBlock b.server with
    | none => .panicked b
    | some bbHeight =>
      match headersLoop env peer (maxTimestampFor env bbHeight) Headers.length 0
          (initLoop b Headers) with
      | .ret b => .returned b
      | .panic b => .panicked b
      | .brk l => afterLoop env peer l
      | .cont l => afterLoop env peer l
      | .fall l _ => afterLoop env peer l

/-- The loop of `handleHeadersMsg`, started in `l0`, begins round `i` in state `l`. -/
inductive RoundStart {σ : Type} (env : Env σ) (peer : Peer) (maxTimestamp : Int)
    (l0 : LoopState σ) : Nat → LoopState σ → Prop where
  | start : RoundStart env peer maxTimestamp l0 0 l0
  | step {i : Nat} {l l' : LoopState σ} :
      RoundStart env peer maxTimestamp l0 i l →
      loopBody env peer maxTimestamp l i = .cont l' →
      RoundStart env peer maxTimestamp l0 (i + 1) l'

/-- The manager a piece of the loop body ends with. -/
def Flow.bm {σ : Type} : Flow σ → BM σ
  | .fall l _ => l.b
  | .cont l => l.b
  | .brk l => l.b
  | .ret b => b
  | .panic b => b

/-- Whether a piece of the loop body ends the call (by `return` or by a panic). -/
def Flow.ends {σ : Type} : Flow σ → Bool
  | .ret _ => true
  | .panic _ => true
  | _ => false

/-- The manager `handleHeadersMsg` ends with. -/
def Outcome.bm {σ : Type} : Outcome σ → BM σ
  | .returned b => b
  | .panicked b => b

/-- The calls made since the manager was in state `old`. -/
def newEvents {σ : Type} (old new : BM σ) : List Event := new.trace.drop old.trace.length

/-! ## A list-backed durable state, for concrete runs -/

/-- Modelled from the spec: the durable state of section 6 as two height-ordered
append-only logs, oldest record first. -/
structure Durable where
  blocks : List StoredHeader
  filters : List FilterHeader
deriving DecidableEq, Repr

/-- A stand-in for the block hash in concrete runs: a polynomial in the header fields
modulo a prime, never zero. -/
def sampleHash (h : BlockHeader) : Hash :=
  (h.Version.toNat * 7 + h.PrevBlock * 11 + h.MerkleRoot * 13 + h.Timestamp.toNat * 17
    + h.Bits * 19 + h.Nonce * 23) % 1000003 + 1

/-- Modelled from the spec: the block-header store of section 6 over `Durable`.  The
tip is the last record, lookups scan the log, a write appends its batch. -/
def listBlockHeaders : BlockHeaderStore Durable where
  ChainTip d := d.blocks.getLast?.map fun e => (e.Header, e.Height)
  FetchHeader d h :=
    (d.blocks.find? fun e => sampleHash e.Header = h).map fun e => (e.Header, e.Height)
  FetchHeaderByHeight d n := (d.blocks.find? fun e => e.Height = n).map fun e => e.Header
  FetchHeaderAncestors d n stop :=
    match d.blocks.find? fun e => sampleHash e.Header = stop with
    | none => none
    | some e =>
      if n ≤ e.Height then
        some (((d.blocks.filter fun x => e.Height - n ≤ x.Height ∧ x.Height ≤ e.Height).map
          fun x => x.Header), e.Height - n)
      else none
  WriteHeaders d batch := some { d with blocks := d.blocks ++ batch }

/-- Modelled from the spec: the filter-header store of section 6 over `Durable`. -/
def listFilterHeaders : FilterHeaderStore Durable where
  ChainTip d := d.filters.getLast?.map fun e => (e.FilterHash, e.Height)
  FetchHeaderByHeight d n := (d.filters.find? fun e => e.Height = n).map fun e => e.FilterHash
  WriteHeaders d batch := some { d with filters := d.filters ++ batch }

/-- Modelled from the spec: `rollBackToHeight` on `Durable` removes the records above
the given height from the tip of both logs. -/
def listRollBack (d : Durable) (height : Nat) : Durable × Bool :=
  ({ blocks := d.blocks.rdropWhile fun e => height < e.Height,
     filters := d.filters.rdropWhile fun e => height < e.Height }, true)

/-- A concrete environment over `Durable`: a main-network-like parameter set (no
reduced minimum difficulty, retarget every 2016 blocks), work that falls as the
compact target grows, every proof of work accepted, and the given checkpoints. -/
def sampleEnv (checkpoints : List Checkpoint) : Env Durable where
  chainParams :=
    { Checkpoints := checkpoints, GenesisHash := 1, PowLimit := 1000000, PowLimitBits := 1000,
      ReduceMinDifficulty := false, MinDiffReductionTime := 1200, TargetTimespan := 1209600,
      isSimNet := false }
  BlockHash := sampleHash
  CalcWork bits _ _ := 1000000 / (bits + 1)
  CheckProofOfWork _ _ := true
  CompactToBig bits := bits
  BigToCompact t := t.toNat
  GetCurrent _ := 0
  MaxTimeOffsetSeconds := 90
  AdjustedTime := 5000
  BlockHeaders := listBlockHeaders
  RegFilterHeaders := listFilterHeaders
  rollBackToHeight := listRollBack
  BestBlock d := d.blocks.getLast?.map fun e => (e.Height : Int)
  StartingHeight _ := 0
  UpdateLastBlockHeight _ h := h
  PushGetHeadersMsg _ _ _ := true
  DoubleHashH a b := (a * 31 + b * 37) % 1000003 + 1

/-- Checkpoints sorted by strictly increasing height. -/
def SortedCheckpoints (cps : List Checkpoint) : Prop :=
  cps.Pairwise fun a b => a.Height < b.Height

/-! ## A small chain, for concrete runs -/

/-- A genesis header. -/
def g0 : BlockHeader :=
  { Version := 1, PrevBlock := 0, MerkleRoot := 0, Timestamp := 1000, Bits := 100, Nonce := 0 }

/-- A header built on `prev`, 60 seconds later, with the same bits and the given nonce. -/
def child (prev : BlockHeader) (nonce : Nat) : BlockHeader :=
  { Version := 1, PrevBlock := sampleHash prev, MerkleRoot := 0,
    Timestamp := prev.Timestamp + 60, Bits := 100, Nonce := nonce }

/-- The known chain `g0 <- h1 <- h2` and its extension `c3`. -/
def h1 : BlockHeader := child g0 1
/-- The known tip at height 2. -/
def h2 : BlockHeader := child h1 2
/-- A header extending `h2`. -/
def c3 : BlockHeader := child h2 3
/-- A competing branch `h1 <- r2 <- r3 <- r4`. -/
def r2 : BlockHeader := child h1 12
/-- The second header of the competing branch. -/
def r3 : BlockHeader := child r2 13
/-- The third header of the competing branch. -/
def r4 : BlockHeader := child r3 14

/-- The durable log `g0, h1, h2`. -/
def log3 : List StoredHeader :=
  [{ Header := g0, Height := 0 }, { Header := h1, Height := 1 }, { Header := h2, Height := 2 }]

/-- The in-memory chain holding `h2, h1, g0`. -/
def mem3 : List Node :=
  [{ Header := h2, Height := 2 }, { Header := h1, Height := 1 }, { Header := g0, Height := 0 }]

/-- A block manager over `Durable` with the given log, in-memory chain, next
checkpoint and sync peer, whose peers have announced height `lastBlock`. -/
def sampleBM (log : List StoredHeader) (mem : List Node) (next : Option Checkpoint)
    (sync : Option Peer) (lastBlock : Int) : BM Durable :=
  { server := { blocks := log, filters := [] }, genesisHeader := 1, headerTip := 2,
    headerTipHash := sampleHash h2, filterHeaderTip := 0, filterHeaderTipHash := 0,
    syncPeer := sync, headerList := mem, reorgList := [], startHeader := none,
    nextCheckpoint := next, minRetargetTimespan := 302400, maxRetargetTimespan := 4838400,
    blocksPerRetarget := 2016, LastBlock := fun _ => lastBlock, trace := [] }

/-- The work `handleHeadersMsg` sums for candidate headers: each header's
`CalcWork(Bits, height, Version)`, `height` being the tip height plus one. -/
def candidateWork {σ : Type} (env : Env σ) (height : Int) (hs : List BlockHeader) : Int :=
  (hs.map fun h => env.CalcWork h.Bits height h.Version).sum

/-- The work of the first `rounds` nodes of an in-memory chain (most recent first), as
`handleHeadersMsg` sums it: each node's `CalcWork(Bits, Height of its predecessor,
Version)`. -/
def knownWork {σ : Type} (env : Env σ) : Nat → List Node → Int
  | rounds + 1, a :: p :: rest =>
    env.CalcWork a.Header.Bits p.Height a.Header.Version + knownWork env rounds (p :: rest)
  | _, _ => 0

/-! ## Filter headers -/

/-- The fields of `wire.MsgCFHeaders`. -/
structure MsgCFHeaders where
  FilterType : Nat
  StopHash : Hash
  PrevFilterHeader : Hash
  FilterHashes : List Hash
deriving DecidableEq, Repr, Inhabited

/-- Modelled from the spec: the spacing of filter-header checkpoints (`wire.CFCheckptInterval`,
section 3: "every 1000 blocks"); package `wire` is not part of the sources at hand. -/
def CFCheckptInterval : Nat := 1000

/-- Lines 864-876 of `writeCFHeadersMsg`: from the previous header and the batch so
far, the last filter header and the batch after the given filter hashes. -/
def chainHeaders {σ : Type} (env : Env σ) :
    List Hash → Hash → List FilterHeader → Hash × List FilterHeader
  | [], lastHeader, headerBatch => (lastHeader, headerBatch)
  | hash :: rest, lastHeader, headerBatch =>
    let lastHeader := env.DoubleHashH hash lastHeader
    chainHeaders env rest lastHeader
      (headerBatch ++ [{ FilterHash := lastHeader, HeaderHash := zeroHash, Height := 0 }])

/-- Lines 893-894 of `writeCFHeadersMsg`: the entry at `idx` gets the hash and the
height of the last block header. -/
def sealBatch (headerBatch : List FilterHeader) (idx : Nat) (lastHash : Hash)
    (lastHeight : Nat) : List FilterHeader :=
  headerBatch.modify (fun h => { h with HeaderHash := lastHash, Height := lastHeight }) idx

/-- The Go function `writeCFHeadersMsg`, called with the regular filter-header store of
the server, as all its callers do.  Returns the last filter header or the error, and the
manager it leaves.  Indexing `matchingBlockHeaders[numHeaders-1]` outside the slice
panics. -/
def writeCFHeadersMsg {σ : Type} (env : Env σ) (b : BM σ) (msg : MsgCFHeaders) :
    Res Hash × BM σ :=
  match env.RegFilterHeaders.ChainTip b.server with
  | none => (.err, b)
  | some (tip, _) =>
    if tip ≠ msg.PrevFilterHeader then (.err, b)
    else
      match chainHeaders env msg.FilterHashes msg.PrevFilterHeader [] with
      | (lastHeader, headerBatch) =>
        let numHeaders : Int := headerBatch.length
        match env.BlockHeaders.FetchHeaderAncestors b.server (u32 (numHeaders - 1)) msg.StopHash with
        | none => (.err, b)
        | some (matchingBlockHeaders, startHeight) =>
          let lastHeight := u32 ((startHeight : Int) + (u32 numHeaders : Int) - 1)
          if numHeaders - 1 < 0 then (.panic, b)
          else
            match matchingBlockHeaders[(numHeaders - 1).toNat]? with
            | none => (.panic, b)
            | some lastBlockHeader =>
              let lastHash := env.BlockHash lastBlockHeader
              let headerBatch := sealBatch headerBatch (numHeaders - 1).toNat lastHash lastHeight
              match env.RegFilterHeaders.WriteHeaders b.server headerBatch with
              | none => (.err, emit b (.WriteFilterHeaders headerBatch false))
              | some srv =>
                let b := emit { b with server := srv } (.WriteFilterHeaders headerBatch true)
                let b := { b with trace := b.trace ++ matchingBlockHeaders.map Event.SubscribedMsg }
                let b := { b with filterHeaderTip := lastHeight, filterHeaderTipHash := lastHash }
                (.ok lastHeader, emit b .NewFilterHeadersBroadcast)

/-- The Go function `verifyCheckpoint`. -/
def verifyCheckpoint {σ : Type} (env : Env σ) (prevCheckpoint nextCheckpoint : Hash)
    (cfheaders : MsgCFHeaders) : Bool :=
  if prevCheckpoint ≠ cfheaders.PrevFilterHeader then false
  else
    decide (cfheaders.FilterHashes.foldl (fun lastHeader hash => env.DoubleHashH hash lastHeader)
      cfheaders.PrevFilterHeader = nextCheckpoint)

/-- The filter-header chain in the words of the specification: `h_0` is the previous
filter header and `h_i` is the double hash of `FilterHashes[i-1] || h_(i-1)`. -/
def specFilterChain {σ : Type} (env : Env σ) (msg : MsgCFHeaders) : Nat → Hash
  | 0 => msg.PrevFilterHeader
  | i + 1 => env.DoubleHashH (msg.FilterHashes.getD i zeroHash) (specFilterChain env msg i)

/-! ## Checkpoint negotiation -/

/-- A Go map from peer addresses as the list of its entries, in the order a `range`
visits them. -/
abbrev PeerMap (α : Type) := List (Peer × α)

/-- Assignment `m[k] = v`. -/
def PeerMap.insert {α : Type} : PeerMap α → Peer → α → PeerMap α
  | [], k, v => [(k, v)]
  | (k', v') :: rest, k, v =>
    if k' = k then (k, v) :: rest else (k', v') :: PeerMap.insert rest k v

/-- The built-in `delete(m, k)`. -/
def PeerMap.delete {α : Type} (m : PeerMap α) (k : Peer) : PeerMap α :=
  m.filter fun e => e.1 ≠ k

/-- Whether `m[k]` is present. -/
def PeerMap.has {α : Type} (m : PeerMap α) (k : Peer) : Bool :=
  m.any fun e => e.1 = k

/-- A `wire.MsgCFilter`. -/
structure MsgCFilter where
  FilterType : Nat
  BlockHash : Hash
  Data : List Nat
deriving DecidableEq, Repr

/-- A `wire.Block` as far as filters go: its header and, per transaction, the output
scripts. -/
structure Block where
  Header : BlockHeader
  Transactions : List (List (List Nat))
deriving DecidableEq, Repr

/-- A `gcs.Filter`, held as the bytes it was decoded from. -/
abbrev Filter := List Nat

/-- The regular filter type, `wire.GCSFilterRegular`. -/
def GCSFilterRegular : Nat := 0

/-- The opcode `txscript.OP_RETURN`. -/
def OP_RETURN : Nat := 106

/-- The network and the packages behind the filter checks.  Answers may depend on the
calls made so far (`trace`).  `QueryCFHeaders` and `QueryCFilters` are the responses
`queryAllPeers` hands to its callback, in order; `PeerByAddr` tells whether the peer is
still connected; `Match` is `gcs.Filter.Match` (`none` on error); `FromNBytes` decodes a
filter (`none` on error); `MaxCFHeadersPerMsg` is the `wire` constant. -/
structure Network where
  MaxCFHeadersPerMsg : Nat
  QueryCFHeaders : List Event → Nat → Nat → Hash → List (Peer × MsgCFHeaders)
  QueryCFilters : List Event → Nat → Nat → Hash → List (Peer × MsgCFilter)
  GetBlock : List Event → Hash → Option Block
  PeerByAddr : List Event → Peer → Bool
  FromNBytes : List Nat → Option Filter
  DeriveKey : Hash → Nat
  Match : Filter → Nat → List Nat → Option Bool
  IsPushOnlyScript : List Nat → Bool

/-- The inner loop of `checkCFCheckptSanity` for index `i`: `none` when a peer's entry
differs from `checkpoint`, else the value `checkpoint` ends with. -/
def sanityScan (i : Nat) : PeerMap (List Hash) → Hash → Option Hash
  | [], checkpoint => some checkpoint
  | (_, checkpoints) :: rest, checkpoint =>
    match checkpoints[i]? with
    | none => sanityScan i rest checkpoint
    | some c =>
      let checkpoint := if checkpoint = zeroHash then c else checkpoint
      if checkpoint ≠ c then none else sanityScan i rest checkpoint

/-- The outer loop of `checkCFCheckptSanity`: `n` rounds from index `i`.  The result is
the returned integer and whether an error is returned with it. -/
def sanityLoop {σ : Type} (env : Env σ) (server : σ) (cp : PeerMap (List Hash)) (storeTip : Nat) :
    Nat → Nat → Int × Bool
  | 0, _ => (-1, false)
  | n + 1, i =>
    match sanityScan i cp zeroHash with
    | none => (i, false)
    | some checkpoint =>
      let ckptHeight := u32 (((i : Int) + 1) * CFCheckptInterval)
      if ckptHeight ≤ storeTip then
        match env.RegFilterHeaders.FetchHeaderByHeight server ckptHeight with
        | none => (i, true)
        | some header =>
          if header ≠ checkpoint then (i, false) else sanityLoop env server cp storeTip n (i + 1)
      else sanityLoop env server cp storeTip n (i + 1)

/-- The Go function `checkCFCheckptSanity`, on the regular filter-header store. -/
def checkCFCheckptSanity {σ : Type} (env : Env σ) (server : σ) (cp : PeerMap (List Hash)) :
    Int × Bool :=
  match env.RegFilterHeaders.ChainTip server with
  | none => (0, true)
  | some (_, storeTip) =>
    let maxLen := cp.foldl (fun maxLen e => if e.2.length > maxLen then e.2.length else maxLen) 0
    sanityLoop env server cp storeTip maxLen 0

/-- The loop of `checkForCFHeaderMismatch`. -/
def mismatchScan (idx : Nat) : PeerMap MsgCFHeaders → Hash → Bool
  | [], _ => false
  | (_, msg) :: rest, hash =>
    match msg.FilterHashes[idx]? with
    | none => mismatchScan idx rest hash
    | some h =>
      if hash = zeroHash then mismatchScan idx rest h
      else if hash ≠ h then true
      else mismatchScan idx rest hash

/-- The Go function `checkForCFHeaderMismatch`. -/
def checkForCFHeaderMismatch (headers : PeerMap MsgCFHeaders) (idx : Nat) : Bool :=
  mismatchScan idx headers zeroHash

/-- The Go function `getCFHeadersForAllPeers`: the responses that carry the expected
stop hash and filter type, by peer.  A failed `ChainTip` is only logged and leaves
`stopHeader` nil, so that taking its hash panics unless it is replaced. -/
def getCFHeadersForAllPeers {σ : Type} (env : Env σ) (net : Network) (b : BM σ) (height : Nat)
    (fType : Nat) : Res (PeerMap MsgCFHeaders) :=
  let tip := env.BlockHeaders.ChainTip b.server
  let stopHeight : Nat := match tip with
    | some (_, h) => h
    | none => 0
  let stopHeader : Res BlockHeader :=
    if u32 ((stopHeight : Int) - height) ≥ net.MaxCFHeadersPerMsg then
      match env.BlockHeaders.FetchHeaderByHeight b.server
          (u32 ((height : Int) + net.MaxCFHeadersPerMsg - 1)) with
      | none => .err
      | some h => .ok h
    else
      match tip with
      | some (h, _) => .ok h
      | none => .panic
  match stopHeader with
  | .err => .ok []
  | .panic => .panic
  | .ok stopHeader =>
    let stopHash := env.BlockHash stopHeader
    .ok ((net.QueryCFHeaders b.trace fType height stopHash).foldl
      (fun headers r =>
        if r.2.StopHash = stopHash ∧ r.2.FilterType = fType then headers.insert r.1 r.2
        else headers) [])

/-- The Go function `fetchFilterFromAllPeers`: the filters decoded from the responses
for the given block and filter type, by peer. -/
def fetchFilterFromAllPeers (net : Network) (trace : List Event) (height : Nat)
    (blockHash : Hash) (filterType : Nat) : PeerMap Filter :=
  (net.QueryCFilters trace filterType height blockHash).foldl
    (fun filterResponses r =>
      if blockHash ≠ r.2.BlockHash ∨ filterType ≠ r.2.FilterType then filterResponses
      else
        match net.FromNBytes r.2.Data with
        | none => filterResponses
        | some gcsFilter => filterResponses.insert r.1 gcsFilter) []

/-- Lines 1134-1158 of `resolveCFHeaderMismatch` for one transaction: whether the peer is
marked bad while its outputs are walked.  The label `peerVerification` stands on the loop
over the transactions, so both `continue peerVerification` go on to the next
transaction. -/
def txMarksBad (net : Network) (filter : Filter) (filterKey : Nat) : List (List Nat) → Bool
  | [] => false
  | pkScript :: rest =>
    if pkScript.length = 0 then txMarksBad net filter filterKey rest
    else if pkScript.head? = some OP_RETURN ∧ net.IsPushOnlyScript pkScript.tail = true then
      txMarksBad net filter filterKey rest
    else
      match net.Match filter filterKey pkScript with
      | none => false
      | some true => txMarksBad net filter filterKey rest
      | some false => true

/-- The Go function `resolveCFHeaderMismatch`: the peers whose filter is held invalid, or
`none` for the error on an unknown filter type.  The peers come in the order of
`filtersFromPeers`, each once. -/
def resolveCFHeaderMismatch {σ : Type} (env : Env σ) (net : Network) (block : Block)
    (fType : Nat) (filtersFromPeers : PeerMap Filter) : Option (List Peer) :=
  let filterKey := net.DeriveKey (env.BlockHash block.Header)
  if fType = GCSFilterRegular then
    some ((filtersFromPeers.filter fun pf =>
      block.Transactions.any fun tx => txMarksBad net pf.2 filterKey tx).map Prod.fst)
  else none

/-- Lines 1041-1045 and 1055-1059: ban and disconnect the peer if it is still connected. -/
def banIfConnected {σ : Type} (net : Network) (b : BM σ) (peer : Peer) : BM σ :=
  if net.PeerByAddr b.trace peer then emit (emit b (.BanPeer peer)) (.Disconnect peer) else b

/-- The state of `resolveConflict` from line 1011 on: the manager, the two maps, and the
peers `resolveCFHeaderMismatch` has returned so far. -/
structure Dispute (σ : Type) where
  b : BM σ
  headers : PeerMap MsgCFHeaders
  checkpoints : PeerMap (List Hash)
  reported : List Peer

/-- Lines 1039-1048: the loop over `badPeers`. -/
def banBadPeers {σ : Type} (net : Network) : List Peer → Dispute σ → Dispute σ
  | [], d => d
  | peer :: rest, d =>
    banBadPeers net rest
      { d with b := banIfConnected net d.b peer, headers := d.headers.delete peer,
               checkpoints := d.checkpoints.delete peer }

/-- Lines 1013-1050: `n` rounds of the loop over the positions of the disputed
interval, from position `i`.  The flag tells whether the loop ran to its end (`true`) or
returned an error on the way. -/
def disputeLoop {σ : Type} (env : Env σ) (net : Network) (fType : Nat) (startHeight : Nat) :
    Nat → Nat → Dispute σ → Dispute σ × Bool
  | 0, _, d => (d, true)
  | n + 1, i, d =>
    if checkForCFHeaderMismatch d.headers i then
      let targetHeight := u32 ((startHeight : Int) + u32 i)
      match env.BlockHeaders.FetchHeaderByHeight d.b.server targetHeight with
      | none => (d, false)
      | some header =>
        match net.GetBlock d.b.trace (env.BlockHash header) with
        | none => (d, false)
        | some block =>
          let filtersFromPeers :=
            fetchFilterFromAllPeers net d.b.trace targetHeight (env.BlockHash header) fType
          match resolveCFHeaderMismatch env net block fType filtersFromPeers with
          | none => (d, false)
          | some badPeers =>
            disputeLoop env net fType startHeight n (i + 1)
              (banBadPeers net badPeers { d with reported := d.reported ++ badPeers })
    else disputeLoop env net fType startHeight n (i + 1) d

/-- Lines 1000-1010: whether two responses disagree on the previous filter header. -/
def baselineScan : PeerMap MsgCFHeaders → Hash → Bool
  | [], _ => false
  | (_, msg) :: rest, hash =>
    if hash = zeroHash then baselineScan rest msg.PrevFilterHeader
    else if hash ≠ msg.PrevFilterHeader then true
    else baselineScan rest hash

/-- Lines 1053-1062: the peers with a checkpoint list and no cfheaders response are
banned and their lists deleted.  The entries visited are those of the map when the loop
starts; the result holds the manager, the map and the peers deleted. -/
def silentLoop {σ : Type} (net : Network) (headers : PeerMap MsgCFHeaders) :
    PeerMap (List Hash) → BM σ → PeerMap (List Hash) → List Peer →
      BM σ × PeerMap (List Hash) × List Peer
  | [], b, checkpoints, silent => (b, checkpoints, silent)
  | (peer, _) :: rest, b, checkpoints, silent =>
    if headers.has peer then silentLoop net headers rest b checkpoints silent
    else silentLoop net headers rest (banIfConnected net b peer) (checkpoints.delete peer)
      (silent ++ [peer])

/-- What `resolveConflict` returns and leaves: the checkpoint list (`none` for a nil list
with an error), whether it panicked, the manager, the peers returned by
`resolveCFHeaderMismatch` and the peers deleted for want of a cfheaders response. -/
structure Resolution (σ : Type) where
  result : Option (List Hash)
  panicked : Bool
  b : BM σ
  reported : List Peer
  silent : List Peer

/-- Lines 1063-1078: the second sanity check and the return. -/
def resolveFinal {σ : Type} (env : Env σ) (b : BM σ) (checkpoints : PeerMap (List Hash))
    (reported silent : List Peer) : Resolution σ :=
  match checkCFCheckptSanity env b.server checkpoints with
  | (_, true) => { result := none, panicked := false, b := b, reported := reported, silent := silent }
  | (heightDiff, false) =>
    match (if heightDiff = -1 then checkpoints.head? else none) with
    | some e =>
      { result := some e.2, panicked := false, b := b, reported := reported, silent := silent }
    | none => { result := none, panicked := false, b := b, reported := reported, silent := silent }

/-- Lines 983-1062: the mismatch path of `resolveConflict`, for the index `heightDiff`
the first sanity check reported. -/
def resolveMismatch {σ : Type} (env : Env σ) (net : Network) (b : BM σ)
    (checkpoints : PeerMap (List Hash)) (fType : Nat) (heightDiff : Int) : Resolution σ :=
  let checkpoints := checkpoints.filter fun e => ¬ ((e.2.length : Int) < heightDiff)
  if checkpoints.length = 0 then
    { result := none, panicked := false, b := b, reported := [], silent := [] }
  else
    let startHeight := u32 ((u32 heightDiff : Int) * CFCheckptInterval)
    match getCFHeadersForAllPeers env net b startHeight fType with
    | .panic => { result := none, panicked := true, b := b, reported := [], silent := [] }
    | .err => { result := none, panicked := false, b := b, reported := [], silent := [] }
    | .ok headers =>
      if baselineScan headers zeroHash then
        { result := none, panicked := false, b := b, reported := [], silent := [] }
      else
        match disputeLoop env net fType startHeight net.MaxCFHeadersPerMsg 0
            { b := b, headers := headers, checkpoints := checkpoints, reported := [] } with
        | (d, false) =>
          { result := none, panicked := false, b := d.b, reported := d.reported, silent := [] }
        | (d, true) =>
          match silentLoop net d.headers d.checkpoints d.b d.checkpoints [] with
          | (b, checkpoints, silent) => resolveFinal env b checkpoints d.reported silent

/-- The Go function `resolveConflict`, on the regular filter-header store. -/
def resolveConflict {σ : Type} (env : Env σ) (net : Network) (b : BM σ)
    (checkpoints : PeerMap (List Hash)) (fType : Nat) : Resolution σ :=
  match checkCFCheckptSanity env b.server checkpoints with
  | (_, true) => { result := none, panicked := false, b := b, reported := [], silent := [] }
  | (heightDiff, false) =>
    match (if heightDiff = -1 then checkpoints.head? else none) with
    | some e => { result := some e.2, panicked := false, b := b, reported := [], silent := [] }
    | none => resolveMismatch env net b checkpoints fType heightDiff

/-- No peer reports the zero hash as a checkpoint. -/
def NoZeroCheckpoint (cp : PeerMap (List Hash)) : Prop :=
  ∀ e ∈ cp, ∀ h ∈ e.2, h ≠ zeroHash

/-- All peers report checkpoint lists of one length. -/
def SameLength (cp : PeerMap (List Hash)) : Prop :=
  ∀ e ∈ cp, ∀ e' ∈ cp, e.2.length = e'.2.length

/-- Two states of the dispute that differ only by the order of the checkpoint map. -/
def DisputeRel {σ : Type} (d d' : Dispute σ) : Prop :=
  d.b = d'.b ∧ d.headers = d'.headers ∧ d.reported = d'.reported ∧
    d.checkpoints.Perm d'.checkpoints

/-- A concrete network: up to four positions per cfheaders message, the given cfheaders
and cfilter responses whatever was called before, the given blocks by hash, every peer
connected, filters that hold exactly their bytes (a script matches when its first byte
is among them), and only the empty script push-only. -/
def sampleNet (cfheaders : List (Peer × MsgCFHeaders)) (cfilters : List (Peer × MsgCFilter))
    (blocks : List (Hash × Block)) : Network where
  MaxCFHeadersPerMsg := 4
  QueryCFHeaders _ _ _ _ := cfheaders
  QueryCFilters _ _ _ _ := cfilters
  GetBlock _ h := (blocks.find? fun e => e.1 = h).map Prod.snd
  PeerByAddr _ _ := true
  FromNBytes data := some data
  DeriveKey h := h
  Match filter _ script := some (filter.contains (script.headD 0))
  IsPushOnlyScript script := script.isEmpty

/-- The durable state `g0, h1, h2` with the single filter header 5 at height 0. -/
def sampleServer : Durable :=
  { blocks := log3, filters := [{ FilterHash := 5, HeaderHash := sampleHash g0, Height := 0 }] }

/-- A cfheaders response for the stop hash of `h2` with previous filter header 5. -/
def sampleCFHeaders (filterHashes : List Hash) : MsgCFHeaders :=
  { FilterType := GCSFilterRegular, StopHash := sampleHash h2, PrevFilterHeader := 5,
    FilterHashes := filterHashes }

/-- A network in which peers 1 and 2 answer the cfheaders query with different hashes at
position 0, the block of `g0` has the single output script `[7]`, and the filters served
for it are `[7]` by peer 1 and `[8]` by peer 2. -/
def disputeNet : Network :=
  sampleNet [(1, sampleCFHeaders [21]), (2, sampleCFHeaders [22])]
    [(1, { FilterType := GCSFilterRegular, BlockHash := sampleHash g0, Data := [7] }),
     (2, { FilterType := GCSFilterRegular, BlockHash := sampleHash g0, Data := [8] })]
    [(sampleHash g0, { Header := g0, Transactions := [[[7]]] })]

/-! ## Checkpointed filter-header fetch -/

/-- The value `m[k]` of a Go map, if present. -/
def PeerMap.get {α : Type} : PeerMap α → Peer → Option α
  | [], _ => none
  | (k', v) :: rest, k => if k' = k then some v else PeerMap.get rest k

/-- A `wire.MsgGetCFHeaders`. -/
structure MsgGetCFHeaders where
  FilterType : Nat
  StartHeight : Nat
  StopHash : Hash
deriving DecidableEq, Repr

/-- The variables the callback of `getCheckpointedCFHeaders` closes over and changes:
the manager, `curHeader`, `curHeight` and the cache `queryResponses` (a map keyed by
interval index).  `written` is not a variable of the code: it records, in order, the
interval index of each call of `writeCFHeadersMsg`. -/
structure CFFetch (σ : Type) where
  b : BM σ
  curHeader : Hash
  curHeight : Nat
  queryResponses : PeerMap MsgCFHeaders
  written : List Nat

/-- Lines 681-710: the requests and the stop-hash index, `n` rounds from
`currentInterval`.  `none` is the panic on a failed header lookup. -/
def buildQueries {σ : Type} (env : Env σ) (b : BM σ) (fType : Nat) :
    Nat → Nat → List MsgGetCFHeaders → PeerMap Nat →
      Option (List MsgGetCFHeaders × PeerMap Nat)
  | 0, _, queryMsgs, stopHashes => some (queryMsgs, stopHashes)
  | n + 1, currentInterval, queryMsgs, stopHashes =>
    let startHeightRange := u32 ((currentInterval : Int) * CFCheckptInterval + 1)
    let endHeightRange := u32 (((currentInterval : Int) + 1) * CFCheckptInterval)
    match env.BlockHeaders.FetchHeaderByHeight b.server endHeightRange with
    | none => none
    | some stopHeader =>
      let stopHash := env.BlockHash stopHeader
      buildQueries env b fType n (u32 ((currentInterval : Int) + 1))
        (queryMsgs ++ [{ FilterType := fType, StartHeight := startHeightRange,
                         StopHash := stopHash }])
        (stopHashes.insert stopHash currentInterval)

/-- Lines 807-832: the loop that writes the cached responses that follow.  Each round
but the last removes an entry of the cache, so `fuel` above the size of the cache is
never used up; `none` is a panic (a failed write). -/
def drainCache {σ : Type} (env : Env σ) : Nat → CFFetch σ → Nat → Option (CFFetch σ)
  | 0, _, _ => none
  | fuel + 1, st, checkPointIndex =>
    let checkPointIndex := u32 ((checkPointIndex : Int) + 1)
    let st := { st with curHeight := u32 ((checkPointIndex : Int) * CFCheckptInterval) }
    match st.queryResponses.get checkPointIndex with
    | none => some st
    | some r =>
      let st := { st with queryResponses := st.queryResponses.delete checkPointIndex }
      match writeCFHeadersMsg env st.b r with
      | (.ok curHeader, b) =>
        drainCache env fuel
          { st with b := b, curHeader := curHeader, written := st.written ++ [checkPointIndex] }
          checkPointIndex
      | _ => none

/-- Lines 757-833 of the callback: the placement of a response `r` that passed the
checks, for its interval `checkPointIndex`: cached, discarded, or written together with
the cached responses that follow.  `none` is a panic (a slice out of range or a failed
write). -/
def placeResponse {σ : Type} (env : Env σ) (initialFilterHeader : Hash) (st : CFFetch σ)
    (checkPointIndex : Nat) (r : MsgCFHeaders) : Option (CFFetch σ × Bool) :=
  let startHeight := u32 ((checkPointIndex : Int) * CFCheckptInterval + 1)
  let lastHeight := u32 (((checkPointIndex : Int) + 1) * CFCheckptInterval)
  if startHeight > u32 ((st.curHeight : Int) + 1) then
    some ({ st with queryResponses := st.queryResponses.insert checkPointIndex r }, true)
  else if lastHeight ≤ st.curHeight then some (st, true)
  else
    let trimmed : Option MsgCFHeaders :=
      if st.curHeader = initialFilterHeader then
        let offset := u32 ((st.curHeight : Int) + 1 - startHeight)
        if offset ≤ r.FilterHashes.length then
          some { r with PrevFilterHeader := st.curHeader,
                        FilterHashes := r.FilterHashes.drop offset }
        else none
      else some r
    match trimmed with
    | none => none
    | some r =>
      match writeCFHeadersMsg env st.b r with
      | (.ok curHeader, b) =>
        (drainCache env (st.queryResponses.length + 1)
          { st with b := b, curHeader := curHeader,
                    written := st.written ++ [checkPointIndex] }
          checkPointIndex).map fun st => (st, true)
      | _ => none

/-- Lines 733-756 of the callback: the interval index for which the response passes the
checks (it answers the query, its stop hash was requested, and it chains from the
previous checkpoint to the checkpoint of the interval), if it passes them. -/
def acceptedIndex {σ : Type} (env : Env σ) (checkpoints : List Hash) (genesisHeader : Hash)
    (stopHashes : PeerMap Nat) (q : MsgGetCFHeaders) (r : MsgCFHeaders) : Option Nat :=
  if q.FilterType ≠ r.FilterType ∨ q.StopHash ≠ r.StopHash then none
  else
    match stopHashes.get r.StopHash with
    | none => none
    | some checkPointIndex =>
      let prevCheckpoint : Option Hash :=
        if checkPointIndex > 0 then checkpoints[checkPointIndex - 1]? else some genesisHeader
      match prevCheckpoint, checkpoints[checkPointIndex]? with
      | some prevCheckpoint, some nextCheckpoint =>
        if verifyCheckpoint env prevCheckpoint nextCheckpoint r = false then none
        else some checkPointIndex
      | _, _ => none

/-- The callback passed to `queryBatch` (lines 718-834), for a query and a response
that is a cfheaders message.  The result is the new state and the returned boolean;
`none` is a panic (also for an index outside `checkpoints`). -/
def cfCallback {σ : Type} (env : Env σ) (checkpoints : List Hash) (genesisHeader : Hash)
    (initialFilterHeader : Hash) (stopHashes : PeerMap Nat) (st : CFFetch σ)
    (q : MsgGetCFHeaders) (r : MsgCFHeaders) : Option (CFFetch σ × Bool) :=
  if q.FilterType ≠ r.FilterType ∨ q.StopHash ≠ r.StopHash then some (st, false)
  else
    match stopHashes.get r.StopHash with
    | none => some (st, false)
    | some checkPointIndex =>
      let prevCheckpoint : Option Hash :=
        if checkPointIndex > 0 then checkpoints[checkPointIndex - 1]? else some genesisHeader
      match prevCheckpoint, checkpoints[checkPointIndex]? with
      | some prevCheckpoint, some nextCheckpoint =>
        if verifyCheckpoint env prevCheckpoint nextCheckpoint r = false then some (st, false)
        else placeResponse env initialFilterHeader st checkPointIndex r
      | _, _ => none

/-- The callback applied to the responses in the order they arrive. -/
def runCallbacks {σ : Type} (env : Env σ) (checkpoints : List Hash) (genesisHeader : Hash)
    (initialFilterHeader : Hash) (stopHashes : PeerMap Nat) :
    CFFetch σ → List (MsgGetCFHeaders × MsgCFHeaders) → Option (CFFetch σ)
  | st, [] => some st
  | st, (q, r) :: rest =>
    match cfCallback env checkpoints genesisHeader initialFilterHeader stopHashes st q r with
    | none => none
    | some (st, _) =>
      runCallbacks env checkpoints genesisHeader initialFilterHeader stopHashes st rest

/-- The Go function `getCheckpointedCFHeaders`, on the regular filter-header store, for
the responses `queryBatch` hands to the callback, in order.  `none` is a panic. -/
def getCheckpointedCFHeaders {σ : Type} (env : Env σ) (b : BM σ) (checkpoints : List Hash)
    (fType : Nat) (arrivals : List (MsgGetCFHeaders × MsgCFHeaders)) : Option (CFFetch σ) :=
  match env.RegFilterHeaders.ChainTip b.server with
  | none => none
  | some (curHeader, curHeight) =>
    let startingInterval := curHeight / CFCheckptInterval
    match buildQueries env b fType (checkpoints.length - startingInterval) startingInterval [] [] with
    | none => none
    | some (_, stopHashes) =>
      runCallbacks env checkpoints b.genesisHeader curHeader stopHashes
        { b := b, curHeader := curHeader, curHeight := curHeight, queryResponses := [],
          written := [] } arrivals

/-- Lines 790-795: the first response with the part the store already holds cut off,
`curHeight % CFCheckptInterval` being the offset `curHeight + 1 - startHeight` of the
starting interval. -/
def trimFirst (curHeader : Hash) (curHeight : Nat) (r : MsgCFHeaders) : MsgCFHeaders :=
  { r with PrevFilterHeader := curHeader,
           FilterHashes := r.FilterHashes.drop (curHeight % CFCheckptInterval) }

/-- The messages written one after the other with `writeCFHeadersMsg`, each without an
error: the manager and the last filter header after them. -/
def writeInOrder {σ : Type} (env : Env σ) : BM σ → Hash → List MsgCFHeaders → Option (BM σ × Hash)
  | b, curHeader, [] => some (b, curHeader)
  | b, _, r :: rest =>
    match writeCFHeadersMsg env b r with
    | (.ok curHeader, b) => writeInOrder env b curHeader rest
    | _ => none

/-- What is written for the intervals from the starting interval of height `curHeight`
up to interval `k`, of the responses `resp`: the first one trimmed. -/
def intervalMsgs (curHeader : Hash) (curHeight : Nat) (resp : Nat → MsgCFHeaders) (k : Nat) :
    List MsgCFHeaders :=
  (List.range' (curHeight / CFCheckptInterval) (k - curHeight / CFCheckptInterval)).map fun j =>
    if j = curHeight / CFCheckptInterval then trimFirst curHeader curHeight (resp j) else resp j


/-- The state of the fetch once the responses of the intervals `arrived` have been
handed to the callback, `k` being the first interval from the starting one that has not
arrived: the intervals before `k` are written, in order, from the starting manager `b0`
with tip `curHeader`, `curHeight`; the arrived intervals after `k` are cached. -/
def FetchInv {σ : Type} (env : Env σ) (b0 : BM σ) (curHeader : Hash) (curHeight : Nat)
    (resp : Nat → MsgCFHeaders) (arrived : List Nat) (k : Nat) (st : CFFetch σ) : Prop :=
  curHeight / CFCheckptInterval ≤ k ∧
  (∀ j, curHeight / CFCheckptInterval ≤ j → j < k → j ∈ arrived) ∧
  k ∉ arrived ∧
  writeInOrder env b0 curHeader (intervalMsgs curHeader curHeight resp k)
    = some (st.b, st.curHeader) ∧
  st.curHeight
    = (if k = curHeight / CFCheckptInterval then curHeight else k * CFCheckptInterval) ∧
  st.written = List.range' (curHeight / CFCheckptInterval) (k - curHeight / CFCheckptInterval) ∧
  ∀ j : Nat, st.queryResponses.get j = if j ∈ arrived ∧ k < j then some (resp j) else none


/-- A durable state for the filter-header fetch: of the block headers only those the
fetch looks up, at the heights 0, 1000 and 2000, and the filter headers of the heights 0
and 1. -/
def fetchServer : Durable :=
  { blocks := [⟨g0, 0⟩, ⟨h1, 1000⟩, ⟨h2, 2000⟩],
    filters := [{ FilterHash := 5, HeaderHash := sampleHash g0, Height := 0 },
                { FilterHash := (sampleEnv []).DoubleHashH 21 5, HeaderHash := 0, Height := 1 }] }

/-- A block manager over `fetchServer` whose genesis filter header is 5. -/
def fetchBM : BM Durable :=
  { sampleBM [] [] none none 0 with server := fetchServer, genesisHeader := 5 }

/-- The filter-header checkpoints of the intervals 0 and 1 over `fetchServer`: the chain
of the filter hashes 21, 23 from the genesis filter header, extended by 22. -/
def fetchCheckpoints : List Hash :=
  [(sampleEnv []).DoubleHashH 23 ((sampleEnv []).DoubleHashH 21 5),
   (sampleEnv []).DoubleHashH 22
     ((sampleEnv []).DoubleHashH 23 ((sampleEnv []).DoubleHashH 21 5))]

/-- The cfheaders response for interval `j` (0 or 1) over `fetchServer`. -/
def fetchResp (j : Nat) : MsgCFHeaders :=
  if j = 0 then
    { FilterType := GCSFilterRegular, StopHash := sampleHash h1, PrevFilterHeader := 5,
      FilterHashes := [21, 23] }
  else
    { FilterType := GCSFilterRegular, StopHash := sampleHash h2,
      PrevFilterHeader := (sampleEnv []).DoubleHashH 23 ((sampleEnv []).DoubleHashH 21 5),
      FilterHashes := [22] }

/-- The getcfheaders request for interval `j` over `fetchServer`. -/
def fetchQuery (j : Nat) : MsgGetCFHeaders :=
  { FilterType := GCSFilterRegular, StartHeight := j * CFCheckptInterval + 1,
    StopHash := (fetchResp j).StopHash }


/-! ## Filter cross-validation -/

/-- A script that the check of `resolveCFHeaderMismatch` tests against the filter: not
empty and not an `OP_RETURN` followed by push-only data (lines 1135-1144). -/
def Indexed (net : Network) (pkScript : List Nat) : Prop :=
  pkScript.length ≠ 0 ∧
    ¬ (pkScript.head? = some OP_RETURN ∧ net.IsPushOnlyScript pkScript.tail = true)

/-- The network `sampleNet` with a `Match` that fails on the scripts whose first byte
is 99. -/
def faultyNet : Network :=
  { sampleNet [] [] [] with
    Match := fun filter _ script =>
      if script.headD 0 = 99 then none else some (filter.contains (script.headD 0)) }


/-! ## Sync peer selection -/

/-- Lines 1466-1488 of `startSync`: the loop over the candidate peers, with the best
peer so far and the candidates kept in the list.  `lastping` is declared in the body of
the loop, so it is zero in every round. -/
def selectSyncPeer {σ : Type} (b : BM σ) (LastPingMicros : Peer → Int) (bestHeight : Nat) :
    List Peer → Option Peer → List Peer → Option Peer × List Peer
  | [], bestPeer, kept => (bestPeer, kept)
  | sp :: rest, bestPeer, kept =>
    if b.LastBlock sp < i32 bestHeight then
      selectSyncPeer b LastPingMicros bestHeight rest bestPeer kept
    else
      let lastping : Int := 0
      let ahead : Bool := match bestPeer with
        | none => true
        | some best => decide (b.LastBlock sp > b.LastBlock best)
      let bestPeer := if ahead = true ∧ LastPingMicros sp < lastping then some sp else bestPeer
      selectSyncPeer b LastPingMicros bestHeight rest bestPeer (kept ++ [sp])

/-- The Go function `startSync`, for the candidate list `peers`: the manager it leaves
and the candidates left in the list.  `LastPingMicros` is the last ping time of a peer
in microseconds and `LatestBlockLocator` the block locator of the store (`none` on
error). -/
def startSync {σ : Type} (env : Env σ) (LastPingMicros : Peer → Int)
    (LatestBlockLocator : σ → Option (List Hash)) (b : BM σ) (peers : List Peer) :
    BM σ × List Peer :=
  match b.syncPeer with
  | some _ => (b, peers)
  | none =>
    match env.BlockHeaders.ChainTip b.server with
    | none => (b, peers)
    | some (_, bestHeight) =>
      match selectSyncPeer b LastPingMicros bestHeight peers none [] with
      | (none, kept) => (b, kept)
      | (some bestPeer, kept) =>
        match LatestBlockLocator b.server with
        | none => (b, kept)
        | some locator =>
          let stopHash := match b.nextCheckpoint with
            | some c => if i32 bestHeight < c.Height then c.Hash else zeroHash
            | none => zeroHash
          (emit { b with syncPeer := some bestPeer }
            (.PushGetHeaders bestPeer locator stopHash
              (env.PushGetHeadersMsg bestPeer locator stopHash)), kept)

/-- The manager over the chain `g0, h1, h2` with no sync peer, whose peer 1 has
announced height 5 and whose other peers have announced height 9. -/
def candidatesBM : BM Durable :=
  { sampleBM log3 mem3 none none 0 with LastBlock := fun p => if p = 1 then 5 else 9 }


/-! ## Retarget parameters -/

/-- Conversion to `int64` (two's complement wrap-around). -/
def i64 (x : Int) : Int := (x + 9223372036854775808) % 18446744073709551616 - 9223372036854775808

/-- Lines 147-169 of `newBlockManager`: the fields `blocksPerRetarget`,
`minRetargetTimespan` and `maxRetargetTimespan` from the chain parameters
`TargetTimespan`, `TargetTimePerBlock` and `RetargetAdjustmentFactor` (all `int64`).
`none` is the panic of a division by zero. -/
def retargetFields (targetTimespan targetTimePerBlock adjustmentFactor : Int) :
    Option (Int × Int × Int) :=
  if targetTimePerBlock = 0 ∨ adjustmentFactor = 0 then none
  else
    some (i32 (Int.tdiv targetTimespan targetTimePerBlock),
          Int.tdiv targetTimespan adjustmentFactor,
          i64 (targetTimespan * adjustmentFactor))

/-- A manager over the store `g0` whose in-memory tip is `h1` at height 2015, the last
height before a retarget. -/
def retargetBM : BM Durable :=
  sampleBM [⟨g0, 0⟩] [⟨h1, 2015⟩] none none 0


/-- An in-memory chain whose nodes at the heights 5 and 4 carry the floor difficulty of
`sampleEnv` (bits 1000) and whose node at height 3 carries the bits 100. -/
def floorChain : List Node :=
  [⟨{ g0 with Bits := 1000, Nonce := 5 }, 5⟩, ⟨{ g0 with Bits := 1000, Nonce := 4 }, 4⟩,
   ⟨{ g0 with Bits := 100, Nonce := 3 }, 3⟩]


/-! ## Uncheckpointed filter headers -/

/-- Lines 614-624 of `getUncheckpointedCFHeaders`: the bad peers are banned, when still
connected, and their responses deleted. -/
def dropBadPeers {σ : Type} (net : Network) :
    List Peer → BM σ → PeerMap MsgCFHeaders → BM σ × PeerMap MsgCFHeaders
  | [], b, headers => (b, headers)
  | peer :: rest, b, headers =>
    dropBadPeers net rest (banIfConnected net b peer) (headers.delete peer)

/-- Lines 577-626: `n` rounds of the loop over the positions, from position `i`.  The
result is the manager and, unless the loop returned an error, the responses left
together with the peers deleted so far (the latter is not a variable of the code). -/
def reconcileLoop {σ : Type} (env : Env σ) (net : Network) (fType : Nat) (startHeight : Nat) :
    Nat → Nat → BM σ → PeerMap MsgCFHeaders → List Peer →
      BM σ × Option (PeerMap MsgCFHeaders × List Peer)
  | 0, _, b, headers, dropped => (b, some (headers, dropped))
  | n + 1, i, b, headers, dropped =>
    if checkForCFHeaderMismatch headers i then
      let targetHeight := u32 ((startHeight : Int) + u32 i)
      match env.BlockHeaders.FetchHeaderByHeight b.server targetHeight with
      | none => (b, none)
      | some header =>
        match net.GetBlock b.trace (env.BlockHash header) with
        | none => (b, none)
        | some block =>
          let filtersFromPeers :=
            fetchFilterFromAllPeers net b.trace targetHeight (env.BlockHash header) fType
          match resolveCFHeaderMismatch env net block fType filtersFromPeers with
          | none => (b, none)
          | some badPeers =>
            match dropBadPeers net badPeers b headers with
            | (b, headers) =>
              reconcileLoop env net fType startHeight n (i + 1) b headers (dropped ++ badPeers)
    else reconcileLoop env net fType startHeight n (i + 1) b headers dropped

/-- Lines 628-633: the key of a longest response and its length.  The key `none` is
the empty string the code starts with, the address of no peer. -/
def longestResponse : PeerMap MsgCFHeaders → Option Peer → Nat → Option Peer × Nat
  | [], key, maxLen => (key, maxLen)
  | (peer, msg) :: rest, key, maxLen =>
    if msg.FilterHashes.length > maxLen then
      longestResponse rest (some peer) msg.FilterHashes.length
    else longestResponse rest key maxLen

/-- The Go function `getUncheckpointedCFHeaders`, on the regular filter-header store:
whether it returns an error (or panics) and the manager it leaves. -/
def getUncheckpointedCFHeaders {σ : Type} (env : Env σ) (net : Network) (b : BM σ)
    (fType : Nat) : Res Unit × BM σ :=
  match env.RegFilterHeaders.ChainTip b.server with
  | none => (.err, b)
  | some (_, filtHeight) =>
    match env.BlockHeaders.ChainTip b.server with
    | none => (.err, b)
    | some (_, blockHeight) =>
      if blockHeight < filtHeight then (.err, b)
      else if blockHeight = filtHeight then (.ok (), b)
      else
        let startHeight := u32 ((filtHeight : Int) + 1)
        match getCFHeadersForAllPeers env net b startHeight fType with
        | .panic => (.panic, b)
        | .err => (.err, b)
        | .ok headers =>
          if headers.length = 0 then (.err, b)
          else
            match reconcileLoop env net fType startHeight net.MaxCFHeadersPerMsg 0 b headers [] with
            | (b, none) => (.err, b)
            | (b, some (headers, _)) =>
              match (longestResponse headers none 0).1 with
              | none => (.err, b)
              | some key =>
                match headers.get key with
                | none => (.err, b)
                | some pristineHeaders =>
                  match writeCFHeadersMsg env b pristineHeaders with
                  | (.ok _, b) => (.ok (), b)
                  | (.err, b) => (.err, b)
                  | (.panic, b) => (.panic, b)

/-- A network in which the peers 1, 2 and 3 answer the cfheaders query, peer 2
disagreeing with the others at the first position, the block of `h1` has the single
output script `[7]`, and the filters served for it are `[7]` by the peers 1 and 3 and
`[8]` by peer 2. -/
def reconcileNet : Network :=
  sampleNet
    [(1, sampleCFHeaders [21]), (2, sampleCFHeaders [22, 23]), (3, sampleCFHeaders [21, 24])]
    [(1, { FilterType := GCSFilterRegular, BlockHash := sampleHash h1, Data := [7] }),
     (2, { FilterType := GCSFilterRegular, BlockHash := sampleHash h1, Data := [8] }),
     (3, { FilterType := GCSFilterRegular, BlockHash := sampleHash h1, Data := [7] })]
    [(sampleHash h1, { Header := h1, Transactions := [[[7]]] })]


/-- Whether `handleHeadersMsg` ended in a panic. -/
def Outcome.panics {σ : Type} : Outcome σ → Bool
  | .panicked _ => true
  | .returned _ => false

/-- A branch `q1, q2, q3` that forks from `g0`. -/
def q1 : BlockHeader := child g0 21
/-- The second header of the branch from `g0`. -/
def q2 : BlockHeader := child q1 22
/-- The third header of the branch from `g0`. -/
def q3 : BlockHeader := child q2 23


/-! ## Agreement between peers -/

/-- No response carries the zero hash as its filter hash at position `idx`. -/
def NoZeroAt (idx : Nat) (headers : PeerMap MsgCFHeaders) : Prop :=
  ∀ e ∈ headers, e.2.FilterHashes[idx]? ≠ some zeroHash

/-- Two responses hold more than `idx` filter hashes and differ at position `idx`. -/
def DisagreeAt (idx : Nat) (headers : PeerMap MsgCFHeaders) : Prop :=
  ∃ e ∈ headers, ∃ e' ∈ headers, ∃ a a',
    e.2.FilterHashes[idx]? = some a ∧ e'.2.FilterHashes[idx]? = some a' ∧ a ≠ a'

/-- A cfheaders response, of whatever stop hash, with the given filter hashes. -/
def plainCFHeaders (filterHashes : List Hash) : MsgCFHeaders :=
  { FilterType := GCSFilterRegular, StopHash := 0, PrevFilterHeader := 0,
    FilterHashes := filterHashes }


/-- All checkpoint lists that reach index `i` hold the same checkpoint there. -/
def AgreeAt (i : Nat) (cp : PeerMap (List Hash)) : Prop :=
  ∀ e ∈ cp, ∀ e' ∈ cp, ∀ a a', e.2[i]? = some a → e'.2[i]? = some a' → a = a'

/-- The checkpoints the peers report at index `i` are the filter header the store holds
at the height `(i + 1) * CFCheckptInterval`, when the store has reached that height. -/
def StoreAgreesAt {σ : Type} (env : Env σ) (server : σ) (storeTip : Nat)
    (cp : PeerMap (List Hash)) (i : Nat) : Prop :=
  (i + 1) * CFCheckptInterval ≤ storeTip →
    ∀ e ∈ cp, ∀ a, e.2[i]? = some a →
      env.RegFilterHeaders.FetchHeaderByHeight server ((i + 1) * CFCheckptInterval) = some a


/-! ## `cfHandler`: checkpoint negotiation -/

/-- A `wire.MsgCFCheckpt`. -/
structure MsgCFCheckpt where
  FilterType : Nat
  StopHash : Hash
  FilterHeaders : List Hash
deriving DecidableEq, Repr

/-- The Go function `getCheckpts`, for the replies `queryAllPeers` hands to its
callback, in order. -/
def getCheckpts (replies : List (Peer × MsgCFCheckpt)) (lastHash : Hash) (fType : Nat) :
    PeerMap (List Hash) :=
  replies.foldl
    (fun checkpoints r =>
      if r.2.FilterType = fType ∧ r.2.StopHash = lastHash then
        checkpoints.insert r.1 r.2.FilterHeaders
      else checkpoints) []

/-- The Go function `minCheckpointHeight`. -/
def minCheckpointHeight (checkpoints : PeerMap (List Hash)) : Nat :=
  if checkpoints.length = 0 then 0
  else
    checkpoints.foldl
      (fun minHeight e =>
        let height := u32 ((e.2.length : Int) * CFCheckptInterval)
        if height < minHeight then height else minHeight) 4294967295

/-- Lines 449-455 of `cfHandler`: the checkpoints of one peer, from index `i`, up to the
first whose height is above `lastHeight`. -/
def capList (lastHeight : Nat) : List Hash → Nat → List Hash
  | [], _ => []
  | cp :: rest, i =>
    if u32 ((u32 ((i : Int) + 1) : Int) * CFCheckptInterval) > lastHeight then []
    else cp :: capList lastHeight rest (i + 1)

/-- Lines 447-456 of `cfHandler`: the checkpoints capped at `lastHeight`; a peer none of
whose checkpoints is kept gets no entry. -/
def capCheckpoints (lastHeight : Nat) (allCFCheckpoints : PeerMap (List Hash)) :
    PeerMap (List Hash) :=
  allCFCheckpoints.foldl
    (fun checkpoints e =>
      match capList lastHeight e.2 0 with
      | [] => checkpoints
      | kept => checkpoints.insert e.1 kept) []

/-- The variables of the negotiation loop of `cfHandler`.  `queries` and `resolutions`
are not variables of the code: they count the calls of `getCheckpts` and of
`resolveConflict`. -/
structure Negotiation (σ : Type) where
  b : BM σ
  allCFCheckpoints : PeerMap (List Hash)
  goodCheckpoints : List Hash
  queries : Nat
  resolutions : Nat
  panicked : Bool

/-- Lines 408-475 of `cfHandler`: at most `rounds` rounds of the negotiation loop, the
quit signal never being given.  `CFCheckptReplies` are the replies to a cfcheckpt query,
which may depend on the calls made so far. -/
def negotiate {σ : Type} (env : Env σ) (net : Network)
    (CFCheckptReplies : List Event → Nat → Hash → List (Peer × MsgCFCheckpt)) (fType : Nat)
    (lastHeight : Nat) (lastHash : Hash) (lastCp : Checkpoint) :
    Nat → Negotiation σ → Negotiation σ
  | 0, s => s
  | rounds + 1, s =>
    if s.goodCheckpoints.length = 0 ∧ lastHeight ≥ CFCheckptInterval then
      let queried : Option (PeerMap (List Hash)) :=
        if minCheckpointHeight s.allCFCheckpoints < lastHeight then
          let bestHash := if lastHeight < u32 lastCp.Height then lastCp.Hash else lastHash
          some (getCheckpts (CFCheckptReplies s.b.trace fType bestHash) bestHash fType)
        else none
      match queried with
      | some [] =>
        negotiate env net CFCheckptReplies fType lastHeight lastHash lastCp rounds
          { s with allCFCheckpoints := [], queries := s.queries + 1 }
      | queried =>
        let s := match queried with
          | some all => { s with allCFCheckpoints := all, queries := s.queries + 1 }
          | none => s
        let checkpoints := capCheckpoints lastHeight s.allCFCheckpoints
        let r := resolveConflict env net s.b checkpoints fType
        if r.panicked then
          { s with b := r.b, resolutions := s.resolutions + 1, panicked := true }
        else
          negotiate env net CFCheckptReplies fType lastHeight lastHash lastCp rounds
            { s with b := r.b, goodCheckpoints := r.result.getD [],
                     resolutions := s.resolutions + 1 }
    else s

/-- Lines 376-377 of `cfHandler`: whether the wait for more block headers is over. -/
def waitOver {σ : Type} (env : Env σ) (b : BM σ) : Bool :=
  decide (u32 ((b.filterHeaderTip : Int) + CFCheckptInterval) ≤ b.headerTip) ||
    BlockHeadersSynced env b

/-- Lines 388-475 of `cfHandler`: from the end of the wait for block headers to the end
of the negotiation loop, run for at most `rounds` rounds.  `allCFCheckpoints` is the
variable of line 353 as this pass finds it: it is declared before the label
`waitForHeaders`, so it is nil on the first pass and holds what the pass before left in it
after a `goto waitForHeaders` (lines 482-491).  `none` is the return on a failed
`ChainTip`. -/
def negotiateCheckpoints {σ : Type} (env : Env σ) (net : Network)
    (CFCheckptReplies : List Event → Nat → Hash → List (Peer × MsgCFCheckpt)) (b : BM σ)
    (allCFCheckpoints : PeerMap (List Hash)) (rounds : Nat) : Option (Negotiation σ) :=
  match env.BlockHeaders.ChainTip b.server with
  | none => none
  | some (lastHeader, lastHeight) =>
    let lastCp := env.chainParams.Checkpoints.getLast?.getD { Height := 0, Hash := zeroHash }
    some (negotiate env net CFCheckptReplies GCSFilterRegular lastHeight
      (env.BlockHash lastHeader) lastCp rounds
      { b := b, allCFCheckpoints := allCFCheckpoints, goodCheckpoints := [], queries := 0,
        resolutions := 0, panicked := false })

/-- The manager `fetchBM` with the block-header tip 2000 and the filter-header tip 1500
recorded. -/
def tipBM : BM Durable :=
  { fetchBM with headerTip := 2000, filterHeaderTip := 1500 }

/-! # Properties -/

/-! ## Checkpoint search -/

theorem findPrevLoop_spec (height : Int) :
    ∀ (cps : List Checkpoint) (prev : Checkpoint), SortedCheckpoints cps →
      ((∀ c ∈ cps, height ≤ c.Height) ∧ findPrevLoop height cps prev = prev) ∨
      (findPrevLoop height cps prev ∈ cps ∧ (findPrevLoop height cps prev).Height < height ∧
        ∀ c ∈ cps, c.Height < height → c.Height ≤ (findPrevLoop height cps prev).Height) := by
  intro cps
  induction cps with
  | nil => intro prev _; left; simp [findPrevLoop]
  | cons c rest ih =>
    intro prev hs
    have hs' := List.pairwise_cons.mp hs
    by_cases hc : height ≤ c.Height
    · left
      refine ⟨?_, by simp [findPrevLoop, hc]⟩
      intro d hd
      rcases List.mem_cons.mp hd with rfl | hd
      · exact hc
      · have := hs'.1 d hd; omega
    · right
      have hlt : c.Height < height := by omega
      have hstep : findPrevLoop height (c :: rest) prev = findPrevLoop height rest c := by
        simp [findPrevLoop, hc]
      rw [hstep]
      rcases ih c hs'.2 with ⟨hall, heq⟩ | ⟨hmem, hlt', hmax⟩
      · rw [heq]
        refine ⟨List.mem_cons_self _ _, hlt, ?_⟩
        intro d hd hdlt
        rcases List.mem_cons.mp hd with rfl | hd
        · exact le_refl _
        · have := hall d hd; omega
      · refine ⟨List.mem_cons_of_mem _ hmem, hlt', ?_⟩
        intro d hd hdlt
        rcases List.mem_cons.mp hd with rfl | hd
        · have := hs'.1 _ hmem; omega
        · exact hmax d hd hdlt

theorem findNextLoop_spec (height : Int) :
    ∀ (ds : List Checkpoint) (next : Checkpoint),
      ds.Pairwise (fun a b => b.Height < a.Height) → (∀ d ∈ ds, d.Height < next.Height) →
      height < next.Height →
      (findNextLoop height ds next ∈ next :: ds ∧ height < (findNextLoop height ds next).Height ∧
        ∀ c ∈ next :: ds, height < c.Height → (findNextLoop height ds next).Height ≤ c.Height) := by
  intro ds
  induction ds with
  | nil =>
    intro next _ _ hn
    simp only [findNextLoop]
    refine ⟨List.mem_cons_self _ _, hn, ?_⟩
    intro c hc _
    rcases List.mem_cons.mp hc with rfl | hc
    · exact le_refl _
    · simp at hc
  | cons d rest ih =>
    intro next hs hlt hn
    have hs' := List.pairwise_cons.mp hs
    by_cases hd : height ≥ d.Height
    · have hstep : findNextLoop height (d :: rest) next = next := by simp [findNextLoop, hd]
      rw [hstep]
      refine ⟨List.mem_cons_self _ _, hn, ?_⟩
      intro c hc hgt
      rcases List.mem_cons.mp hc with rfl | hc
      · exact le_refl _
      · rcases List.mem_cons.mp hc with rfl | hc
        · omega
        · have := hs'.1 c hc; omega
    · have hstep : findNextLoop height (d :: rest) next = findNextLoop height rest d := by
        simp [findNextLoop, hd]
      rw [hstep]
      have hdn : d.Height < next.Height := hlt d (List.mem_cons_self _ _)
      obtain ⟨hmem, hgt, hmin⟩ := ih d hs'.2 (fun e he => hs'.1 e he) (by omega)
      refine ⟨List.mem_cons_of_mem _ hmem, hgt, ?_⟩
      intro c hc hcgt
      rcases List.mem_cons.mp hc with rfl | hc
      · have : (findNextLoop height rest d).Height ≤ d.Height := hmin d (List.mem_cons_self _ _) (by omega)
        omega
      · exact hmin c hc hcgt

theorem findNextHeaderCheckpoint_spec (P : Params) (height : Int)
    (hs : SortedCheckpoints P.Checkpoints) :
    (findNextHeaderCheckpoint P height = none ∧ ∀ c ∈ P.Checkpoints, c.Height ≤ height) ∨
    (∃ r, findNextHeaderCheckpoint P height = some r ∧ r ∈ P.Checkpoints ∧ height < r.Height ∧
      ∀ c ∈ P.Checkpoints, height < c.Height → r.Height ≤ c.Height) := by
  unfold findNextHeaderCheckpoint
  rcases List.eq_nil_or_concat P.Checkpoints with hnil | ⟨L, final, hcat⟩
  · left; simp [hnil]
  · rw [List.concat_eq_append] at hcat
    rw [hcat] at hs ⊢
    have hp := List.pairwise_append.mp hs
    have hl : (L ++ [final]).getLast? = some final := by simp
    have hdl : (L ++ [final]).dropLast = L := by simp
    have hfin : ∀ a ∈ L, a.Height < final.Height := fun a ha =>
      hp.2.2 a ha final (List.mem_singleton_self _)
    rw [hl, hdl]
    simp only []
    by_cases hge : height ≥ final.Height
    · left
      refine ⟨by simp [hge], ?_⟩
      intro c hc
      rcases List.mem_append.mp hc with hc | hc
      · have := hfin c hc; omega
      · rw [List.mem_singleton.mp hc]; exact hge
    · right
      have hrev : (L.reverse).Pairwise (fun a b => b.Height < a.Height) :=
        List.pairwise_reverse.mpr hp.1
      obtain ⟨hmem, hgt, hmin⟩ := findNextLoop_spec height L.reverse final hrev
        (fun d hd => hfin d (List.mem_reverse.mp hd)) (by omega)
      refine ⟨_, by simp [hge], ?_, hgt, ?_⟩
      · rcases List.mem_cons.mp hmem with h | h
        · rw [h]; simp
        · exact List.mem_append_left _ (List.mem_reverse.mp h)
      · intro c hc hcgt
        apply hmin c _ hcgt
        rcases List.mem_append.mp hc with hc | hc
        · exact List.mem_cons_of_mem _ (List.mem_reverse.mpr hc)
        · rw [List.mem_singleton.mp hc]; exact List.mem_cons_self _ _

theorem findPreviousHeaderCheckpoint_spec (P : Params) (height : Int)
    (hs : SortedCheckpoints P.Checkpoints) :
    ((∀ c ∈ P.Checkpoints, height ≤ c.Height) ∧
      findPreviousHeaderCheckpoint P height = { Height := 0, Hash := P.GenesisHash }) ∨
    (findPreviousHeaderCheckpoint P height ∈ P.Checkpoints ∧
      (findPreviousHeaderCheckpoint P height).Height < height ∧
      ∀ c ∈ P.Checkpoints, c.Height < height →
        c.Height ≤ (findPreviousHeaderCheckpoint P height).Height) :=
  findPrevLoop_spec height P.Checkpoints _ hs

/-! ## The loop of `handleHeadersMsg` -/

theorem headersLoop_roundStart {σ : Type} (env : Env σ) (peer : Peer) (maxTimestamp : Int)
    (l0 : LoopState σ) {i : Nat} {l : LoopState σ}
    (h : RoundStart env peer maxTimestamp l0 i l) :
    ∀ n, headersLoop env peer maxTimestamp (i + n) 0 l0
      = headersLoop env peer maxTimestamp n i l := by
  induction h with
  | start => intro n; rw [Nat.zero_add]
  | step _ hbody ih =>
    intro n
    rw [Nat.add_assoc, Nat.add_comm 1 n, ih (n + 1)]
    simp only [headersLoop, hbody]

theorem handleHeadersMsg_round {σ : Type} (env : Env σ) (b : BM σ) (peer : Peer)
    (Headers : List BlockHeader) (bbHeight : Int) (i : Nat) (l : LoopState σ)
    (hbb : env.BestBlock b.server = some bbHeight) (hi : i < Headers.length)
    (h : RoundStart env peer (maxTimestampFor env bbHeight) (initLoop b Headers) i l) :
    handleHeadersMsg env b peer Headers =
      match loopBody env peer (maxTimestampFor env bbHeight) l i with
      | .ret b => .returned b
      | .panic b => .panicked b
      | .brk l => afterLoop env peer l
      | .cont l =>
        (match headersLoop env peer (maxTimestampFor env bbHeight) (Headers.length - i - 1)
            (i + 1) l with
          | .ret b => .returned b
          | .panic b => .panicked b
          | .brk l => afterLoop env peer l
          | .cont l => afterLoop env peer l
          | .fall l _ => afterLoop env peer l)
      | .fall l _ =>
        (match headersLoop env peer (maxTimestampFor env bbHeight) (Headers.length - i - 1)
            (i + 1) l with
          | .ret b => .returned b
          | .panic b => .panicked b
          | .brk l => afterLoop env peer l
          | .cont l => afterLoop env peer l
          | .fall l _ => afterLoop env peer l) := by
  have hlen : Headers.length = i + ((Headers.length - i - 1) + 1) := by omega
  have hne : ¬ Headers.length = 0 := by omega
  unfold handleHeadersMsg
  simp only [hne, if_false, hbb]
  have := headersLoop_roundStart env peer (maxTimestampFor env bbHeight) (initLoop b Headers) h
    ((Headers.length - i - 1) + 1)
  rw [← hlen] at this
  rw [this]
  simp only [headersLoop]
  cases loopBody env peer (maxTimestampFor env bbHeight) l i <;> rfl

@[simp] theorem emit_trace {σ : Type} (b : BM σ) (e : Event) : (emit b e).trace = b.trace ++ [e] := rfl
@[simp] theorem emit_server {σ : Type} (b : BM σ) (e : Event) : (emit b e).server = b.server := rfl
@[simp] theorem emit_nextCheckpoint {σ : Type} (b : BM σ) (e : Event) :
    (emit b e).nextCheckpoint = b.nextCheckpoint := rfl
@[simp] theorem emit_syncPeer {σ : Type} (b : BM σ) (e : Event) : (emit b e).syncPeer = b.syncPeer := rfl
@[simp] theorem emit_headerList {σ : Type} (b : BM σ) (e : Event) :
    (emit b e).headerList = b.headerList := rfl

theorem loopBody_checkpoint_match {σ : Type} (env : Env σ) (peer : Peer) (maxTimestamp : Int)
    (l : LoopState σ) (i : Nat) (blockHeader checked : BlockHeader) (prevNode : Node)
    (rest : List Node) (cp : Checkpoint)
    (hi : l.Headers[i]? = some blockHeader) (hl : l.b.headerList = prevNode :: rest)
    (hlink : env.BlockHash prevNode.Header = blockHeader.PrevBlock)
    (hsane : checkHeaderSanity env l.b blockHeader maxTimestamp false (i32 (prevNode.Height + 1))
      = (checked, .ok ()))
    (hcp : l.b.nextCheckpoint = some cp) (hheight : i32 (prevNode.Height + 1) = cp.Height)
    (hhash : env.BlockHash blockHeader = cp.Hash) :
    ∃ l', loopBody env peer maxTimestamp l i = .brk l' ∧ l'.receivedCheckpoint = true ∧
      l'.finalHeight = cp.Height ∧ l'.b.nextCheckpoint = some cp ∧
      l'.headerWriteBatch = l.headerWriteBatch ++ [(i, u32 cp.Height)] ∧
      l'.b.server = l.b.server := by
  rw [hheight] at hsane
  simp only [loopBody, hi, hl, hlink, if_true, connectBranch, hheight, hsane, checkpointCheck,
    emit_nextCheckpoint, hcp, hhash]
  exact ⟨_, rfl, rfl, rfl, rfl, rfl, rfl⟩

theorem loopBody_checkpoint_mismatch {σ : Type} (env : Env σ) (peer : Peer) (maxTimestamp : Int)
    (l : LoopState σ) (i : Nat) (blockHeader checked : BlockHeader) (prevNode : Node)
    (rest : List Node) (cp : Checkpoint)
    (hi : l.Headers[i]? = some blockHeader) (hl : l.b.headerList = prevNode :: rest)
    (hlink : env.BlockHash prevNode.Header = blockHeader.PrevBlock)
    (hsane : checkHeaderSanity env l.b blockHeader maxTimestamp false (i32 (prevNode.Height + 1))
      = (checked, .ok ()))
    (hcp : l.b.nextCheckpoint = some cp) (hheight : i32 (prevNode.Height + 1) = cp.Height)
    (hhash : env.BlockHash blockHeader ≠ cp.Hash) :
    ∃ b', loopBody env peer maxTimestamp l i = .ret b' ∧
      b'.server = (env.rollBackToHeight l.b.server
        (u32 (findPreviousHeaderCheckpoint env.chainParams cp.Height).Height)).1 ∧
      b'.nextCheckpoint = some cp ∧
      newEvents l.b b' = [.UpdateLastBlockHeight peer cp.Height,
        .RollBack (u32 (findPreviousHeaderCheckpoint env.chainParams cp.Height).Height)
          (env.rollBackToHeight l.b.server
            (u32 (findPreviousHeaderCheckpoint env.chainParams cp.Height).Height)).2,
        .Disconnect peer] := by
  rw [hheight] at hsane
  simp only [loopBody, hi, hl, hlink, if_true, connectBranch, hheight, hsane, checkpointCheck,
    emit_nextCheckpoint, hcp, hhash, if_false]
  exact ⟨_, rfl, rfl, rfl, by simp [newEvents]⟩

theorem reorgSanityLoop_nextCheckpoint {σ : Type} (env : Env σ) (maxTimestamp height : Int)
    (backHeight : Nat) :
    ∀ (hs : List BlockHeader) (j : Nat) (b : BM σ) (w : Int),
      (reorgSanityLoop env maxTimestamp height backHeight hs j b w).1.nextCheckpoint
        = b.nextCheckpoint := by
  intro hs
  induction hs with
  | nil => intro j b w; rfl
  | cons h rest ih =>
    intro j b w
    simp only [reorgSanityLoop]
    split
    · rfl
    · rfl
    · rw [ih]

theorem checkpointCheck_nextCheckpoint {σ : Type} (env : Env σ) (peer : Peer) (l : LoopState σ)
    (node : Node) : (checkpointCheck env peer l node).bm.nextCheckpoint = l.b.nextCheckpoint := by
  unfold checkpointCheck
  split
  · rfl
  · split
    · split <;> rfl
    · rfl

theorem connectBranch_nextCheckpoint {σ : Type} (env : Env σ) (peer : Peer) (maxTimestamp : Int)
    (l : LoopState σ) (i : Nat) (blockHeader : BlockHeader) (prevNode : Node) :
    (connectBranch env peer maxTimestamp l i blockHeader prevNode).bm.nextCheckpoint
      = l.b.nextCheckpoint := by
  unfold connectBranch
  simp only
  split <;> rfl

theorem reextend_frame {σ : Type} (env : Env σ) (b : BM σ) (checked backHead : BlockHeader)
    (backHeight : Nat) :
    (reextend env b checked backHead backHeight).nextCheckpoint = b.nextCheckpoint ∧
    (reextend env b checked backHead backHeight).syncPeer = b.syncPeer ∧
    (reextend env b checked backHead backHeight).trace = b.trace ++
      [.WriteHeaders [{ Header := checked, Height := u32 (backHeight + 1) }]
        (env.BlockHeaders.WriteHeaders b.server
          [{ Header := checked, Height := u32 (backHeight + 1) }]).isSome] := by
  unfold reextend
  simp only
  cases env.BlockHeaders.WriteHeaders b.server
    [{ Header := checked, Height := u32 (backHeight + 1) }] <;> exact ⟨rfl, rfl, rfl⟩

theorem acceptReorg_nextCheckpoint {σ : Type} (env : Env σ) (peer : Peer) (l : LoopState σ)
    (b : BM σ) (hdrs : List BlockHeader) (original checked backHead : BlockHeader)
    (backHeight : Nat) :
    (acceptReorg env peer l b hdrs original checked backHead backHeight).bm.nextCheckpoint
      = b.nextCheckpoint := by
  unfold acceptReorg
  simp only
  split
  · rfl
  · simp only [Flow.bm, (reextend_frame env _ checked backHead backHeight).1]
    rfl

theorem reorgBranch_nextCheckpoint {σ : Type} (env : Env σ) (peer : Peer) (maxTimestamp : Int)
    (l : LoopState σ) (i : Nat) (blockHeader : BlockHeader) (blockHash prevHash : Hash)
    (prevNode : Node) :
    (reorgBranch env peer maxTimestamp l i blockHeader blockHash prevHash prevNode).bm.nextCheckpoint
      = l.b.nextCheckpoint := by
  unfold reorgBranch
  simp only
  split
  · rfl
  split
  · rfl
  split
  · rfl
  split
  · rfl
  split
  · rfl
  rename_i backHead backHeight _ _
  have key := reorgSanityLoop_nextCheckpoint env maxTimestamp (i32 (prevNode.Height + 1))
    backHeight (List.drop i l.Headers) 0
    { l.b with reorgList := ResetHeaderState { Header := backHead, Height := i32 backHeight } } 0
  split
  · rename_i hloop; rw [hloop] at key; exact key
  · rename_i hloop; rw [hloop] at key; exact key
  · rename_i hloop; rw [hloop] at key
    split
    · exact key
    · split
      · exact key
      · split
        · exact key
        · rw [acceptReorg_nextCheckpoint]; exact key

theorem loopBody_nextCheckpoint {σ : Type} (env : Env σ) (peer : Peer) (maxTimestamp : Int)
    (l : LoopState σ) (i : Nat) :
    (loopBody env peer maxTimestamp l i).bm.nextCheckpoint = l.b.nextCheckpoint := by
  unfold loopBody
  split
  · rfl
  · rename_i x blockHeader hq
    simp only
    split
    · rfl
    · rename_i y prevNode rest hl
      have key : (if env.BlockHash prevNode.Header = blockHeader.PrevBlock then
            connectBranch env peer maxTimestamp { l with finalHash := env.BlockHash blockHeader }
              i blockHeader prevNode
          else reorgBranch env peer maxTimestamp { l with finalHash := env.BlockHash blockHeader }
            i blockHeader (env.BlockHash blockHeader) (env.BlockHash prevNode.Header)
            prevNode).bm.nextCheckpoint = l.b.nextCheckpoint := by
        split
        · rw [connectBranch_nextCheckpoint]
        · rw [reorgBranch_nextCheckpoint]
      split
      · rename_i l1 node hr
        rw [checkpointCheck_nextCheckpoint]
        rw [hr] at key
        exact key
      · exact key

theorem roundStart_nextCheckpoint {σ : Type} (env : Env σ) (peer : Peer) (maxTimestamp : Int)
    (l0 : LoopState σ) {i : Nat} {l : LoopState σ}
    (h : RoundStart env peer maxTimestamp l0 i l) : l.b.nextCheckpoint = l0.b.nextCheckpoint := by
  induction h with
  | start => rfl
  | @step j l1 l2 _ hbody ih =>
    have h3 := loopBody_nextCheckpoint env peer maxTimestamp l1 j
    rw [hbody] at h3
    exact h3.trans ih

theorem afterLoop_received {σ : Type} (env : Env σ) (peer : Peer) (l : LoopState σ)
    (hwrite : ∀ d batch, env.BlockHeaders.WriteHeaders d batch ≠ none)
    (hr : l.receivedCheckpoint = true) :
    ∃ b', afterLoop env peer l = .returned b' ∧
      b'.nextCheckpoint = findNextHeaderCheckpoint env.chainParams l.finalHeight := by
  unfold afterLoop
  simp only [hr, if_true]
  by_cases hlen : (derefBatch l).length > 0
  · simp only [hlen, if_true]
    cases hw : env.BlockHeaders.WriteHeaders l.b.server (derefBatch l) with
    | none => exact absurd hw (hwrite _ _)
    | some srv =>
      simp only
      split
      · split
        · exact ⟨_, rfl, rfl⟩
        · exact ⟨_, rfl, rfl⟩
      · exact ⟨_, rfl, rfl⟩
  · simp only [hlen, if_false]
    split
    · split
      · exact ⟨_, rfl, rfl⟩
      · exact ⟨_, rfl, rfl⟩
    · exact ⟨_, rfl, rfl⟩

/-- C5: when a header that extends the tip lands exactly on the height of the next
expected checkpoint and its hash equals the checkpoint hash, `handleHeadersMsg` returns
(the store accepting the write of the batch) and the next-checkpoint pointer it leaves is
the checkpoint of least height strictly above the matched one, or nil when no checkpoint
is higher, the matched one being the final one; checkpoints are sorted by strictly
increasing height. -/
theorem checkpoint_match_advances_pointer {σ : Type} (env : Env σ) (b : BM σ) (peer : Peer)
    (Headers : List BlockHeader) (bbHeight : Int) (i : Nat) (l : LoopState σ)
    (blockHeader checked : BlockHeader) (prevNode : Node) (rest : List Node) (cp : Checkpoint)
    (hsorted : SortedCheckpoints env.chainParams.Checkpoints)
    (hwrite : ∀ d batch, env.BlockHeaders.WriteHeaders d batch ≠ none)
    (hbb : env.BestBlock b.server = some bbHeight) (hi : i < Headers.length)
    (hround : RoundStart env peer (maxTimestampFor env bbHeight) (initLoop b Headers) i l)
    (hhdr : l.Headers[i]? = some blockHeader) (hl : l.b.headerList = prevNode :: rest)
    (hlink : env.BlockHash prevNode.Header = blockHeader.PrevBlock)
    (hsane : checkHeaderSanity env l.b blockHeader (maxTimestampFor env bbHeight) false
      (i32 (prevNode.Height + 1)) = (checked, .ok ()))
    (hcp : l.b.nextCheckpoint = some cp) (hheight : i32 (prevNode.Height + 1) = cp.Height)
    (hhash : env.BlockHash blockHeader = cp.Hash) :
    ∃ b', handleHeadersMsg env b peer Headers = .returned b' ∧
      ((b'.nextCheckpoint = none ∧ ∀ c ∈ env.chainParams.Checkpoints, c.Height ≤ cp.Height) ∨
       (∃ r, b'.nextCheckpoint = some r ∧ r ∈ env.chainParams.Checkpoints ∧
          cp.Height < r.Height ∧
          ∀ c ∈ env.chainParams.Checkpoints, cp.Height < c.Height → r.Height ≤ c.Height)) := by
  obtain ⟨l', hbody, hrec, hfin, _, _, _⟩ := loopBody_checkpoint_match env peer
    (maxTimestampFor env bbHeight) l i blockHeader checked prevNode rest cp hhdr hl hlink hsane
    hcp hheight hhash
  obtain ⟨b', hafter, hnext⟩ := afterLoop_received env peer l' hwrite hrec
  refine ⟨b', ?_, ?_⟩
  · rw [handleHeadersMsg_round env b peer Headers bbHeight i l hbb hi hround, hbody]
    exact hafter
  · rw [hnext, hfin]
    rcases findNextHeaderCheckpoint_spec env.chainParams cp.Height hsorted with h | ⟨r, h1, h2⟩
    · left; exact h
    · right; exact ⟨r, h1, h2⟩

theorem checkpoint_match_advances_pointer_witness :
    ∃ b', handleHeadersMsg (sampleEnv [⟨3, sampleHash c3⟩, ⟨5, 77⟩])
        (sampleBM log3 mem3 (some ⟨3, sampleHash c3⟩) (some 7) 0) 7 [c3] = .returned b' ∧
      ((b'.nextCheckpoint = none ∧
          ∀ c ∈ (sampleEnv [⟨3, sampleHash c3⟩, ⟨5, 77⟩]).chainParams.Checkpoints,
            c.Height ≤ (⟨3, sampleHash c3⟩ : Checkpoint).Height) ∨
       (∃ r, b'.nextCheckpoint = some r ∧
          r ∈ (sampleEnv [⟨3, sampleHash c3⟩, ⟨5, 77⟩]).chainParams.Checkpoints ∧
          (⟨3, sampleHash c3⟩ : Checkpoint).Height < r.Height ∧
          ∀ c ∈ (sampleEnv [⟨3, sampleHash c3⟩, ⟨5, 77⟩]).chainParams.Checkpoints,
            (⟨3, sampleHash c3⟩ : Checkpoint).Height < c.Height → r.Height ≤ c.Height)) :=
  checkpoint_match_advances_pointer (sampleEnv [⟨3, sampleHash c3⟩, ⟨5, 77⟩])
    (sampleBM log3 mem3 (some ⟨3, sampleHash c3⟩) (some 7) 0) 7 [c3] 2 0
    (initLoop (sampleBM log3 mem3 (some ⟨3, sampleHash c3⟩) (some 7) 0) [c3]) c3 c3
    ⟨h2, 2⟩ [⟨h1, 1⟩, ⟨g0, 0⟩] ⟨3, sampleHash c3⟩
    (by unfold SortedCheckpoints; decide) (by intro d batch h; cases h) rfl (by decide)
    .start rfl rfl (by decide) (by decide) rfl (by decide) (by decide)

/-- C4, as amended: when a header that extends the tip lands exactly on the height of
the next expected checkpoint and its hash differs from the checkpoint hash,
`handleHeadersMsg` returns with the durable state rolled back to the height of the
previous checkpoint (the latest checkpoint strictly below that height, or genesis if
none) and the peer disconnected; from that header on nothing is written to the store
(the write batch is dropped), and the next-checkpoint pointer is the one the call
started with. -/
theorem checkpoint_mismatch_rolls_back {σ : Type} (env : Env σ) (b : BM σ) (peer : Peer)
    (Headers : List BlockHeader) (bbHeight : Int) (i : Nat) (l : LoopState σ)
    (blockHeader checked : BlockHeader) (prevNode : Node) (rest : List Node) (cp : Checkpoint)
    (hsorted : SortedCheckpoints env.chainParams.Checkpoints)
    (hbb : env.BestBlock b.server = some bbHeight) (hi : i < Headers.length)
    (hround : RoundStart env peer (maxTimestampFor env bbHeight) (initLoop b Headers) i l)
    (hhdr : l.Headers[i]? = some blockHeader) (hl : l.b.headerList = prevNode :: rest)
    (hlink : env.BlockHash prevNode.Header = blockHeader.PrevBlock)
    (hsane : checkHeaderSanity env l.b blockHeader (maxTimestampFor env bbHeight) false
      (i32 (prevNode.Height + 1)) = (checked, .ok ()))
    (hcp : l.b.nextCheckpoint = some cp) (hheight : i32 (prevNode.Height + 1) = cp.Height)
    (hhash : env.BlockHash blockHeader ≠ cp.Hash) :
    ∃ b', handleHeadersMsg env b peer Headers = .returned b' ∧
      b'.server = (env.rollBackToHeight l.b.server
        (u32 (findPreviousHeaderCheckpoint env.chainParams cp.Height).Height)).1 ∧
      newEvents l.b b' = [.UpdateLastBlockHeight peer cp.Height,
        .RollBack (u32 (findPreviousHeaderCheckpoint env.chainParams cp.Height).Height)
          (env.rollBackToHeight l.b.server
            (u32 (findPreviousHeaderCheckpoint env.chainParams cp.Height).Height)).2,
        .Disconnect peer] ∧
      b'.nextCheckpoint = b.nextCheckpoint ∧
      (((∀ c ∈ env.chainParams.Checkpoints, cp.Height ≤ c.Height) ∧
          findPreviousHeaderCheckpoint env.chainParams cp.Height
            = { Height := 0, Hash := env.chainParams.GenesisHash }) ∨
       (findPreviousHeaderCheckpoint env.chainParams cp.Height ∈ env.chainParams.Checkpoints ∧
          (findPreviousHeaderCheckpoint env.chainParams cp.Height).Height < cp.Height ∧
          ∀ c ∈ env.chainParams.Checkpoints, c.Height < cp.Height →
            c.Height ≤ (findPreviousHeaderCheckpoint env.chainParams cp.Height).Height)) := by
  obtain ⟨b', hbody, hsrv, hnext, hev⟩ := loopBody_checkpoint_mismatch env peer
    (maxTimestampFor env bbHeight) l i blockHeader checked prevNode rest cp hhdr hl hlink hsane
    hcp hheight hhash
  refine ⟨b', ?_, hsrv, hev, ?_, findPreviousHeaderCheckpoint_spec env.chainParams cp.Height hsorted⟩
  · rw [handleHeadersMsg_round env b peer Headers bbHeight i l hbb hi hround, hbody]
  · rw [hnext, ← hcp]
    exact roundStart_nextCheckpoint env peer (maxTimestampFor env bbHeight) (initLoop b Headers)
      hround

theorem checkpoint_mismatch_rolls_back_witness :
    ∃ b', handleHeadersMsg (sampleEnv [⟨1, sampleHash h1⟩, ⟨3, 999⟩])
        (sampleBM log3 mem3 (some ⟨3, 999⟩) (some 7) 0) 7 [c3] = .returned b' ∧
      b'.server = { blocks := [⟨g0, 0⟩, ⟨h1, 1⟩], filters := [] } ∧
      b'.trace = [.UpdateLastBlockHeight 7 3, .RollBack 1 true, .Disconnect 7] ∧
      b'.nextCheckpoint = some ⟨3, 999⟩ := by
  obtain ⟨b', h1, h2, h3, h4, _⟩ := checkpoint_mismatch_rolls_back
    (sampleEnv [⟨1, sampleHash h1⟩, ⟨3, 999⟩])
    (sampleBM log3 mem3 (some ⟨3, 999⟩) (some 7) 0) 7 [c3] 2 0
    (initLoop (sampleBM log3 mem3 (some ⟨3, 999⟩) (some 7) 0) [c3]) c3 c3
    ⟨h2, 2⟩ [⟨h1, 1⟩, ⟨g0, 0⟩] ⟨3, 999⟩
    (by unfold SortedCheckpoints; decide) rfl (by decide)
    .start rfl rfl (by decide) (by decide) rfl (by decide) (by decide)
  exact ⟨b', h1, by rw [h2]; decide, by simpa [newEvents, initLoop, sampleBM] using h3, h4⟩

/-- C4, as stated, fails: in both runs the peer sends `r2, r3`; `r2` replaces the tip
`h2` by an accepted reorg and is written at once, then `r3` extends it, lands on the
checkpoint height 3 and does not match.  A header of the message has been written, and
in the second run it is still in the store after the rollback. -/
theorem checkpoint_mismatch_after_reorg :
    (handleHeadersMsg (sampleEnv [⟨3, 999⟩])
        (sampleBM log3 mem3 (some ⟨3, 999⟩) (some 7) 0) 7 [r2, r3]).bm.trace
      = [.RollBack 1 true, .WriteHeaders [⟨r2, 2⟩] true, .UpdateLastBlockHeight 7 3,
         .RollBack 0 true, .Disconnect 7] ∧
    (handleHeadersMsg (sampleEnv [⟨2, sampleHash h2⟩, ⟨3, 999⟩])
        (sampleBM log3 mem3 (some ⟨3, 999⟩) (some 7) 0) 7 [r2, r3]).bm.trace
      = [.RollBack 1 true, .WriteHeaders [⟨r2, 2⟩] true, .UpdateLastBlockHeight 7 3,
         .RollBack 2 true, .Disconnect 7] ∧
    (handleHeadersMsg (sampleEnv [⟨2, sampleHash h2⟩, ⟨3, 999⟩])
        (sampleBM log3 mem3 (some ⟨3, 999⟩) (some 7) 0) 7 [r2, r3]).bm.server.blocks
      = [⟨g0, 0⟩, ⟨h1, 1⟩, ⟨r2, 2⟩] ∧
    r3.PrevBlock = sampleHash r2 ∧ sampleHash r3 ≠ 999 := by
  decide

/-! ## Reorganisations -/

theorem knownWorkLoop_in_memory {σ : Type} (env : Env σ) (b : BM σ) :
    ∀ (rounds : Nat) (chain : List Node) (knownHead : Option BlockHeader) (w : Int),
      rounds < chain.length →
      knownWorkLoop env b rounds chain knownHead w = some (w + knownWork env rounds chain) := by
  intro rounds
  induction rounds with
  | zero => intro chain kh w _; simp [knownWorkLoop, knownWork]
  | succ n ih =>
    intro chain kh w hlen
    match chain, hlen with
    | a :: p :: rest, hlen =>
      have hlen' : n < (p :: rest).length := by simp at hlen ⊢; omega
      simp only [knownWorkLoop, knownWork]
      rw [ih (p :: rest) _ _ hlen', add_assoc]
    | [a], hlen => simp at hlen
    | [], hlen => simp at hlen

theorem reorgSanityLoop_frame {σ : Type} (env : Env σ) (maxTimestamp height : Int)
    (backHeight : Nat) :
    ∀ (hs : List BlockHeader) (j : Nat) (b : BM σ) (w : Int),
      (reorgSanityLoop env maxTimestamp height backHeight hs j b w).1
        = { b with reorgList :=
              (reorgSanityLoop env maxTimestamp height backHeight hs j b w).1.reorgList } := by
  intro hs
  induction hs with
  | nil => intro j b w; rfl
  | cons h rest ih =>
    intro j b w
    simp only [reorgSanityLoop]
    split
    · rfl
    · rfl
    · rw [ih]

theorem reorgSanityLoop_work {σ : Type} (env : Env σ) (maxTimestamp height : Int)
    (backHeight : Nat) :
    ∀ (hs : List BlockHeader) (j : Nat) (b : BM σ) (w : Int) (b' : BM σ)
      (tail : List BlockHeader) (total : Int),
      reorgSanityLoop env maxTimestamp height backHeight hs j b w = (b', tail, .ok total) →
      total = w + candidateWork env height tail ∧ tail.length = hs.length := by
  intro hs
  induction hs with
  | nil =>
    intro j b w b' tail total h
    simp only [reorgSanityLoop, Prod.mk.injEq, Res.ok.injEq] at h
    obtain ⟨_, h2, h3⟩ := h
    subst h2; subst h3
    simp [candidateWork]
  | cons h rest ih =>
    intro j b w b' tail total heq
    simp only [reorgSanityLoop] at heq
    split at heq
    · simp at heq
    · simp at heq
    · rename_i checked _ _
      simp only [Prod.mk.injEq] at heq
      obtain ⟨h1, h2, h3⟩ := heq
      have := ih (j + 1) _ _ _ _ _ (Prod.ext rfl (Prod.ext rfl h3))
      subst h2
      obtain ⟨ht, hlen⟩ := this
      refine ⟨?_, by simp [hlen]⟩
      rw [ht]
      simp [candidateWork]
      ring

theorem loopBody_reorg {σ : Type} (env : Env σ) (peer : Peer) (maxTimestamp : Int)
    (l : LoopState σ) (i : Nat) (blockHeader : BlockHeader) (prevNode : Node) (rest : List Node)
    (backHead : BlockHeader) (backHeight : Nat) (b' : BM σ) (tail : List BlockHeader)
    (totalWork : Int)
    (hhdr : l.Headers[i]? = some blockHeader) (hl : l.b.headerList = prevNode :: rest)
    (hlink : env.BlockHash prevNode.Header ≠ blockHeader.PrevBlock)
    (hgate : l.b.syncPeer = some peer ∨ BlockHeadersSynced env l.b = true)
    (hnew : env.BlockHash blockHeader ≠ env.BlockHash prevNode.Header)
    (hunknown : env.BlockHeaders.FetchHeader l.b.server (env.BlockHash blockHeader) = none)
    (hparent : env.BlockHeaders.FetchHeader l.b.server blockHeader.PrevBlock
      = some (backHead, backHeight))
    (hcheckpoint : u32 (findPreviousHeaderCheckpoint env.chainParams prevNode.Height).Height
      ≤ backHeight)
    (hsane : reorgSanityLoop env maxTimestamp (i32 (prevNode.Height + 1)) backHeight
      (l.Headers.drop i) 0
      { l.b with reorgList := ResetHeaderState { Header := backHead, Height := i32 backHeight } }
      0 = (b', tail, .ok totalWork))
    (hmem : u32 prevNode.Height - backHeight < (prevNode :: rest).length) :
    loopBody env peer maxTimestamp l i =
      if knownWork env (u32 prevNode.Height - backHeight) (prevNode :: rest) > totalWork then
        .ret (emit b' (.Disconnect peer))
      else if knownWork env (u32 prevNode.Height - backHeight) (prevNode :: rest) = totalWork then
        .ret b'
      else
        match acceptReorg env peer { l with finalHash := env.BlockHash blockHeader } b'
            (l.Headers.take i ++ tail) blockHeader (tail.headD blockHeader) backHead
            backHeight with
        | .fall l node => checkpointCheck env peer l node
        | r => r := by
  have hg : ¬ (l.b.syncPeer ≠ some peer ∧ BlockHeadersSynced env l.b = false) := by
    rintro ⟨h1, h2⟩
    rcases hgate with h | h
    · exact h1 h
    · rw [h] at h2; cases h2
  have hc : ¬ backHeight < u32 (findPreviousHeaderCheckpoint env.chainParams prevNode.Height).Height := by
    omega
  have hframe := reorgSanityLoop_frame env maxTimestamp (i32 (prevNode.Height + 1)) backHeight
    (l.Headers.drop i) 0
    { l.b with reorgList := ResetHeaderState { Header := backHead, Height := i32 backHeight } } 0
  rw [hsane] at hframe
  simp only at hframe
  have hlist : b'.headerList = prevNode :: rest := by rw [hframe]; exact hl
  have hk := knownWorkLoop_in_memory env b' (u32 prevNode.Height - backHeight) (prevNode :: rest)
    none 0 hmem
  have hsane' := hsane
  simp only [hl] at hsane'
  simp only [loopBody, hhdr, hl, hlink, if_false, reorgBranch, hg, hnew, hunknown, hparent, hc,
    hsane', hlist, hk, zero_add]
  split_ifs <;> rfl

theorem checkpointCheck_trace {σ : Type} (env : Env σ) (peer : Peer) (l : LoopState σ)
    (node : Node) :
    ∃ extra, (checkpointCheck env peer l node).bm.trace = l.b.trace ++ extra ∧
      (checkpointCheck env peer l node).bm.syncPeer = l.b.syncPeer := by
  unfold checkpointCheck
  split
  · exact ⟨[], by simp [Flow.bm], rfl⟩
  · split
    · split
      · exact ⟨[], by simp [Flow.bm], rfl⟩
      · exact ⟨_, by simp only [Flow.bm, emit_trace, List.append_assoc]; rfl, rfl⟩
    · exact ⟨[], by simp [Flow.bm], rfl⟩

theorem acceptReorg_events {σ : Type} (env : Env σ) (peer : Peer) (l0 : LoopState σ) (b' : BM σ)
    (hdrs : List BlockHeader) (original checked backHead : BlockHeader) (backHeight : Nat) :
    ∃ extra,
      (match acceptReorg env peer l0 b' hdrs original checked backHead backHeight with
        | .fall l node => checkpointCheck env peer l node
        | r => r).bm.trace
        = b'.trace ++ .RollBack backHeight (env.rollBackToHeight b'.server backHeight).2 :: extra ∧
      (match acceptReorg env peer l0 b' hdrs original checked backHead backHeight with
        | .fall l node => checkpointCheck env peer l node
        | r => r).bm.syncPeer = some peer ∧
      ((env.rollBackToHeight b'.server backHeight).2 = true →
        extra.head? = some (.WriteHeaders [{ Header := checked, Height := u32 (backHeight + 1) }]
          (env.BlockHeaders.WriteHeaders (env.rollBackToHeight b'.server backHeight).1
            [{ Header := checked, Height := u32 (backHeight + 1) }]).isSome)) := by
  unfold acceptReorg
  simp only
  rcases hrb : env.rollBackToHeight b'.server backHeight with ⟨srv, ok⟩
  cases ok
  · exact ⟨[], by simp [Flow.bm], rfl, by simp⟩
  · simp only
    obtain ⟨extra, h1, h2⟩ := checkpointCheck_trace env peer
      { l0 with
        b := reextend env (emit { b' with syncPeer := some peer, server := srv }
          (.RollBack backHeight true)) checked backHead backHeight,
        Headers := hdrs } { Header := original, Height := 0 }
    obtain ⟨_, f2, f3⟩ := reextend_frame env (emit { b' with syncPeer := some peer, server := srv }
          (.RollBack backHeight true)) checked backHead backHeight
    refine ⟨Event.WriteHeaders [{ Header := checked, Height := u32 (backHeight + 1) }]
      (env.BlockHeaders.WriteHeaders srv
        [{ Header := checked, Height := u32 (backHeight + 1) }]).isSome :: extra, ?_, ?_, ?_⟩
    · rw [h1]
      simp only [f3, emit_trace, List.append_assoc, List.singleton_append, emit_server]
      rfl
    · rw [h2]; simp only [f2]; rfl
    · simp

/-- C1, as amended: for a header that does not extend the in-memory tip, comes from the
sync peer or arrives when the headers are synced, is neither the tip nor stored, whose
parent is stored at height `backHeight` not below the previous checkpoint, whose
remaining headers all pass the sanity checks, and with the known chain held in memory
down to `backHeight`: the reorg is taken (the store is rolled back to `backHeight`, the
candidate written at `backHeight + 1`, the sync peer set to the sender) if and only if
the summed work of the candidate headers strictly exceeds the summed work of the known
headers above `backHeight`; otherwise the call ends with the durable state and the sync
peer as they were and at most a disconnect of the sender. -/
theorem reorg_taken_iff_more_work {σ : Type} (env : Env σ) (peer : Peer) (maxTimestamp : Int)
    (l : LoopState σ) (i : Nat) (blockHeader : BlockHeader) (prevNode : Node) (rest : List Node)
    (backHead : BlockHeader) (backHeight : Nat) (b' : BM σ) (tail : List BlockHeader)
    (totalWork : Int)
    (hhdr : l.Headers[i]? = some blockHeader) (hl : l.b.headerList = prevNode :: rest)
    (hlink : env.BlockHash prevNode.Header ≠ blockHeader.PrevBlock)
    (hgate : l.b.syncPeer = some peer ∨ BlockHeadersSynced env l.b = true)
    (hnew : env.BlockHash blockHeader ≠ env.BlockHash prevNode.Header)
    (hunknown : env.BlockHeaders.FetchHeader l.b.server (env.BlockHash blockHeader) = none)
    (hparent : env.BlockHeaders.FetchHeader l.b.server blockHeader.PrevBlock
      = some (backHead, backHeight))
    (hcheckpoint : u32 (findPreviousHeaderCheckpoint env.chainParams prevNode.Height).Height
      ≤ backHeight)
    (hsane : reorgSanityLoop env maxTimestamp (i32 (prevNode.Height + 1)) backHeight
      (l.Headers.drop i) 0
      { l.b with reorgList := ResetHeaderState { Header := backHead, Height := i32 backHeight } }
      0 = (b', tail, .ok totalWork))
    (hmem : u32 prevNode.Height - backHeight < (prevNode :: rest).length) :
    totalWork = candidateWork env (i32 (prevNode.Height + 1)) tail ∧
    ((∃ ok, Event.RollBack backHeight ok
          ∈ newEvents l.b (loopBody env peer maxTimestamp l i).bm) ↔
      knownWork env (u32 prevNode.Height - backHeight) (prevNode :: rest) < totalWork) ∧
    (knownWork env (u32 prevNode.Height - backHeight) (prevNode :: rest) < totalWork →
      (loopBody env peer maxTimestamp l i).bm.syncPeer = some peer ∧
      (newEvents l.b (loopBody env peer maxTimestamp l i).bm).head?
        = some (.RollBack backHeight (env.rollBackToHeight l.b.server backHeight).2) ∧
      ((env.rollBackToHeight l.b.server backHeight).2 = true →
        (newEvents l.b (loopBody env peer maxTimestamp l i).bm)[1]?
          = some (.WriteHeaders
              [{ Header := tail.headD blockHeader, Height := u32 (backHeight + 1) }]
              (env.BlockHeaders.WriteHeaders (env.rollBackToHeight l.b.server backHeight).1
                [{ Header := tail.headD blockHeader, Height := u32 (backHeight + 1) }]).isSome))) ∧
    (¬ knownWork env (u32 prevNode.Height - backHeight) (prevNode :: rest) < totalWork →
      (loopBody env peer maxTimestamp l i).ends = true ∧
      (loopBody env peer maxTimestamp l i).bm.server = l.b.server ∧
      (loopBody env peer maxTimestamp l i).bm.syncPeer = l.b.syncPeer ∧
      ∀ e ∈ newEvents l.b (loopBody env peer maxTimestamp l i).bm, e = .Disconnect peer) := by
  have hbody := loopBody_reorg env peer maxTimestamp l i blockHeader prevNode rest backHead
    backHeight b' tail totalWork hhdr hl hlink hgate hnew hunknown hparent hcheckpoint hsane hmem
  have hframe := reorgSanityLoop_frame env maxTimestamp (i32 (prevNode.Height + 1)) backHeight
    (l.Headers.drop i) 0
    { l.b with reorgList := ResetHeaderState { Header := backHead, Height := i32 backHeight } } 0
  rw [hsane] at hframe
  simp only at hframe
  have htrace : b'.trace = l.b.trace := by rw [hframe]
  have hserver : b'.server = l.b.server := by rw [hframe]
  have hsync : b'.syncPeer = l.b.syncPeer := by rw [hframe]
  have hwork := (reorgSanityLoop_work env maxTimestamp (i32 (prevNode.Height + 1)) backHeight
    (l.Headers.drop i) 0 _ 0 b' tail totalWork hsane).1
  rw [zero_add] at hwork
  -- the two outcomes
  have hyes : knownWork env (u32 prevNode.Height - backHeight) (prevNode :: rest) < totalWork →
      (loopBody env peer maxTimestamp l i).bm.syncPeer = some peer ∧
      (newEvents l.b (loopBody env peer maxTimestamp l i).bm).head?
        = some (.RollBack backHeight (env.rollBackToHeight l.b.server backHeight).2) ∧
      ((env.rollBackToHeight l.b.server backHeight).2 = true →
        (newEvents l.b (loopBody env peer maxTimestamp l i).bm)[1]?
          = some (.WriteHeaders
              [{ Header := tail.headD blockHeader, Height := u32 (backHeight + 1) }]
              (env.BlockHeaders.WriteHeaders (env.rollBackToHeight l.b.server backHeight).1
                [{ Header := tail.headD blockHeader, Height := u32 (backHeight + 1) }]).isSome)) := by
    intro hlt
    have h1 : ¬ knownWork env (u32 prevNode.Height - backHeight) (prevNode :: rest) > totalWork := by
      omega
    have h2 : ¬ knownWork env (u32 prevNode.Height - backHeight) (prevNode :: rest) = totalWork := by
      omega
    rw [hbody]
    simp only [h1, h2, if_false]
    obtain ⟨extra, e1, e2, e3⟩ := acceptReorg_events env peer
      { l with finalHash := env.BlockHash blockHeader } b'
      (l.Headers.take i ++ tail) blockHeader (tail.headD blockHeader) backHead backHeight
    rw [hserver] at e1 e3
    refine ⟨e2, ?_, ?_⟩
    · simp only [newEvents, e1, htrace, List.drop_left, List.head?_cons]
    · intro hok
      simp only [newEvents, e1, htrace, List.drop_left]
      have := e3 hok
      cases extra with
      | nil => simp at this
      | cons x xs => simp only [List.head?_cons, Option.some.injEq] at this; simp [this]
  have hno : ¬ knownWork env (u32 prevNode.Height - backHeight) (prevNode :: rest) < totalWork →
      (loopBody env peer maxTimestamp l i).ends = true ∧
      (loopBody env peer maxTimestamp l i).bm.server = l.b.server ∧
      (loopBody env peer maxTimestamp l i).bm.syncPeer = l.b.syncPeer ∧
      ∀ e ∈ newEvents l.b (loopBody env peer maxTimestamp l i).bm, e = .Disconnect peer := by
    intro hnlt
    rw [hbody]
    by_cases hgt : knownWork env (u32 prevNode.Height - backHeight) (prevNode :: rest) > totalWork
    · simp only [hgt, if_true, Flow.ends, Flow.bm, emit_server, emit_syncPeer, hserver, hsync,
        newEvents, emit_trace, htrace, List.drop_left, List.mem_singleton, true_and]
      exact fun e he => he
    · have heq : knownWork env (u32 prevNode.Height - backHeight) (prevNode :: rest) = totalWork := by
        omega
      rw [if_neg hgt, if_pos heq]
      simp only [Flow.ends, Flow.bm, hserver, hsync, newEvents, htrace,
        List.drop_length, true_and]
      simp
  refine ⟨hwork, ⟨?_, ?_⟩, hyes, hno⟩
  · rintro ⟨ok, hmemb⟩
    by_contra hnlt
    have := (hno hnlt).2.2.2 _ hmemb
    cases this
  · intro hlt
    have := (hyes hlt).2.1
    exact ⟨(env.rollBackToHeight l.b.server backHeight).2, List.mem_of_mem_head? this⟩

theorem reorg_taken_iff_more_work_witness :
    ((∃ ok, Event.RollBack 1 ok ∈ newEvents (sampleBM log3 mem3 none (some 7) 0)
        (loopBody (sampleEnv []) 7 12200
          (initLoop (sampleBM log3 mem3 none (some 7) 0) [r2, r3]) 0).bm) ↔
      knownWork (sampleEnv []) 1 mem3 < 19800) ∧
    knownWork (sampleEnv []) 1 mem3 = 9900 :=
  ⟨(reorg_taken_iff_more_work (sampleEnv []) 7 12200
      (initLoop (sampleBM log3 mem3 none (some 7) 0) [r2, r3]) 0 r2 ⟨h2, 2⟩ [⟨h1, 1⟩, ⟨g0, 0⟩]
      h1 1
      { sampleBM log3 mem3 none (some 7) 0 with
        reorgList := [⟨r3, 3⟩, ⟨r2, 2⟩, ⟨h1, 1⟩] }
      [r2, r3] 19800 rfl rfl (by decide) (Or.inl rfl) (by decide) (by decide) (by decide)
      (by decide) rfl (by decide)).2.1, by decide⟩

/-- C1, as stated, fails.  In each run the header `r2` does not extend the tip `h2`, is
not stored and has its parent `h1` stored at height 1, and the candidates `r2, r3` carry
twice the work of the known header `h2`.  In the first run the sender is not the sync
peer and the headers are not synced: the message is dropped.  In the second the
candidates `q1, q2, q3` fork at height 0, below the checkpoint at height 1, and outweigh
`h1, h2`: the sender is disconnected.  The store is left as it was both times. -/
theorem more_work_reorg_not_taken :
    (sampleEnv []).CalcWork r2.Bits 3 r2.Version + (sampleEnv []).CalcWork r3.Bits 3 r3.Version
      > (sampleEnv []).CalcWork h2.Bits 1 h2.Version ∧
    sampleHash h2 ≠ r2.PrevBlock ∧
    listBlockHeaders.FetchHeader ⟨log3, []⟩ (sampleHash r2) = none ∧
    listBlockHeaders.FetchHeader ⟨log3, []⟩ r2.PrevBlock = some (h1, 1) ∧
    (handleHeadersMsg (sampleEnv []) (sampleBM log3 mem3 none (some 9) 100) 7 [r2, r3]).bm.server
      = ⟨log3, []⟩ ∧
    (handleHeadersMsg (sampleEnv []) (sampleBM log3 mem3 none (some 9) 100) 7 [r2, r3]).bm.trace
      = [] ∧
    (handleHeadersMsg (sampleEnv [⟨1, sampleHash h1⟩]) (sampleBM log3 mem3 none (some 7) 0) 7
        [child g0 21, child (child g0 21) 22, child (child (child g0 21) 22) 23]).bm.server
      = ⟨log3, []⟩ ∧
    (handleHeadersMsg (sampleEnv [⟨1, sampleHash h1⟩]) (sampleBM log3 mem3 none (some 7) 0) 7
        [child g0 21, child (child g0 21) 22, child (child (child g0 21) 22) 23]).bm.trace
      = [.Disconnect 7] := by
  decide

/-- C2 at its failing input: the only checkpoint is `h2` at height 2 and the tip is `h2`
itself, so the local chain has reached that checkpoint.  The sync peer sends `r2, r3`,
forking at height 1, below it.  `findPreviousHeaderCheckpoint 2` is the genesis
checkpoint, the guard passes, and the reorg is taken: the store is rolled back to height
1 and the checkpointed header is replaced by `r2`. -/
theorem reorg_below_reached_checkpoint_taken :
    findPreviousHeaderCheckpoint (sampleEnv [⟨2, sampleHash h2⟩]).chainParams 2
      = { Height := 0, Hash := 1 } ∧
    listBlockHeaders.FetchHeader ⟨log3, []⟩ r2.PrevBlock = some (h1, 1) ∧
    (handleHeadersMsg (sampleEnv [⟨2, sampleHash h2⟩]) (sampleBM log3 mem3 none (some 7) 0) 7
        [r2, r3]).bm.trace
      = [.RollBack 1 true, .WriteHeaders [⟨r2, 2⟩] true, .UpdateLastBlockHeight 7 3,
         .WriteHeaders [⟨r3, 3⟩] true, .NewHeadersBroadcast] ∧
    (handleHeadersMsg (sampleEnv [⟨2, sampleHash h2⟩]) (sampleBM log3 mem3 none (some 7) 0) 7
        [r2, r3]).bm.server.blocks
      = [⟨g0, 0⟩, ⟨h1, 1⟩, ⟨r2, 2⟩, ⟨r3, 3⟩] := by
  decide

/-- C3 at its failing input: the sync peer sends `c3, r2, r3, r4`.  `c3` extends the tip
and joins the write batch at height 3; `r2` forks at height 1 with more work, so the
store is rolled back and `r2` written at once; `r3, r4` extend `r2` and join the same
batch at heights 3 and 4.  The batch passed to `WriteHeaders` holds `c3` and `r3` next to
each other, both at height 3, and `r3` does not point to `c3`. -/
theorem write_batch_spans_reorg :
    (handleHeadersMsg (sampleEnv []) (sampleBM log3 mem3 none (some 7) 0) 7
        [c3, r2, r3, r4]).bm.trace
      = [.UpdateLastBlockHeight 7 3, .RollBack 1 true, .WriteHeaders [⟨r2, 2⟩] true,
         .UpdateLastBlockHeight 7 3, .UpdateLastBlockHeight 7 4,
         .WriteHeaders [⟨c3, 3⟩, ⟨r3, 3⟩, ⟨r4, 4⟩] true, .NewHeadersBroadcast] ∧
    r3.PrevBlock ≠ sampleHash c3 ∧
    (handleHeadersMsg (sampleEnv []) (sampleBM log3 mem3 none (some 7) 0) 7
        [c3, r2, r3, r4]).bm.server.blocks
      = [⟨g0, 0⟩, ⟨h1, 1⟩, ⟨r2, 2⟩, ⟨c3, 3⟩, ⟨r3, 3⟩, ⟨r4, 4⟩] := by
  decide

/-! ## Filter headers -/

/-- C6: `writeCFHeadersMsg` returns an error whenever the previous filter header of the
message differs from the tip of the filter-header store (or the store has no tip to
offer), and it then leaves the manager as it was: nothing is written and
`filterHeaderTip`, `filterHeaderTipHash` are unchanged. -/
theorem writeCFHeadersMsg_out_of_order {σ : Type} (env : Env σ) (b : BM σ) (msg : MsgCFHeaders)
    (h : ∀ tip height, env.RegFilterHeaders.ChainTip b.server = some (tip, height) →
      tip ≠ msg.PrevFilterHeader) :
    writeCFHeadersMsg env b msg = (.err, b) := by
  unfold writeCFHeadersMsg
  cases ht : env.RegFilterHeaders.ChainTip b.server with
  | none => rfl
  | some p =>
    obtain ⟨tip, height⟩ := p
    have := h tip height ht
    simp only [this, ne_eq, not_false_eq_true, if_true]

theorem writeCFHeadersMsg_out_of_order_witness :
    writeCFHeadersMsg (sampleEnv [])
        { sampleBM log3 mem3 none none 0 with
          server := { blocks := log3, filters := [⟨5, sampleHash g0, 0⟩] } }
        { FilterType := 0, StopHash := sampleHash h1, PrevFilterHeader := 6, FilterHashes := [9] }
      = (.err, { sampleBM log3 mem3 none none 0 with
          server := { blocks := log3, filters := [⟨5, sampleHash g0, 0⟩] } }) :=
  writeCFHeadersMsg_out_of_order (sampleEnv []) _ _ (by
    intro tip height ht
    simp only [sampleEnv, listFilterHeaders, List.getLast?_singleton, Option.map_some',
      Option.some.injEq, Prod.mk.injEq] at ht
    rw [← ht.1]
    decide)

theorem foldl_specFilterChain {σ : Type} (env : Env σ) (msg : MsgCFHeaders) :
    ∀ (suf pre : List Hash), msg.FilterHashes = pre ++ suf →
      suf.foldl (fun lastHeader hash => env.DoubleHashH hash lastHeader)
        (specFilterChain env msg pre.length) = specFilterChain env msg (pre.length + suf.length) := by
  intro suf
  induction suf with
  | nil => intro pre _; rfl
  | cons x t ih =>
    intro pre hsplit
    have hsplit' : msg.FilterHashes = (pre ++ [x]) ++ t := by simp [hsplit]
    have hx : msg.FilterHashes.getD pre.length zeroHash = x := by
      rw [hsplit, List.getD_eq_getElem?_getD, List.getElem?_append_right (le_refl _)]
      simp
    have := ih (pre ++ [x]) hsplit'
    simp only [List.length_append, List.length_singleton] at this
    have e : pre.length + (x :: t).length = pre.length + 1 + t.length := by
      simp only [List.length_cons]; omega
    rw [e, ← this]
    simp only [List.foldl_cons, specFilterChain, hx]

theorem chainHeaders_specFilterChain {σ : Type} (env : Env σ) (msg : MsgCFHeaders) :
    ∀ (suf pre : List Hash) (batch : List FilterHeader), msg.FilterHashes = pre ++ suf →
      chainHeaders env suf (specFilterChain env msg pre.length) batch
        = (specFilterChain env msg (pre.length + suf.length),
           batch ++ (List.range suf.length).map fun k =>
             { FilterHash := specFilterChain env msg (pre.length + k + 1),
               HeaderHash := zeroHash, Height := 0 }) := by
  intro suf
  induction suf with
  | nil => intro pre batch _; simp [chainHeaders]
  | cons x t ih =>
    intro pre batch hsplit
    have hsplit' : msg.FilterHashes = (pre ++ [x]) ++ t := by simp [hsplit]
    have hx : msg.FilterHashes.getD pre.length zeroHash = x := by
      rw [hsplit, List.getD_eq_getElem?_getD, List.getElem?_append_right (le_refl _)]
      simp
    have hstep : env.DoubleHashH x (specFilterChain env msg pre.length)
        = specFilterChain env msg (pre ++ [x]).length := by
      simp only [List.length_append, List.length_singleton, specFilterChain, hx]
    simp only [chainHeaders]
    rw [hstep, ih (pre ++ [x]) _ hsplit']
    simp only [List.length_append, List.length_singleton, List.length_cons, List.append_assoc,
      List.singleton_append, Prod.mk.injEq]
    refine ⟨by congr 1; simp only [List.length_nil]; omega, ?_⟩
    congr 1
    rw [List.range_succ_eq_map, List.map_cons, List.map_map]
    congr 1
    apply List.map_congr_left
    intro k _
    simp only [Function.comp, Nat.succ_eq_add_one]
    congr 2
    simp only [List.length_nil]
    omega

theorem verifyCheckpoint_iff {σ : Type} (env : Env σ) (msg : MsgCFHeaders) (prev next : Hash) :
    verifyCheckpoint env prev next msg = true ↔
      prev = msg.PrevFilterHeader ∧ specFilterChain env msg msg.FilterHashes.length = next := by
  have hfold := foldl_specFilterChain env msg msg.FilterHashes [] rfl
  simp only [List.length_nil, Nat.zero_add, specFilterChain] at hfold
  unfold verifyCheckpoint
  rw [hfold]
  by_cases hp : prev = msg.PrevFilterHeader
  · simp [hp]
  · simp [hp]

theorem map_filterHash_sealBatch (lastHash : Hash) (lastHeight : Nat) :
    ∀ (n : Nat) (l : List FilterHeader),
      (sealBatch l n lastHash lastHeight).map (fun x => x.FilterHash)
        = l.map fun x => x.FilterHash := by
  intro n l
  unfold sealBatch
  induction l generalizing n with
  | nil => simp
  | cons a t ih =>
    cases n with
    | zero => simp
    | succ n => simp [ih]

theorem writeCFHeadersMsg_verified {σ : Type} (env : Env σ) (b : BM σ) (msg : MsgCFHeaders)
    (prev next : Hash) (tipHeight : Nat) (hs : List BlockHeader) (start : Nat)
    (hne : msg.FilterHashes ≠ [])
    (hverify : verifyCheckpoint env prev next msg = true)
    (htip : env.RegFilterHeaders.ChainTip b.server = some (prev, tipHeight))
    (hanc : env.BlockHeaders.FetchHeaderAncestors b.server
      (u32 ((msg.FilterHashes.length : Int) - 1)) msg.StopHash = some (hs, start))
    (hlen : msg.FilterHashes.length ≤ hs.length)
    (hwrite : ∀ batch, env.RegFilterHeaders.WriteHeaders b.server batch ≠ none) :
    ∃ b' batch, writeCFHeadersMsg env b msg = (.ok next, b') ∧
      Event.WriteFilterHeaders batch true ∈ newEvents b b' ∧
      batch.map (fun x => x.FilterHash)
        = (List.range msg.FilterHashes.length).map (fun i => specFilterChain env msg (i + 1)) ∧
      batch.getLast?.map (fun x => x.FilterHash) = some next := by
  obtain ⟨hprev, hnext⟩ := (verifyCheckpoint_iff env msg prev next).mp hverify
  have hchain := chainHeaders_specFilterChain env msg msg.FilterHashes [] [] rfl
  simp only [List.length_nil, Nat.zero_add, List.nil_append] at hchain
  change chainHeaders env msg.FilterHashes msg.PrevFilterHeader [] = _ at hchain
  have hpos : 0 < msg.FilterHashes.length := List.length_pos.mpr hne
  obtain ⟨lastBlockHeader, hlast⟩ : ∃ x, hs[((msg.FilterHashes.length : Int) - 1).toNat]? = some x := by
    have : ((msg.FilterHashes.length : Int) - 1).toNat < hs.length := by omega
    exact ⟨hs[((msg.FilterHashes.length : Int) - 1).toNat], List.getElem?_eq_getElem this⟩
  have hnotneg : ¬ ((msg.FilterHashes.length : Int) - 1 < 0) := by omega
  have hmapped : ∀ (idx : Nat) (lastHash : Hash) (lastHeight : Nat),
      (sealBatch ((List.range msg.FilterHashes.length).map fun k =>
          ({ FilterHash := specFilterChain env msg (k + 1), HeaderHash := zeroHash, Height := 0 } :
            FilterHeader)) idx lastHash lastHeight).map (fun x => x.FilterHash)
        = (List.range msg.FilterHashes.length).map (fun i => specFilterChain env msg (i + 1)) := by
    intro idx lastHash lastHeight
    rw [map_filterHash_sealBatch, List.map_map]
    rfl
  unfold writeCFHeadersMsg
  simp only [htip, hprev, ne_eq, not_true_eq_false, if_false, hchain, List.length_map,
    List.length_range, hanc, hnotneg, hlast]
  split
  · rename_i hw
    exact absurd hw (hwrite _)
  · rename_i srv hw
    simp only [hnext]
    refine ⟨_, sealBatch ((List.range msg.FilterHashes.length).map fun k =>
          ({ FilterHash := specFilterChain env msg (k + 1), HeaderHash := zeroHash, Height := 0 } :
            FilterHeader)) ((msg.FilterHashes.length : Int) - 1).toNat
          (env.BlockHash lastBlockHeader)
          (u32 ((start : Int) + (u32 (msg.FilterHashes.length : Int) : Int) - 1)), rfl, ?_, ?_, ?_⟩
    · simp [newEvents, emit]
    · exact hmapped _ _ _
    · rw [← List.getLast?_map, hmapped, List.getLast?_map]
      have : (List.range msg.FilterHashes.length).getLast? = some (msg.FilterHashes.length - 1) := by
        rw [List.getLast?_range]
        simp [Nat.ne_of_gt hpos]
      rw [this]
      simp only [Option.map_some', Option.some.injEq]
      rw [← hnext]
      congr 1
      omega

/-- C7: `verifyCheckpoint` and `writeCFHeadersMsg` compute the same chain `h_0 =
PrevFilterHeader`, `h_i = DoubleHash(FilterHashes[i-1] || h_(i-1))`:
`verifyCheckpoint(prev, next, msg)` is true exactly when `prev = PrevFilterHeader` and
the final `h` equals `next`; and for a message with at least one filter hash, if
`verifyCheckpoint(prev, next, msg)` is true, the store tip equals `prev` and the store
operations succeed (the ancestors call returning the block headers it was asked for),
then `writeCFHeadersMsg(msg)` returns `next`, the filter headers it writes are
`h_1, ..., h_n` and the last of them equals `next`. -/
theorem cfheaders_chain_is_its_own_verifier {σ : Type} (env : Env σ) (b : BM σ)
    (msg : MsgCFHeaders) :
    (∀ prev next, verifyCheckpoint env prev next msg = true ↔
      prev = msg.PrevFilterHeader ∧ specFilterChain env msg msg.FilterHashes.length = next) ∧
    (∀ (prev next : Hash) (tipHeight : Nat) (hs : List BlockHeader) (start : Nat),
      msg.FilterHashes ≠ [] →
      verifyCheckpoint env prev next msg = true →
      env.RegFilterHeaders.ChainTip b.server = some (prev, tipHeight) →
      env.BlockHeaders.FetchHeaderAncestors b.server
        (u32 ((msg.FilterHashes.length : Int) - 1)) msg.StopHash = some (hs, start) →
      msg.FilterHashes.length ≤ hs.length →
      (∀ batch, env.RegFilterHeaders.WriteHeaders b.server batch ≠ none) →
      ∃ b' batch, writeCFHeadersMsg env b msg = (.ok next, b') ∧
        Event.WriteFilterHeaders batch true ∈ newEvents b b' ∧
        batch.map (fun x => x.FilterHash)
          = (List.range msg.FilterHashes.length).map (fun i => specFilterChain env msg (i + 1)) ∧
        batch.getLast?.map (fun x => x.FilterHash) = some next) :=
  ⟨fun prev next => verifyCheckpoint_iff env msg prev next,
   fun prev next tipHeight hs start hne hverify htip hanc hlen hwrite =>
     writeCFHeadersMsg_verified env b msg prev next tipHeight hs start hne hverify htip hanc hlen
       hwrite⟩

theorem cfheaders_chain_is_its_own_verifier_witness :
    verifyCheckpoint (sampleEnv []) 5 17330
        { FilterType := 0, StopHash := sampleHash h2, PrevFilterHeader := 5,
          FilterHashes := [9, 4] } = true ∧
    ∃ b' batch, writeCFHeadersMsg (sampleEnv [])
        { sampleBM log3 mem3 none none 0 with
          server := { blocks := log3, filters := [⟨5, sampleHash g0, 0⟩] } }
        { FilterType := 0, StopHash := sampleHash h2, PrevFilterHeader := 5,
          FilterHashes := [9, 4] } = (.ok 17330, b') ∧
      Event.WriteFilterHeaders batch true ∈ newEvents
        { sampleBM log3 mem3 none none 0 with
          server := { blocks := log3, filters := [⟨5, sampleHash g0, 0⟩] } } b' ∧
      batch.map (fun x => x.FilterHash) = [465, 17330] ∧
      batch.getLast?.map (fun x => x.FilterHash) = some 17330 :=
  ⟨by decide,
   (cfheaders_chain_is_its_own_verifier (sampleEnv [])
      { sampleBM log3 mem3 none none 0 with
        server := { blocks := log3, filters := [⟨5, sampleHash g0, 0⟩] } }
      { FilterType := 0, StopHash := sampleHash h2, PrevFilterHeader := 5,
        FilterHashes := [9, 4] }).2 5 17330 0 [h1, h2] 1 (by decide) (by decide) (by decide)
      (by decide) (by decide) (by intro batch h; cases h)⟩

/-! ## Checkpoint negotiation -/

theorem noZero_getElem? {cp : PeerMap (List Hash)} (hz : NoZeroCheckpoint cp)
    {e : Peer × List Hash} (he : e ∈ cp) {i : Nat} {c : Hash} (hc : e.2[i]? = some c) :
    c ≠ zeroHash :=
  hz e he c (List.mem_iff_getElem?.mpr ⟨i, hc⟩)

theorem sanityScan_perm (i : Nat) {l1 l2 : PeerMap (List Hash)} (hp : l1.Perm l2) :
    NoZeroCheckpoint l1 → ∀ c, sanityScan i l1 c = sanityScan i l2 c := by
  induction hp with
  | nil => intro _ c; rfl
  | @cons x l1 l2 _ ih =>
    intro hz c
    have hz' : NoZeroCheckpoint l1 := fun e he => hz e (List.mem_cons_of_mem _ he)
    obtain ⟨p, cs⟩ := x
    simp only [sanityScan]
    cases cs[i]? with
    | none => exact ih hz' c
    | some a =>
      simp only [ih hz']
  | @swap x y l =>
    intro hz c
    obtain ⟨p, xs⟩ := x
    obtain ⟨q, ys⟩ := y
    have hx : ∀ a, xs[i]? = some a → a ≠ zeroHash := fun a ha =>
      noZero_getElem? hz (e := (p, xs)) (by simp) ha
    have hy : ∀ a, ys[i]? = some a → a ≠ zeroHash := fun a ha =>
      noZero_getElem? hz (e := (q, ys)) (by simp) ha
    simp only [sanityScan]
    cases hxs : xs[i]? with
    | none =>
      cases hys : ys[i]? with
      | none => rfl
      | some b => rfl
    | some a =>
      cases hys : ys[i]? with
      | none => rfl
      | some b =>
        have ha := hx a hxs
        have hb := hy b hys
        simp only
        by_cases hc : c = zeroHash
        · subst hc
          by_cases hab : a = b
          · subst hab; simp [ha]
          · have hba : ¬ b = a := fun h => hab h.symm
            simp [ha, hb, hab, hba]
        · by_cases hca : c = a
          · subst hca
            by_cases hcb : c = b
            · subst hcb; simp [hc]
            · simp [hc, hcb]
          · by_cases hcb : c = b
            · subst hcb
              simp [hc, hca]
            · simp [hc, hca, hcb]
  | @trans l1 l2 l3 h12 _ ih1 ih2 =>
    intro hz c
    have hz2 : NoZeroCheckpoint l2 := fun e he => hz e (h12.mem_iff.mpr he)
    rw [ih1 hz c, ih2 hz2 c]

theorem maxLen_perm {l1 l2 : PeerMap (List Hash)} (hp : l1.Perm l2) :
    ∀ m : Nat, l1.foldl (fun maxLen e => if e.2.length > maxLen then e.2.length else maxLen) m
      = l2.foldl (fun maxLen e => if e.2.length > maxLen then e.2.length else maxLen) m := by
  induction hp with
  | nil => intro m; rfl
  | cons x _ ih => intro m; simp only [List.foldl_cons, ih]
  | swap x y l =>
    intro m
    simp only [List.foldl_cons]
    congr 1
    split_ifs <;> omega
  | trans _ _ ih1 ih2 => intro m; rw [ih1, ih2]

theorem sanityLoop_perm {σ : Type} (env : Env σ) (server : σ) {l1 l2 : PeerMap (List Hash)}
    (hp : l1.Perm l2) (hz : NoZeroCheckpoint l1) (storeTip : Nat) :
    ∀ n i, sanityLoop env server l1 storeTip n i = sanityLoop env server l2 storeTip n i := by
  intro n
  induction n with
  | zero => intro i; rfl
  | succ n ih =>
    intro i
    simp only [sanityLoop, sanityScan_perm i hp hz zeroHash, ih]

theorem checkCFCheckptSanity_perm {σ : Type} (env : Env σ) (server : σ)
    {l1 l2 : PeerMap (List Hash)} (hp : l1.Perm l2) (hz : NoZeroCheckpoint l1) :
    checkCFCheckptSanity env server l1 = checkCFCheckptSanity env server l2 := by
  unfold checkCFCheckptSanity
  cases env.RegFilterHeaders.ChainTip server with
  | none => rfl
  | some t =>
    simp only [maxLen_perm hp 0, sanityLoop_perm env server hp hz]

theorem sanityScan_agree (i : Nat) :
    ∀ (cp : PeerMap (List Hash)) (c0 c : Hash), NoZeroCheckpoint cp →
      sanityScan i cp c0 = some c →
      (c0 ≠ zeroHash → c = c0) ∧
      ∀ e ∈ cp, ∀ a, e.2[i]? = some a → a = c := by
  intro cp
  induction cp with
  | nil =>
    intro c0 c _ h
    simp only [sanityScan, Option.some.injEq] at h
    exact ⟨fun _ => h.symm, fun e he => by simp at he⟩
  | cons x rest ih =>
    intro c0 c hz h
    have hz' : NoZeroCheckpoint rest := fun e he => hz e (List.mem_cons_of_mem _ he)
    obtain ⟨p, xs⟩ := x
    simp only [sanityScan] at h
    cases hxs : xs[i]? with
    | none =>
      rw [hxs] at h
      obtain ⟨h1, h2⟩ := ih c0 c hz' h
      refine ⟨h1, ?_⟩
      intro e he a ha
      rcases List.mem_cons.mp he with rfl | he
      · rw [hxs] at ha; cases ha
      · exact h2 e he a ha
    | some b =>
      rw [hxs] at h
      have hb : b ≠ zeroHash := noZero_getElem? hz (e := (p, xs)) (by simp) hxs
      simp only at h
      by_cases hc0 : c0 = zeroHash
      · subst hc0
        simp only [if_true, ne_eq, not_true_eq_false, if_false] at h
        obtain ⟨h1, h2⟩ := ih b c hz' h
        have hcb : c = b := h1 hb
        refine ⟨fun hne => absurd rfl hne, ?_⟩
        intro e he a ha
        rcases List.mem_cons.mp he with rfl | he
        · rw [hxs] at ha; cases ha; exact hcb.symm
        · exact h2 e he a ha
      · simp only [hc0, if_false] at h
        by_cases hcb : c0 = b
        · subst hcb
          simp only [ne_eq, not_true_eq_false, if_false] at h
          obtain ⟨h1, h2⟩ := ih c0 c hz' h
          refine ⟨h1, ?_⟩
          intro e he a ha
          rcases List.mem_cons.mp he with rfl | he
          · rw [hxs] at ha; cases ha; exact (h1 hc0).symm
          · exact h2 e he a ha
        · simp [hcb] at h

theorem sanityLoop_agree {σ : Type} (env : Env σ) (server : σ) (cp : PeerMap (List Hash))
    (storeTip : Nat) :
    ∀ n i, sanityLoop env server cp storeTip n i = (-1, false) →
      ∀ k, i ≤ k → k < i + n → sanityScan k cp zeroHash ≠ none := by
  intro n
  induction n with
  | zero => intro i _ k h1 h2; omega
  | succ n ih =>
    intro i h k h1 h2
    simp only [sanityLoop] at h
    cases hs : sanityScan i cp zeroHash with
    | none =>
      rw [hs] at h
      simp only [Prod.mk.injEq] at h
      omega
    | some c =>
      rw [hs] at h
      simp only at h
      have hnext : sanityLoop env server cp storeTip n (i + 1) = (-1, false) := by
        split at h
        · split at h
          · simp at h
          · split at h
            · simp only [Prod.mk.injEq] at h; omega
            · exact h
        · exact h
      by_cases hk : k = i
      · subst hk; rw [hs]; simp
      · exact ih (i + 1) hnext k (by omega) (by omega)

theorem le_maxLen :
    ∀ (cp : PeerMap (List Hash)) (m : Nat),
      m ≤ cp.foldl (fun maxLen e => if e.2.length > maxLen then e.2.length else maxLen) m ∧
      ∀ e ∈ cp, e.2.length
        ≤ cp.foldl (fun maxLen e => if e.2.length > maxLen then e.2.length else maxLen) m := by
  intro cp
  induction cp with
  | nil => intro m; simp
  | cons x rest ih =>
    intro m
    simp only [List.foldl_cons]
    by_cases hx : x.2.length > m
    · simp only [hx, if_true]
      obtain ⟨h1, h2⟩ := ih x.2.length
      refine ⟨by omega, ?_⟩
      intro e he
      rcases List.mem_cons.mp he with rfl | he
      · exact h1
      · exact h2 e he
    · simp only [hx, if_false]
      obtain ⟨h1, h2⟩ := ih m
      refine ⟨h1, ?_⟩
      intro e he
      rcases List.mem_cons.mp he with rfl | he
      · omega
      · exact h2 e he

theorem agreement_lists_equal {σ : Type} (env : Env σ) (server : σ) (cp : PeerMap (List Hash))
    (hz : NoZeroCheckpoint cp) (hl : SameLength cp)
    (h : checkCFCheckptSanity env server cp = (-1, false)) :
    ∀ e ∈ cp, ∀ e' ∈ cp, e.2 = e'.2 := by
  intro e he e' he'
  unfold checkCFCheckptSanity at h
  cases ht : env.RegFilterHeaders.ChainTip server with
  | none => rw [ht] at h; simp at h
  | some t =>
    rw [ht] at h
    simp only at h
    have hagree := sanityLoop_agree env server cp t.2 _ 0 h
    apply List.ext_getElem (hl e he e' he')
    intro i h1 h2
    have hmax := (le_maxLen cp 0).2 e he
    have hne := hagree i (Nat.zero_le _) (by omega)
    cases hs : sanityScan i cp zeroHash with
    | none => exact absurd hs hne
    | some c =>
      have := (sanityScan_agree i cp zeroHash c hz hs).2
      rw [this e he _ (List.getElem?_eq_getElem h1), this e' he' _ (List.getElem?_eq_getElem h2)]

theorem head_list_perm {σ : Type} (env : Env σ) (server : σ) {l1 l2 : PeerMap (List Hash)}
    (hp : l1.Perm l2) (hz : NoZeroCheckpoint l1) (hl : SameLength l1)
    (h : checkCFCheckptSanity env server l1 = (-1, false)) :
    l1.head?.map Prod.snd = l2.head?.map Prod.snd := by
  cases l1 with
  | nil => rw [List.nil_perm.mp hp]
  | cons x t =>
    cases l2 with
    | nil => exact absurd hp.symm (by simp)
    | cons y u =>
      simp only [List.head?_cons, Option.map_some', Option.some.injEq]
      exact agreement_lists_equal env server _ hz hl h x (List.mem_cons_self _ _) y
        (hp.mem_iff.mpr (List.mem_cons_self _ _))

theorem banIfConnected_server {σ : Type} (net : Network) (b : BM σ) (peer : Peer) :
    (banIfConnected net b peer).server = b.server := by
  unfold banIfConnected
  split <;> rfl

theorem banBadPeers_fields {σ : Type} (net : Network) :
    ∀ (ps : List Peer) (d : Dispute σ),
      (banBadPeers net ps d).checkpoints = d.checkpoints.filter (fun e => e.1 ∉ ps) ∧
      (banBadPeers net ps d).headers = d.headers.filter (fun e => e.1 ∉ ps) ∧
      (banBadPeers net ps d).reported = d.reported ∧
      (banBadPeers net ps d).b = ps.foldl (banIfConnected net) d.b := by
  intro ps
  induction ps with
  | nil => intro d; simp [banBadPeers]
  | cons p rest ih =>
    intro d
    simp only [banBadPeers, List.foldl_cons]
    obtain ⟨h1, h2, h3, h4⟩ := ih ⟨banIfConnected net d.b p, d.headers.delete p,
      d.checkpoints.delete p, d.reported⟩
    refine ⟨?_, ?_, h3, h4⟩
    · rw [h1]
      simp only [PeerMap.delete, List.filter_filter]
      apply List.filter_congr
      intro e _
      simp only [List.mem_cons, not_or, ne_eq, decide_not, Bool.and_eq_true, Bool.not_eq_eq_eq_not,
        Bool.not_true, decide_eq_false_iff_not, decide_eq_true_eq]
      by_cases h : e.1 = p <;> by_cases h' : e.1 ∈ rest <;> simp [h, h']
    · rw [h2]
      simp only [PeerMap.delete, List.filter_filter]
      apply List.filter_congr
      intro e _
      by_cases h : e.1 = p <;> by_cases h' : e.1 ∈ rest <;> simp [h, h']

theorem banBadPeers_rel {σ : Type} (net : Network) (ps : List Peer) {d d' : Dispute σ}
    (h : DisputeRel d d') : DisputeRel (banBadPeers net ps d) (banBadPeers net ps d') := by
  obtain ⟨hb, hh, hr, hc⟩ := h
  obtain ⟨a1, a2, a3, a4⟩ := banBadPeers_fields net ps d
  obtain ⟨b1, b2, b3, b4⟩ := banBadPeers_fields net ps d'
  refine ⟨by rw [a4, b4, hb], by rw [a2, b2, hh], by rw [a3, b3, hr], ?_⟩
  rw [a1, b1]
  exact hc.filter _

theorem disputeLoop_rel {σ : Type} (env : Env σ) (net : Network) (fType startHeight : Nat) :
    ∀ (n i : Nat) (d d' : Dispute σ), DisputeRel d d' →
      DisputeRel (disputeLoop env net fType startHeight n i d).1
        (disputeLoop env net fType startHeight n i d').1 ∧
      (disputeLoop env net fType startHeight n i d).2
        = (disputeLoop env net fType startHeight n i d').2 := by
  intro n
  induction n with
  | zero => intro i d d' h; exact ⟨h, rfl⟩
  | succ n ih =>
    intro i d d' h
    obtain ⟨hb, hh, hr, hc⟩ := h
    simp only [disputeLoop, ← hb, ← hh]
    split
    · split
      · exact ⟨⟨hb, hh, hr, hc⟩, rfl⟩
      · split
        · exact ⟨⟨hb, hh, hr, hc⟩, rfl⟩
        · split
          · exact ⟨⟨hb, hh, hr, hc⟩, rfl⟩
          · apply ih
            apply banBadPeers_rel
            exact ⟨rfl, rfl, by simp only [hr], hc⟩
    · exact ih _ _ _ ⟨hb, hh, hr, hc⟩

theorem silentLoop_fields {σ : Type} (net : Network) (headers : PeerMap MsgCFHeaders) :
    ∀ (entries : PeerMap (List Hash)) (b : BM σ) (cps : PeerMap (List Hash)) (silent : List Peer),
      (silentLoop net headers entries b cps silent).2.1
        = cps.filter (fun e =>
            !((entries.filter fun x => !headers.has x.1).map Prod.fst).contains e.1) ∧
      (silentLoop net headers entries b cps silent).1.server = b.server ∧
      (silentLoop net headers entries b cps silent).2.2
        = silent ++ (entries.filter fun x => !headers.has x.1).map Prod.fst := by
  intro entries
  induction entries with
  | nil => intro b cps silent; simp [silentLoop]
  | cons x rest ih =>
    intro b cps silent
    obtain ⟨p, xs⟩ := x
    by_cases hh : headers.has p = true
    · have hf : (List.filter (fun x => !headers.has x.1) ((p, xs) :: rest))
          = List.filter (fun x => !headers.has x.1) rest := by
        rw [List.filter_cons_of_neg]; simp [hh]
      have hs : silentLoop net headers ((p, xs) :: rest) b cps silent
          = silentLoop net headers rest b cps silent := by
        simp only [silentLoop, hh, if_true]
      rw [hs, hf]
      exact ih b cps silent
    · have hf : (List.filter (fun x => !headers.has x.1) ((p, xs) :: rest))
          = (p, xs) :: List.filter (fun x => !headers.has x.1) rest := by
        rw [List.filter_cons_of_pos]; simp [hh]
      have hs : silentLoop net headers ((p, xs) :: rest) b cps silent
          = silentLoop net headers rest (banIfConnected net b p) (cps.delete p) (silent ++ [p]) := by
        simp only [silentLoop, hh, if_false]
        rfl
      rw [hs, hf]
      obtain ⟨h1, h2, h3⟩ := ih (banIfConnected net b p) (cps.delete p) (silent ++ [p])
      refine ⟨?_, ?_, ?_⟩
      · rw [h1]
        simp only [PeerMap.delete, List.filter_filter, List.map_cons]
        apply List.filter_congr
        intro e _
        by_cases h : e.1 = p
        · simp [h]
        · have h' : ¬ p = e.1 := fun x => h x.symm
          simp [h, h', List.contains_cons]
      · rw [h2, banIfConnected_server]
      · rw [h3]; simp

theorem silentLoop_self {σ : Type} (net : Network) (headers : PeerMap MsgCFHeaders) (b : BM σ)
    (cps : PeerMap (List Hash)) :
    (silentLoop net headers cps b cps []).2.1 = cps.filter (fun e => headers.has e.1) := by
  rw [(silentLoop_fields net headers cps b cps []).1]
  apply List.filter_congr
  intro e he
  by_cases h : headers.has e.1 = true
  · rw [h]
    simp only [Bool.not_eq_true', List.contains_eq_any_beq, List.any_eq_false, List.mem_map,
      List.mem_filter, beq_iff_eq, forall_exists_index, and_imp]
    intro q x _ hx hxq hq
    rw [hxq, ← hq, h] at hx
    simp at hx
  · have h' : headers.has e.1 = false := by simpa using h
    rw [h']
    simp only [Bool.not_eq_false', List.contains_eq_any_beq, List.any_eq_true, List.mem_map,
      List.mem_filter, beq_iff_eq]
    exact ⟨e.1, ⟨e, ⟨he, by simp [h']⟩, rfl⟩, rfl⟩

theorem disputeLoop_server {σ : Type} (env : Env σ) (net : Network) (fType startHeight : Nat) :
    ∀ (n i : Nat) (d : Dispute σ),
      (disputeLoop env net fType startHeight n i d).1.b.server = d.b.server := by
  intro n
  induction n with
  | zero => intro i d; rfl
  | succ n ih =>
    intro i d
    simp only [disputeLoop]
    split
    · split
      · rfl
      · split
        · rfl
        · split
          · rfl
          · rename_i badPeers _
            rw [ih, (banBadPeers_fields net badPeers _).2.2.2]
            have : ∀ (ps : List Peer) (b : BM σ), (ps.foldl (banIfConnected net) b).server = b.server := by
              intro ps
              induction ps with
              | nil => intro b; rfl
              | cons p rest ih2 => intro b; simp only [List.foldl_cons, ih2, banIfConnected_server]
            rw [this]
    · exact ih _ _

theorem disputeLoop_maps {σ : Type} (env : Env σ) (net : Network) (fType startHeight : Nat) :
    ∀ (n i : Nat) (d : Dispute σ),
      ∃ added,
        (disputeLoop env net fType startHeight n i d).1.reported = d.reported ++ added ∧
        (disputeLoop env net fType startHeight n i d).1.checkpoints
          = d.checkpoints.filter (fun e => e.1 ∉ added) ∧
        (disputeLoop env net fType startHeight n i d).1.headers
          = d.headers.filter (fun e => e.1 ∉ added) := by
  intro n
  induction n with
  | zero => intro i d; exact ⟨[], by simp [disputeLoop]⟩
  | succ n ih =>
    intro i d
    simp only [disputeLoop]
    split
    · split
      · exact ⟨[], by simp⟩
      · split
        · exact ⟨[], by simp⟩
        · split
          · exact ⟨[], by simp⟩
          · rename_i badPeers _
            obtain ⟨added, h1, h2, h3⟩ := ih (i + 1)
              (banBadPeers net badPeers ⟨d.b, d.headers, d.checkpoints, d.reported ++ badPeers⟩)
            obtain ⟨f1, f2, f3, _⟩ := banBadPeers_fields net badPeers
              ⟨d.b, d.headers, d.checkpoints, d.reported ++ badPeers⟩
            refine ⟨badPeers ++ added, ?_, ?_, ?_⟩
            · rw [h1, f3, List.append_assoc]
            · rw [h2, f1, List.filter_filter]
              apply List.filter_congr
              intro e _
              by_cases ha : e.1 ∈ added <;> by_cases hb : e.1 ∈ badPeers <;> simp [ha, hb]
            · rw [h3, f2, List.filter_filter]
              apply List.filter_congr
              intro e _
              by_cases ha : e.1 ∈ added <;> by_cases hb : e.1 ∈ badPeers <;> simp [ha, hb]
    · exact ih _ _

theorem noZero_of_subset {l1 l2 : PeerMap (List Hash)} (h : ∀ e ∈ l2, e ∈ l1)
    (hz : NoZeroCheckpoint l1) : NoZeroCheckpoint l2 :=
  fun e he => hz e (h e he)

theorem sameLength_of_subset {l1 l2 : PeerMap (List Hash)} (h : ∀ e ∈ l2, e ∈ l1)
    (hl : SameLength l1) : SameLength l2 :=
  fun e he e' he' => hl e (h e he) e' (h e' he')

theorem resolveFinal_result {σ : Type} (env : Env σ) (b1 b2 : BM σ)
    {cps1 cps2 : PeerMap (List Hash)} (r1 s1 r2 s2 : List Peer)
    (hsrv : b1.server = b2.server) (hp : cps1.Perm cps2) (hz : NoZeroCheckpoint cps1)
    (hl : SameLength cps1) :
    (resolveFinal env b1 cps1 r1 s1).result = (resolveFinal env b2 cps2 r2 s2).result := by
  unfold resolveFinal
  rw [← hsrv, ← checkCFCheckptSanity_perm env b1.server hp hz]
  rcases hs : checkCFCheckptSanity env b1.server cps1 with ⟨heightDiff, e⟩
  cases e
  · simp only
    by_cases hd : heightDiff = -1
    · subst hd
      have hh := head_list_perm env b1.server hp hz hl hs
      simp only [if_true]
      cases h1 : cps1.head? <;> cases h2 : cps2.head? <;> rw [h1, h2] at hh <;>
        simp at hh ⊢
      exact hh
    · simp only [hd, if_false]
  · rfl

theorem resolveMismatch_result {σ : Type} (env : Env σ) (net : Network) (b : BM σ)
    {cp1 cp2 : PeerMap (List Hash)} (fType : Nat) (heightDiff : Int)
    (hp : cp1.Perm cp2) (hz : NoZeroCheckpoint cp1) (hl : SameLength cp1) :
    (resolveMismatch env net b cp1 fType heightDiff).result
      = (resolveMismatch env net b cp2 fType heightDiff).result := by
  unfold resolveMismatch
  have hpf : (cp1.filter fun e => ¬ ((e.2.length : Int) < heightDiff)).Perm
      (cp2.filter fun e => ¬ ((e.2.length : Int) < heightDiff)) := hp.filter _
  simp only
  rw [← hpf.length_eq]
  split
  · rfl
  · split
    · rfl
    · rfl
    · rename_i headers _
      split
      · rfl
      · have hrel : DisputeRel
            ({ b := b, headers := headers,
               checkpoints := cp1.filter fun e => ¬ ((e.2.length : Int) < heightDiff),
               reported := [] } : Dispute σ)
            { b := b, headers := headers,
              checkpoints := cp2.filter fun e => ¬ ((e.2.length : Int) < heightDiff),
              reported := [] } := ⟨rfl, rfl, rfl, hpf⟩
        obtain ⟨⟨hb, hh, hr, hc⟩, hflag⟩ := disputeLoop_rel env net fType
          (u32 ((u32 heightDiff : Int) * CFCheckptInterval)) net.MaxCFHeadersPerMsg 0 _ _ hrel
        rcases hd1 : disputeLoop env net fType (u32 ((u32 heightDiff : Int) * CFCheckptInterval))
          net.MaxCFHeadersPerMsg 0
          ({ b := b, headers := headers,
             checkpoints := cp1.filter fun e => ¬ ((e.2.length : Int) < heightDiff),
             reported := [] } : Dispute σ) with ⟨d1, f1⟩
        rcases hd2 : disputeLoop env net fType (u32 ((u32 heightDiff : Int) * CFCheckptInterval))
          net.MaxCFHeadersPerMsg 0
          ({ b := b, headers := headers,
             checkpoints := cp2.filter fun e => ¬ ((e.2.length : Int) < heightDiff),
             reported := [] } : Dispute σ) with ⟨d2, f2⟩
        rw [hd1, hd2] at hb hh hr hc hflag
        simp only at hb hh hr hc hflag
        subst hflag
        cases f1
        · rfl
        · simp only
          have e1 := silentLoop_fields net d1.headers d1.checkpoints d1.b d1.checkpoints []
          have e2 := silentLoop_fields net d2.headers d2.checkpoints d2.b d2.checkpoints []
          have s1 := silentLoop_self net d1.headers d1.b d1.checkpoints
          have s2 := silentLoop_self net d2.headers d2.b d2.checkpoints
          rcases hs1 : silentLoop net d1.headers d1.checkpoints d1.b d1.checkpoints []
            with ⟨b1, c1, z1⟩
          rcases hs2 : silentLoop net d2.headers d2.checkpoints d2.b d2.checkpoints []
            with ⟨b2, c2, z2⟩
          rw [hs1] at e1 s1
          rw [hs2] at e2 s2
          simp only at e1 e2 s1 s2
          obtain ⟨added, _, hck, _⟩ := disputeLoop_maps env net fType
            (u32 ((u32 heightDiff : Int) * CFCheckptInterval)) net.MaxCFHeadersPerMsg 0
            ({ b := b, headers := headers,
               checkpoints := cp1.filter fun e => ¬ ((e.2.length : Int) < heightDiff),
               reported := [] } : Dispute σ)
          rw [hd1] at hck
          simp only at hck
          have hsub : ∀ e ∈ c1, e ∈ cp1 := by
            intro e he
            rw [s1, hck] at he
            exact (List.mem_filter.mp (List.mem_filter.mp (List.mem_filter.mp he).1).1).1
          have hperm : c1.Perm c2 := by
            rw [s1, s2, hh]
            exact hc.filter _
          have hsrv : b1.server = b2.server := by
            rw [e1.2.1, e2.2.1, hb]
          exact resolveFinal_result env b1 b2 d1.reported z1 d2.reported z2 hsrv hperm
            (noZero_of_subset hsub hz) (sameLength_of_subset hsub hl)

/-- C9, as amended: for peer checkpoint responses none of which is the zero hash, the
result of `checkCFCheckptSanity` is the same for every order in which the entries of the
peer-to-list map are visited; and when moreover all peers report lists of one length, the
checkpoint list (or the error) that `resolveConflict` returns is the same for every
order. -/
theorem negotiation_order_independent {σ : Type} (env : Env σ) (net : Network) (b : BM σ)
    (cp1 cp2 : PeerMap (List Hash)) (fType : Nat) (hp : cp1.Perm cp2)
    (hz : NoZeroCheckpoint cp1) :
    checkCFCheckptSanity env b.server cp1 = checkCFCheckptSanity env b.server cp2 ∧
    (SameLength cp1 →
      (resolveConflict env net b cp1 fType).result = (resolveConflict env net b cp2 fType).result) := by
  refine ⟨checkCFCheckptSanity_perm env b.server hp hz, ?_⟩
  intro hl
  unfold resolveConflict
  rw [← checkCFCheckptSanity_perm env b.server hp hz]
  rcases hs : checkCFCheckptSanity env b.server cp1 with ⟨heightDiff, e⟩
  cases e
  · simp only
    by_cases hd : heightDiff = -1
    · subst hd
      have hh := head_list_perm env b.server hp hz hl hs
      simp only [if_true]
      cases h1 : cp1.head? with
      | none =>
        cases h2 : cp2.head? with
        | none => exact resolveMismatch_result env net b fType (-1) hp hz hl
        | some y => rw [h1, h2] at hh; simp at hh
      | some x =>
        cases h2 : cp2.head? with
        | none => rw [h1, h2] at hh; simp at hh
        | some y =>
          rw [h1, h2] at hh
          simp only [Option.map_some', Option.some.injEq] at hh
          simp only [hh]
    · simp only [hd, if_false]
      exact resolveMismatch_result env net b fType heightDiff hp hz hl
  · rfl

theorem negotiation_order_independent_witness :
    checkCFCheckptSanity (sampleEnv []) sampleServer [(1, [11, 12]), (2, [11, 13])]
      = checkCFCheckptSanity (sampleEnv []) sampleServer [(2, [11, 13]), (1, [11, 12])] ∧
    checkCFCheckptSanity (sampleEnv []) sampleServer [(1, [11, 12]), (2, [11, 13])] = (1, false) ∧
    (resolveConflict (sampleEnv []) (sampleNet [] [] [])
        { sampleBM log3 mem3 none none 0 with server := sampleServer }
        [(1, [11, 12]), (2, [11, 13])] 0).result
      = (resolveConflict (sampleEnv []) (sampleNet [] [] [])
        { sampleBM log3 mem3 none none 0 with server := sampleServer }
        [(2, [11, 13]), (1, [11, 12])] 0).result :=
  ⟨(negotiation_order_independent (sampleEnv []) (sampleNet [] [] [])
      { sampleBM log3 mem3 none none 0 with server := sampleServer }
      [(1, [11, 12]), (2, [11, 13])] [(2, [11, 13]), (1, [11, 12])] 0 (List.Perm.swap _ _ _)
      (by unfold NoZeroCheckpoint; decide)).1,
   by decide,
   (negotiation_order_independent (sampleEnv []) (sampleNet [] [] [])
      { sampleBM log3 mem3 none none 0 with server := sampleServer }
      [(1, [11, 12]), (2, [11, 13])] [(2, [11, 13]), (1, [11, 12])] 0 (List.Perm.swap _ _ _)
      (by unfold NoZeroCheckpoint; decide)).2 (by unfold SameLength; decide)⟩

/-- C9, as stated, fails.  Two peers that agree on their common index but report lists
of different lengths: `resolveConflict` returns the list of whichever is visited first.
And a peer reporting the zero hash: `checkCFCheckptSanity` sees no mismatch when that
peer is visited first and a mismatch at index 0 when it is visited second. -/
theorem negotiation_depends_on_order :
    (resolveConflict (sampleEnv []) (sampleNet [] [] [])
        { sampleBM log3 mem3 none none 0 with server := sampleServer }
        [(1, [11, 12]), (2, [11])] 0).result = some [11, 12] ∧
    (resolveConflict (sampleEnv []) (sampleNet [] [] [])
        { sampleBM log3 mem3 none none 0 with server := sampleServer }
        [(2, [11]), (1, [11, 12])] 0).result = some [11] ∧
    checkCFCheckptSanity (sampleEnv []) sampleServer [(1, [0]), (2, [5])] = (-1, false) ∧
    checkCFCheckptSanity (sampleEnv []) sampleServer [(2, [5]), (1, [0])] = (0, false) := by
  decide

/-! ## Bans -/

theorem banIfConnected_events {σ : Type} (net : Network) (b : BM σ) (p : Peer) :
    ∃ ev, (banIfConnected net b p).trace = b.trace ++ ev ∧
      (∀ q, Event.BanPeer q ∈ ev → q = p) ∧
      ((∀ t, net.PeerByAddr t p = true) → Event.BanPeer p ∈ ev) := by
  unfold banIfConnected
  by_cases h : net.PeerByAddr b.trace p = true
  · refine ⟨[.BanPeer p, .Disconnect p], by simp [h, emit], ?_, fun _ => by simp⟩
    intro q hq
    simp at hq
    exact hq
  · refine ⟨[], by simp [h], fun q hq => by simp at hq, fun hc => absurd (hc b.trace) h⟩

theorem banAll_events {σ : Type} (net : Network) :
    ∀ (ps : List Peer) (b : BM σ),
      ∃ ev, (ps.foldl (banIfConnected net) b).trace = b.trace ++ ev ∧
        (∀ q, Event.BanPeer q ∈ ev → q ∈ ps) ∧
        (∀ q, (∀ t, net.PeerByAddr t q = true) → q ∈ ps → Event.BanPeer q ∈ ev) := by
  intro ps
  induction ps with
  | nil => intro b; exact ⟨[], by simp, fun q hq => by simp at hq, fun q _ hq => by simp at hq⟩
  | cons p rest ih =>
    intro b
    obtain ⟨ev1, t1, s1, c1⟩ := banIfConnected_events net b p
    obtain ⟨ev2, t2, s2, c2⟩ := ih (banIfConnected net b p)
    refine ⟨ev1 ++ ev2, by simp only [List.foldl_cons, t2, t1, List.append_assoc], ?_, ?_⟩
    · intro q hq
      rcases List.mem_append.mp hq with h | h
      · rw [s1 q h]; exact List.mem_cons_self _ _
      · exact List.mem_cons_of_mem _ (s2 q h)
    · intro q hc hq
      rcases List.mem_cons.mp hq with rfl | h
      · exact List.mem_append_left _ (c1 hc)
      · exact List.mem_append_right _ (c2 q hc h)

theorem disputeLoop_events {σ : Type} (env : Env σ) (net : Network) (fType startHeight : Nat) :
    ∀ (n i : Nat) (d : Dispute σ),
      ∃ ev added,
        (disputeLoop env net fType startHeight n i d).1.b.trace = d.b.trace ++ ev ∧
        (disputeLoop env net fType startHeight n i d).1.reported = d.reported ++ added ∧
        (disputeLoop env net fType startHeight n i d).1.checkpoints
          = d.checkpoints.filter (fun e => e.1 ∉ added) ∧
        (disputeLoop env net fType startHeight n i d).1.headers
          = d.headers.filter (fun e => e.1 ∉ added) ∧
        (∀ q, Event.BanPeer q ∈ ev → q ∈ added) ∧
        (∀ q, (∀ t, net.PeerByAddr t q = true) → q ∈ added → Event.BanPeer q ∈ ev) := by
  intro n
  induction n with
  | zero =>
    intro i d
    exact ⟨[], [], by simp [disputeLoop], by simp [disputeLoop], by simp [disputeLoop],
      by simp [disputeLoop], fun q hq => by simp at hq, fun q _ hq => by simp at hq⟩
  | succ n ih =>
    intro i d
    have hstop : ∃ ev added, d.b.trace = d.b.trace ++ ev ∧ d.reported = d.reported ++ added ∧
        d.checkpoints = d.checkpoints.filter (fun e => e.1 ∉ added) ∧
        d.headers = d.headers.filter (fun e => e.1 ∉ added) ∧
        (∀ q, Event.BanPeer q ∈ ev → q ∈ added) ∧
        (∀ q, (∀ t, net.PeerByAddr t q = true) → q ∈ added → Event.BanPeer q ∈ ev) :=
      ⟨[], [], by simp, by simp, by simp, by simp, fun q hq => by simp at hq,
        fun q _ hq => by simp at hq⟩
    simp only [disputeLoop]
    split
    · split
      · exact hstop
      · split
        · exact hstop
        · split
          · exact hstop
          · rename_i badPeers _
            obtain ⟨ev2, added, t2, r2, k2, h2, s2, c2⟩ := ih (i + 1)
              (banBadPeers net badPeers ⟨d.b, d.headers, d.checkpoints, d.reported ++ badPeers⟩)
            obtain ⟨f1, f2, f3, f4⟩ := banBadPeers_fields net badPeers
              ⟨d.b, d.headers, d.checkpoints, d.reported ++ badPeers⟩
            obtain ⟨ev1, t1, s1, c1⟩ := banAll_events net badPeers d.b
            refine ⟨ev1 ++ ev2, badPeers ++ added, ?_, ?_, ?_, ?_, ?_, ?_⟩
            · rw [t2, f4, t1, List.append_assoc]
            · rw [r2, f3, List.append_assoc]
            · rw [k2, f1, List.filter_filter]
              apply List.filter_congr
              intro e _
              by_cases ha : e.1 ∈ added <;> by_cases hb : e.1 ∈ badPeers <;> simp [ha, hb]
            · rw [h2, f2, List.filter_filter]
              apply List.filter_congr
              intro e _
              by_cases ha : e.1 ∈ added <;> by_cases hb : e.1 ∈ badPeers <;> simp [ha, hb]
            · intro q hq
              rcases List.mem_append.mp hq with h | h
              · exact List.mem_append_left _ (s1 q h)
              · exact List.mem_append_right _ (s2 q h)
            · intro q hc hq
              rcases List.mem_append.mp hq with h | h
              · exact List.mem_append_left _ (c1 q hc h)
              · exact List.mem_append_right _ (c2 q hc h)
    · exact ih _ _

theorem silentLoop_events {σ : Type} (net : Network) (headers : PeerMap MsgCFHeaders) :
    ∀ (entries : PeerMap (List Hash)) (b : BM σ) (cps : PeerMap (List Hash)) (silent : List Peer),
      ∃ ev, (silentLoop net headers entries b cps silent).1.trace = b.trace ++ ev ∧
        (∀ q, Event.BanPeer q ∈ ev →
          q ∈ (entries.filter fun x => !headers.has x.1).map Prod.fst) ∧
        (∀ q, (∀ t, net.PeerByAddr t q = true) →
          q ∈ (entries.filter fun x => !headers.has x.1).map Prod.fst → Event.BanPeer q ∈ ev) := by
  intro entries
  induction entries with
  | nil =>
    intro b cps silent
    exact ⟨[], by simp [silentLoop], fun q hq => by simp at hq, fun q _ hq => by simp at hq⟩
  | cons x rest ih =>
    intro b cps silent
    obtain ⟨p, xs⟩ := x
    by_cases hh : headers.has p = true
    · have hf : (List.filter (fun x => !headers.has x.1) ((p, xs) :: rest))
          = List.filter (fun x => !headers.has x.1) rest := by
        rw [List.filter_cons_of_neg]; simp [hh]
      have hs : silentLoop net headers ((p, xs) :: rest) b cps silent
          = silentLoop net headers rest b cps silent := by
        simp only [silentLoop, hh, if_true]
      rw [hs, hf]
      exact ih b cps silent
    · have hf : (List.filter (fun x => !headers.has x.1) ((p, xs) :: rest))
          = (p, xs) :: List.filter (fun x => !headers.has x.1) rest := by
        rw [List.filter_cons_of_pos]; simp [hh]
      have hs : silentLoop net headers ((p, xs) :: rest) b cps silent
          = silentLoop net headers rest (banIfConnected net b p) (cps.delete p) (silent ++ [p]) := by
        simp only [silentLoop, hh, if_false]
        rfl
      rw [hs, hf]
      obtain ⟨ev1, t1, s1, c1⟩ := banIfConnected_events net b p
      obtain ⟨ev2, t2, s2, c2⟩ := ih (banIfConnected net b p) (cps.delete p) (silent ++ [p])
      refine ⟨ev1 ++ ev2, by rw [t2, t1, List.append_assoc], ?_, ?_⟩
      · intro q hq
        rcases List.mem_append.mp hq with h | h
        · rw [s1 q h]; simp
        · exact List.mem_cons_of_mem _ (s2 q h)
      · intro q hc hq
        simp only [List.map_cons, List.mem_cons] at hq
        rcases hq with rfl | h
        · exact List.mem_append_left _ (c1 hc)
        · exact List.mem_append_right _ (c2 q hc h)

theorem resolveFinal_fields {σ : Type} (env : Env σ) (b : BM σ) (cps : PeerMap (List Hash))
    (r s : List Peer) :
    (resolveFinal env b cps r s).b = b ∧ (resolveFinal env b cps r s).reported = r ∧
      (resolveFinal env b cps r s).silent = s := by
  unfold resolveFinal
  split
  · exact ⟨rfl, rfl, rfl⟩
  · split <;> exact ⟨rfl, rfl, rfl⟩

theorem has_filter_of_pass {α : Type} (m : PeerMap α) (f : Peer × α → Bool) (p : Peer)
    (hf : ∀ e ∈ m, e.1 = p → f e = true) : PeerMap.has (m.filter f) p = PeerMap.has m p := by
  unfold PeerMap.has
  induction m with
  | nil => rfl
  | cons x rest ih =>
    have ih' := ih (fun e he => hf e (List.mem_cons_of_mem _ he))
    by_cases hx : x.1 = p
    · have := hf x (List.mem_cons_self _ _) hx
      simp [List.filter_cons, this, hx]
    · by_cases hfx : f x = true
      · simp only [List.filter_cons, hfx, if_true, List.any_cons, hx, decide_False, Bool.false_or]
        exact ih'
      · simp only [List.filter_cons, hfx, if_false, List.any_cons, hx, decide_False, Bool.false_or]
        exact ih'

theorem resolveMismatch_bans {σ : Type} (env : Env σ) (net : Network) (b : BM σ)
    (cp : PeerMap (List Hash)) (fType : Nat) (heightDiff : Int) (p : Peer) :
    (Event.BanPeer p ∈ newEvents b (resolveMismatch env net b cp fType heightDiff).b →
      p ∈ (resolveMismatch env net b cp fType heightDiff).reported ∨
      p ∈ (resolveMismatch env net b cp fType heightDiff).silent) ∧
    ((∀ t, net.PeerByAddr t p = true) →
      (p ∈ (resolveMismatch env net b cp fType heightDiff).reported ∨
       p ∈ (resolveMismatch env net b cp fType heightDiff).silent) →
      Event.BanPeer p ∈ newEvents b (resolveMismatch env net b cp fType heightDiff).b) ∧
    (p ∈ (resolveMismatch env net b cp fType heightDiff).silent →
      (∃ l, (p, l) ∈ cp) ∧ p ∉ (resolveMismatch env net b cp fType heightDiff).reported ∧
      ∀ headers, getCFHeadersForAllPeers env net b
          (u32 ((u32 heightDiff : Int) * CFCheckptInterval)) fType = .ok headers →
        headers.has p = false) := by
  have hnone : ∀ R : Resolution σ, R.b = b → R.reported = [] → R.silent = [] →
      (Event.BanPeer p ∈ newEvents b R.b → p ∈ R.reported ∨ p ∈ R.silent) ∧
      ((∀ t, net.PeerByAddr t p = true) → (p ∈ R.reported ∨ p ∈ R.silent) →
        Event.BanPeer p ∈ newEvents b R.b) ∧
      (p ∈ R.silent → (∃ l, (p, l) ∈ cp) ∧ p ∉ R.reported ∧
        ∀ headers, getCFHeadersForAllPeers env net b
            (u32 ((u32 heightDiff : Int) * CFCheckptInterval)) fType = .ok headers →
          headers.has p = false) := by
    intro R h1 h2 h3
    rw [h1, h2, h3]
    simp [newEvents]
  unfold resolveMismatch
  simp only
  split
  · exact hnone _ rfl rfl rfl
  · split
    · exact hnone _ rfl rfl rfl
    · exact hnone _ rfl rfl rfl
    · rename_i headers hheaders
      split
      · exact hnone _ rfl rfl rfl
      · obtain ⟨ev1, added, t1, r1, k1, h1, s1, c1⟩ := disputeLoop_events env net fType
          (u32 ((u32 heightDiff : Int) * CFCheckptInterval)) net.MaxCFHeadersPerMsg 0
          ({ b := b, headers := headers,
             checkpoints := cp.filter fun e => ¬ ((e.2.length : Int) < heightDiff),
             reported := [] } : Dispute σ)
        rcases hd : disputeLoop env net fType (u32 ((u32 heightDiff : Int) * CFCheckptInterval))
          net.MaxCFHeadersPerMsg 0
          ({ b := b, headers := headers,
             checkpoints := cp.filter fun e => ¬ ((e.2.length : Int) < heightDiff),
             reported := [] } : Dispute σ) with ⟨d, flag⟩
        rw [hd] at t1 r1 k1 h1
        simp only [List.nil_append] at t1 r1 k1 h1
        cases flag
        · simp only
          refine ⟨?_, ?_, fun h => by simp at h⟩
          · intro hb
            left
            rw [r1]
            apply s1
            simpa [newEvents, t1] using hb
          · intro hc hp
            rcases hp with hp | hp
            · rw [r1] at hp
              simpa [newEvents, t1] using c1 p hc hp
            · simp at hp
        · simp only
          obtain ⟨ev2, t2, s2, c2⟩ := silentLoop_events net d.headers d.checkpoints d.b
            d.checkpoints []
          obtain ⟨_, _, z2⟩ := silentLoop_fields net d.headers d.checkpoints d.b d.checkpoints []
          rcases hs : silentLoop net d.headers d.checkpoints d.b d.checkpoints []
            with ⟨b2, c2', z⟩
          rw [hs] at t2 z2
          simp only [List.nil_append] at t2 z2
          obtain ⟨fb, fr, fs⟩ := resolveFinal_fields env b2 c2' d.reported z
          rw [fb, fr, fs]
          have hev : newEvents b b2 = ev1 ++ ev2 := by
            simp [newEvents, t2, t1]
          rw [hev, r1, z2]
          refine ⟨?_, ?_, ?_⟩
          · intro hb
            rcases List.mem_append.mp hb with h | h
            · exact Or.inl (s1 p h)
            · exact Or.inr (s2 p h)
          · intro hc hp
            rcases hp with hp | hp
            · exact List.mem_append_left _ (c1 p hc hp)
            · exact List.mem_append_right _ (c2 p hc hp)
          · intro hp
            obtain ⟨e, he, hep⟩ := List.mem_map.mp hp
            obtain ⟨hmem, hno⟩ := List.mem_filter.mp he
            rw [k1] at hmem
            obtain ⟨hmem1, hnot⟩ := List.mem_filter.mp hmem
            have hcp : e ∈ cp := (List.mem_filter.mp hmem1).1
            have hpa : p ∉ added := by
              rw [← hep]; simpa using hnot
            refine ⟨⟨e.2, by rw [← hep]; exact hcp⟩, hpa, ?_⟩
            intro headers' hh'
            rw [hheaders] at hh'
            injection hh' with hh'
            subst hh'
            rw [h1, hep] at hno
            rw [has_filter_of_pass] at hno
            · simpa using hno
            · intro x _ hx
              rw [hx]
              simpa using hpa

/-- C10, as amended: in `resolveConflict`, every banned peer was either returned by
`resolveCFHeaderMismatch` for a disputed block or deleted for having a checkpoint list
and no cfheaders response; a peer of either kind is banned provided it is still
connected when it is looked up; and a peer deleted for want of a response has a
checkpoint list, was not returned by `resolveCFHeaderMismatch`, and is absent from the
cfheaders responses. -/
theorem banned_iff_reported_or_silent {σ : Type} (env : Env σ) (net : Network) (b : BM σ)
    (cp : PeerMap (List Hash)) (fType : Nat) (p : Peer) :
    (Event.BanPeer p ∈ newEvents b (resolveConflict env net b cp fType).b →
      p ∈ (resolveConflict env net b cp fType).reported ∨
      p ∈ (resolveConflict env net b cp fType).silent) ∧
    ((∀ t, net.PeerByAddr t p = true) →
      (p ∈ (resolveConflict env net b cp fType).reported ∨
       p ∈ (resolveConflict env net b cp fType).silent) →
      Event.BanPeer p ∈ newEvents b (resolveConflict env net b cp fType).b) ∧
    (p ∈ (resolveConflict env net b cp fType).silent →
      (∃ l, (p, l) ∈ cp) ∧ p ∉ (resolveConflict env net b cp fType).reported ∧
      ∀ heightDiff headers, checkCFCheckptSanity env b.server cp = (heightDiff, false) →
        getCFHeadersForAllPeers env net b
          (u32 ((u32 heightDiff : Int) * CFCheckptInterval)) fType = .ok headers →
        headers.has p = false) := by
  unfold resolveConflict
  rcases hs : checkCFCheckptSanity env b.server cp with ⟨heightDiff, e⟩
  cases e
  · simp only
    split
    · simp [newEvents]
    · obtain ⟨h1, h2, h3⟩ := resolveMismatch_bans env net b cp fType heightDiff p
      refine ⟨h1, h2, ?_⟩
      intro hp
      obtain ⟨a1, a2, a3⟩ := h3 hp
      refine ⟨a1, a2, ?_⟩
      intro hd headers hsan
      simp only [Prod.mk.injEq, and_true] at hsan
      rw [← hsan]
      exact a3 headers
  · simp [newEvents]

theorem banned_iff_reported_or_silent_witness :
    Event.BanPeer 2 ∈ newEvents { sampleBM log3 mem3 none none 0 with server := sampleServer }
      (resolveConflict (sampleEnv []) disputeNet
        { sampleBM log3 mem3 none none 0 with server := sampleServer }
        [(1, [11]), (2, [12]), (3, [11])] GCSFilterRegular).b ∧
    (resolveConflict (sampleEnv []) disputeNet
        { sampleBM log3 mem3 none none 0 with server := sampleServer }
        [(1, [11]), (2, [12]), (3, [11])] GCSFilterRegular).reported = [2] ∧
    (resolveConflict (sampleEnv []) disputeNet
        { sampleBM log3 mem3 none none 0 with server := sampleServer }
        [(1, [11]), (2, [12]), (3, [11])] GCSFilterRegular).silent = [3] ∧
    (resolveConflict (sampleEnv []) disputeNet
        { sampleBM log3 mem3 none none 0 with server := sampleServer }
        [(1, [11]), (2, [12]), (3, [11])] GCSFilterRegular).b.trace
      = [.BanPeer 2, .Disconnect 2, .BanPeer 3, .Disconnect 3] :=
  ⟨(banned_iff_reported_or_silent (sampleEnv []) disputeNet
      { sampleBM log3 mem3 none none 0 with server := sampleServer }
      [(1, [11]), (2, [12]), (3, [11])] GCSFilterRegular 2).2.1 (fun _ => rfl)
      (Or.inl (by decide)),
   by decide, by decide, by decide⟩

/-- C10, as stated, fails: peers 1 and 2 report different checkpoints, only peer 1
answers the cfheaders query, so no block is disputed and `resolveCFHeaderMismatch` is
never called; peer 2 is banned all the same, for want of a response. -/
theorem silent_peer_banned_without_filter_evidence :
    (resolveConflict (sampleEnv []) (sampleNet [(1, sampleCFHeaders [21])] [] [])
        { sampleBM log3 mem3 none none 0 with server := sampleServer }
        [(1, [11]), (2, [12])] GCSFilterRegular).b.trace = [.BanPeer 2, .Disconnect 2] ∧
    (resolveConflict (sampleEnv []) (sampleNet [(1, sampleCFHeaders [21])] [] [])
        { sampleBM log3 mem3 none none 0 with server := sampleServer }
        [(1, [11]), (2, [12])] GCSFilterRegular).reported = [] ∧
    (resolveConflict (sampleEnv []) (sampleNet [(1, sampleCFHeaders [21])] [] [])
        { sampleBM log3 mem3 none none 0 with server := sampleServer }
        [(1, [11]), (2, [12])] GCSFilterRegular).result = some [11] := by
  decide

/-! ## Checkpointed filter-header fetch -/

theorem get_insert {α : Type} (m : PeerMap α) (k : Peer) (v : α) (j : Peer) :
    (m.insert k v).get j = if j = k then some v else m.get j := by
  induction m with
  | nil =>
    by_cases h : j = k
    · simp [PeerMap.insert, PeerMap.get, h]
    · have h' : ¬ k = j := fun e => h e.symm
      simp [PeerMap.insert, PeerMap.get, h, h']
  | cons e rest ih =>
    obtain ⟨k', v'⟩ := e
    by_cases hk : k' = k
    · by_cases h : j = k
      · simp [PeerMap.insert, PeerMap.get, hk, h]
      · have h' : ¬ k = j := fun e => h e.symm
        simp [PeerMap.insert, PeerMap.get, hk, h, h']
    · by_cases h : j = k
      · subst h
        simp [PeerMap.insert, PeerMap.get, hk, ih]
      · by_cases h2 : k' = j
        · simp [PeerMap.insert, PeerMap.get, hk, h, h2]
        · simp [PeerMap.insert, PeerMap.get, hk, h, h2, ih]

theorem get_delete {α : Type} (m : PeerMap α) (k : Peer) (j : Peer) :
    (m.delete k).get j = if j = k then none else m.get j := by
  unfold PeerMap.delete
  induction m with
  | nil => simp [PeerMap.get]
  | cons e rest ih =>
    obtain ⟨k', v'⟩ := e
    simp only [ne_eq, decide_not] at ih ⊢
    by_cases hk : k' = k
    · subst hk
      by_cases h : j = k'
      · simp only [h, if_true] at ih ⊢
        simpa [PeerMap.get] using ih
      · have h' : ¬ k' = j := fun e => h e.symm
        simp only [h, if_false] at ih ⊢
        simpa [PeerMap.get, h'] using ih
    · by_cases h : j = k
      · subst h
        simp only [if_true] at ih ⊢
        simpa [PeerMap.get, hk] using ih
      · simp only [h, if_false] at ih ⊢
        simp [PeerMap.get, hk, ih]

theorem length_delete_lt {α : Type} (m : PeerMap α) (k : Peer) (v : α)
    (h : m.get k = some v) : (m.delete k).length < m.length := by
  unfold PeerMap.delete
  induction m with
  | nil => simp [PeerMap.get] at h
  | cons e rest ih =>
    obtain ⟨k', v'⟩ := e
    simp only [ne_eq, decide_not] at ih ⊢
    by_cases hk : k' = k
    · have := List.length_filter_le (fun e : Peer × α => !decide (e.1 = k)) rest
      simp [hk]
      omega
    · simp only [PeerMap.get, hk, if_false] at h
      have := ih h
      simp [hk]
      omega

theorem eq_nil_of_get_none {α : Type} (m : PeerMap α) (h : ∀ j, m.get j = none) : m = [] := by
  cases m with
  | nil => rfl
  | cons e rest =>
    have := h e.1
    simp [PeerMap.get] at this

theorem writeCFHeadersMsg_returns_chain {σ : Type} (env : Env σ) (b b' : BM σ)
    (msg : MsgCFHeaders) (h : Hash) (hw : writeCFHeadersMsg env b msg = (.ok h, b')) :
    h = specFilterChain env msg msg.FilterHashes.length ∧ msg.FilterHashes ≠ [] := by
  have hc := chainHeaders_specFilterChain env msg msg.FilterHashes [] [] (by simp)
  simp only [List.length_nil, Nat.zero_add, specFilterChain] at hc
  unfold writeCFHeadersMsg at hw
  rw [hc] at hw
  simp only at hw
  split at hw
  · simp at hw
  · split at hw
    · simp at hw
    · split at hw
      · simp at hw
      · split at hw
        · simp at hw
        · rename_i hneg
          split at hw
          · simp at hw
          · split at hw
            · simp at hw
            · simp only [Prod.mk.injEq, Res.ok.injEq] at hw
              refine ⟨hw.1.symm, ?_⟩
              intro hnil
              apply hneg
              simp [hnil]

theorem writeInOrder_append {σ : Type} (env : Env σ) (l : List MsgCFHeaders) (r : MsgCFHeaders) :
    ∀ (b : BM σ) (h : Hash),
      writeInOrder env b h (l ++ [r]) =
        match writeInOrder env b h l with
        | none => none
        | some (b', _) =>
          match writeCFHeadersMsg env b' r with
          | (.ok c, b'') => some (b'', c)
          | _ => none := by
  induction l with
  | nil =>
    intro b h
    simp only [List.nil_append, writeInOrder]
  | cons x t ih =>
    intro b h
    simp only [List.cons_append, writeInOrder]
    split
    · exact ih _ _
    · rfl

theorem writeInOrder_prefix {σ : Type} (env : Env σ) (l1 l2 : List MsgCFHeaders) :
    ∀ (b : BM σ) (h : Hash), (writeInOrder env b h (l1 ++ l2)).isSome = true →
      (writeInOrder env b h l1).isSome = true := by
  induction l1 with
  | nil => intro b h _; simp [writeInOrder]
  | cons x t ih =>
    intro b h hs
    simp only [List.cons_append, writeInOrder] at hs ⊢
    split
    · rename_i c b' heq
      rw [heq] at hs
      exact ih _ _ hs
    · rename_i hne
      split at hs
      · rename_i c b' heq
        exact absurd heq (hne c b')
      · simp at hs

theorem intervalMsgs_succ (curHeader : Hash) (curHeight : Nat) (resp : Nat → MsgCFHeaders)
    (k : Nat) (hk : curHeight / CFCheckptInterval ≤ k) :
    intervalMsgs curHeader curHeight resp (k + 1) =
      intervalMsgs curHeader curHeight resp k ++
        [if k = curHeight / CFCheckptInterval then trimFirst curHeader curHeight (resp k)
         else resp k] := by
  unfold intervalMsgs
  have h1 : k + 1 - curHeight / CFCheckptInterval = (k - curHeight / CFCheckptInterval) + 1 := by
    omega
  rw [h1, List.range'_concat, List.map_append]
  have h2 : curHeight / CFCheckptInterval + 1 * (k - curHeight / CFCheckptInterval) = k := by
    omega
  simp only [List.map_cons, List.map_nil, h2]

theorem intervalMsgs_split (curHeader : Hash) (curHeight : Nat) (resp : Nat → MsgCFHeaders)
    (k n : Nat) (hk : k ≤ n) :
    ∃ rest, intervalMsgs curHeader curHeight resp n =
      intervalMsgs curHeader curHeight resp k ++ rest := by
  unfold intervalMsgs
  by_cases hs : curHeight / CFCheckptInterval ≤ k
  · have h1 : n - curHeight / CFCheckptInterval =
        (n - k) + (k - curHeight / CFCheckptInterval) := by omega
    rw [h1, ← List.range'_append_1, List.map_append]
    exact ⟨_, rfl⟩
  · have h0 : k - curHeight / CFCheckptInterval = 0 := by omega
    rw [h0]
    exact ⟨(List.range' (curHeight / CFCheckptInterval) (n - curHeight / CFCheckptInterval)).map
      fun j => if j = curHeight / CFCheckptInterval then trimFirst curHeader curHeight (resp j)
        else resp j, rfl⟩

theorem writeInOrder_step {σ : Type} (env : Env σ) (b0 b : BM σ) (init h : Hash) (h0 : Nat)
    (resp : Nat → MsgCFHeaders) (k : Nat) (hk : h0 / CFCheckptInterval ≤ k)
    (hw : writeInOrder env b0 init (intervalMsgs init h0 resp k) = some (b, h))
    (hnext : (writeInOrder env b0 init (intervalMsgs init h0 resp (k + 1))).isSome = true) :
    ∃ b' h', writeCFHeadersMsg env b
        (if k = h0 / CFCheckptInterval then trimFirst init h0 (resp k) else resp k)
          = (.ok h', b') ∧
      writeInOrder env b0 init (intervalMsgs init h0 resp (k + 1)) = some (b', h') := by
  rw [intervalMsgs_succ init h0 resp k hk, writeInOrder_append, hw] at hnext ⊢
  generalize (if k = h0 / CFCheckptInterval then trimFirst init h0 (resp k) else resp k) = m
    at hnext ⊢
  simp only at hnext ⊢
  cases hres : writeCFHeadersMsg env b m with
  | mk res b'' =>
    rw [hres] at hnext
    cases res with
    | ok c => exact ⟨b'', c, rfl, rfl⟩
    | err => simp at hnext
    | panic => simp at hnext

theorem u32_of_lt (n : Nat) (h : n < 4294967296) : u32 (n : Int) = n := by
  unfold u32
  omega

theorem drainCache_spec {σ : Type} (env : Env σ) (b0 : BM σ) (init : Hash) (h0 N : Nat)
    (resp : Nat → MsgCFHeaders) (arrived : List Nat)
    (hN : N * 1000 < 4294967296)
    (harr : ∀ j ∈ arrived, j < N)
    (hW : ∀ k, k ≤ N →
      (writeInOrder env b0 init (intervalMsgs init h0 resp k)).isSome = true) :
    ∀ (d i fuel : Nat) (st : CFFetch σ), N - i = d → h0 / CFCheckptInterval ≤ i → i < N →
      (∀ j, h0 / CFCheckptInterval ≤ j → j ≤ i → j ∈ arrived) →
      writeInOrder env b0 init (intervalMsgs init h0 resp (i + 1)) = some (st.b, st.curHeader) →
      st.written = List.range' (h0 / CFCheckptInterval) (i + 1 - h0 / CFCheckptInterval) →
      (∀ j : Nat, st.queryResponses.get j = if j ∈ arrived ∧ i < j then some (resp j) else none) →
      st.queryResponses.length < fuel →
      ∃ k st', drainCache env fuel st i = some st' ∧ i < k ∧ k ≤ N ∧
        FetchInv env b0 init h0 resp arrived k st' := by
  intro d
  induction d with
  | zero => intro i fuel st hd _ hi; omega
  | succ d ih =>
    intro i fuel st hd hsi hi hall hw hwr hcache hfuel
    obtain ⟨fuel, rfl⟩ : ∃ f, fuel = f + 1 := ⟨fuel - 1, by omega⟩
    have hidx : u32 ((i : Int) + 1) = i + 1 := by
      have := u32_of_lt (i + 1) (by omega)
      simpa using this
    have hht : u32 (((i + 1 : Nat) : Int) * CFCheckptInterval) = (i + 1) * 1000 := by
      have := u32_of_lt ((i + 1) * 1000) (by omega)
      simpa [CFCheckptInterval] using this
    unfold drainCache
    simp only [hidx, hht]
    by_cases hin : i + 1 ∈ arrived
    · have hlt : i + 1 < N := harr _ hin
      have hget : st.queryResponses.get (i + 1) = some (resp (i + 1)) := by
        rw [hcache]
        simp [hin]
      obtain ⟨b', h', hwrite, hw'⟩ := writeInOrder_step env b0 st.b init st.curHeader h0 resp
        (i + 1) (by omega) hw (hW _ (by omega))
      have hne : ¬ (i + 1 = h0 / CFCheckptInterval) := by omega
      simp only [hne, if_false] at hwrite
      simp only [hget, hwrite]
      obtain ⟨k, st', hrun, hk1, hk2, hinv⟩ := ih (i + 1) fuel
        { b := b', curHeader := h', curHeight := (i + 1) * 1000,
          queryResponses := st.queryResponses.delete (i + 1),
          written := st.written ++ [i + 1] }
        (by omega) (by omega) hlt
        (by
          intro j h1 h2
          by_cases hj : j = i + 1
          · rw [hj]; exact hin
          · exact hall j h1 (by omega))
        hw'
        (by
          simp only [hwr]
          have e : i + 1 + 1 - h0 / CFCheckptInterval = (i + 1 - h0 / CFCheckptInterval) + 1 := by
            omega
          rw [e, List.range'_concat]
          congr 2
          omega)
        (by
          intro j
          simp only [get_delete, hcache]
          by_cases hj : j = i + 1
          · simp [hj]
          · by_cases hja : j ∈ arrived
            · by_cases h1 : i < j
              · have : i + 1 < j := by omega
                simp [hj, hja, h1, this]
              · have : ¬ (i + 1 < j) := by omega
                simp [hj, h1, this]
            · simp [hj, hja])
        (by
          have := length_delete_lt st.queryResponses (i + 1) _ hget
          simp only
          omega)
      exact ⟨k, st', hrun, by omega, hk2, hinv⟩
    · have hget : st.queryResponses.get (i + 1) = none := by
        rw [hcache]
        simp [hin]
      simp only [hget]
      refine ⟨i + 1, _, rfl, by omega, by omega, ?_⟩
      refine ⟨by omega, ?_, hin, hw, ?_, hwr, ?_⟩
      · intro j h1 h2
        exact hall j h1 (by omega)
      · have hne : ¬ (i + 1 = h0 / CFCheckptInterval) := by omega
        simp only [hne, if_false]
        rfl
      · intro j
        simp only [hcache]
        by_cases hj : j = i + 1
        · simp [hj, hin]
        · by_cases hja : j ∈ arrived
          · by_cases h1 : i < j
            · have : i + 1 < j := by omega
              simp [hja, h1, this]
            · have : ¬ (i + 1 < j) := by omega
              simp [h1, this]
          · simp [hja]

theorem placeResponse_cached {σ : Type} (env : Env σ) (init : Hash) (st : CFFetch σ)
    (j : Nat) (r : MsgCFHeaders) (hj : j * 1000 + 1 < 4294967296)
    (hlt : st.curHeight + 1 < j * 1000 + 1) :
    placeResponse env init st j r =
      some ({ st with queryResponses := st.queryResponses.insert j r }, true) := by
  have h1 : u32 ((j : Int) * CFCheckptInterval + 1) = j * 1000 + 1 := by
    have := u32_of_lt (j * 1000 + 1) hj
    simpa [CFCheckptInterval] using this
  have h2 : u32 ((st.curHeight : Int) + 1) = st.curHeight + 1 := by
    have := u32_of_lt (st.curHeight + 1) (by omega)
    simpa using this
  unfold placeResponse
  simp only [h1, h2]
  rw [if_pos (by omega)]

theorem placeResponse_discarded {σ : Type} (env : Env σ) (init : Hash) (st : CFFetch σ)
    (j : Nat) (r : MsgCFHeaders) (hj : (j + 1) * 1000 < 4294967296)
    (hc : st.curHeight + 1 < 4294967296) (hle : (j + 1) * 1000 ≤ st.curHeight) :
    placeResponse env init st j r = some (st, true) := by
  have h1 : u32 ((j : Int) * CFCheckptInterval + 1) = j * 1000 + 1 := by
    have := u32_of_lt (j * 1000 + 1) (by omega)
    simpa [CFCheckptInterval] using this
  have h2 : u32 ((st.curHeight : Int) + 1) = st.curHeight + 1 := by
    have := u32_of_lt (st.curHeight + 1) hc
    simpa using this
  have h3 : u32 (((j : Int) + 1) * CFCheckptInterval) = (j + 1) * 1000 := by
    have := u32_of_lt ((j + 1) * 1000) hj
    simpa [CFCheckptInterval] using this
  unfold placeResponse
  simp only [h1, h2, h3]
  rw [if_neg (by omega), if_pos hle]

theorem placeResponse_next {σ : Type} (env : Env σ) (init : Hash) (st : CFFetch σ)
    (j : Nat) (r m : MsgCFHeaders) (b' : BM σ) (h' : Hash)
    (hj : (j + 1) * 1000 < 4294967296)
    (h1 : j * 1000 ≤ st.curHeight) (h2 : st.curHeight < (j + 1) * 1000)
    (htrim : (if st.curHeader = init then
        (if st.curHeight - j * 1000 ≤ r.FilterHashes.length then
          some { r with PrevFilterHeader := st.curHeader,
                        FilterHashes := r.FilterHashes.drop (st.curHeight - j * 1000) }
         else none)
      else some r) = some m)
    (hw : writeCFHeadersMsg env st.b m = (.ok h', b')) :
    placeResponse env init st j r =
      (drainCache env (st.queryResponses.length + 1)
        { st with b := b', curHeader := h', written := st.written ++ [j] } j).map
        fun st => (st, true) := by
  have e1 : u32 ((j : Int) * CFCheckptInterval + 1) = j * 1000 + 1 := by
    have := u32_of_lt (j * 1000 + 1) (by omega)
    simpa [CFCheckptInterval] using this
  have e2 : u32 ((st.curHeight : Int) + 1) = st.curHeight + 1 := by
    have := u32_of_lt (st.curHeight + 1) (by omega)
    simpa using this
  have e3 : u32 (((j : Int) + 1) * CFCheckptInterval) = (j + 1) * 1000 := by
    have := u32_of_lt ((j + 1) * 1000) hj
    simpa [CFCheckptInterval] using this
  have e4 : u32 ((st.curHeight : Int) + 1 - ((j * 1000 + 1 : Nat) : Int))
      = st.curHeight - j * 1000 := by
    have := u32_of_lt (st.curHeight - j * 1000) (by omega)
    rw [← this]
    congr 1
    omega
  unfold placeResponse
  simp only [e1, e2, e3, e4]
  rw [if_neg (by omega), if_neg (by omega), htrim]
  simp only [hw]

theorem placeResponse_step {σ : Type} (env : Env σ) (b0 : BM σ) (init : Hash) (h0 N : Nat)
    (resp : Nat → MsgCFHeaders) (arrived : List Nat)
    (hN : N * 1000 < 4294967296)
    (harr : ∀ j ∈ arrived, j < N)
    (hW : ∀ k, k ≤ N →
      (writeInOrder env b0 init (intervalMsgs init h0 resp k)).isSome = true)
    (k : Nat) (st : CFFetch σ) (hkN : k ≤ N)
    (hinv : FetchInv env b0 init h0 resp arrived k st)
    (j : Nat) (hj1 : h0 / CFCheckptInterval ≤ j) (hj2 : j < N)
    (hlink : h0 / CFCheckptInterval < j → ∀ b h,
      writeInOrder env b0 init (intervalMsgs init h0 resp j) = some (b, h) →
        h = (resp j).PrevFilterHeader) :
    ∃ k' st', placeResponse env init st j (resp j) = some (st', true) ∧ k' ≤ N ∧
      FetchInv env b0 init h0 resp (j :: arrived) k' st' := by
  obtain ⟨hk1, hbefore, hknot, hw, hht, hwr, hcache⟩ := hinv
  have hdiv : h0 / CFCheckptInterval * 1000 ≤ h0 ∧ h0 < (h0 / CFCheckptInterval + 1) * 1000 := by
    have := Nat.div_add_mod h0 1000
    have := Nat.mod_lt h0 (show 1000 > 0 by omega)
    simp only [CFCheckptInterval]
    omega
  have hmod : h0 - h0 / CFCheckptInterval * 1000 = h0 % CFCheckptInterval := by
    have := Nat.div_add_mod h0 1000
    simp only [CFCheckptInterval]
    omega
  rcases Nat.lt_trichotomy k j with hlt | heq | hgt
  · -- the interval lies ahead: cached
    have hcur : st.curHeight + 1 < j * 1000 + 1 := by
      rw [hht]
      split
      · omega
      · simp only [CFCheckptInterval]; omega
    rw [placeResponse_cached env init st j (resp j) (by omega) hcur]
    refine ⟨k, _, rfl, hkN, hk1, ?_, ?_, hw, hht, hwr, ?_⟩
    · intro j' a1 a2
      exact List.mem_cons_of_mem _ (hbefore j' a1 a2)
    · intro hmem
      rcases List.mem_cons.mp hmem with e | e
      · omega
      · exact hknot e
    · intro j'
      simp only [get_insert, hcache, List.mem_cons]
      by_cases e : j' = j
      · subst e
        simp [hlt]
      · simp [e]
  · -- the next interval: written, then the cache drained
    subst heq
    have hstep := writeInOrder_step env b0 st.b init st.curHeader h0 resp k hk1 hw
      (hW _ (by omega))
    obtain ⟨b', h', hwrite, hw'⟩ := hstep
    have hchain := writeCFHeadersMsg_returns_chain env st.b b' _ h' hwrite
    have hcurr : k * 1000 ≤ st.curHeight ∧ st.curHeight < (k + 1) * 1000 := by
      rw [hht]
      split
      · rename_i e
        rw [e]
        exact hdiv
      · simp only [CFCheckptInterval]; omega
    have htrim : (if st.curHeader = init then
        (if st.curHeight - k * 1000 ≤ (resp k).FilterHashes.length then
          some { resp k with PrevFilterHeader := st.curHeader,
                             FilterHashes := (resp k).FilterHashes.drop (st.curHeight - k * 1000) }
         else none)
        else some (resp k)) =
        some (if k = h0 / CFCheckptInterval then trimFirst init h0 (resp k) else resp k) := by
      by_cases hks : k = h0 / CFCheckptInterval
      · have hnil : intervalMsgs init h0 resp k = [] := by
          unfold intervalMsgs
          rw [hks]
          simp
        rw [hnil] at hw
        simp only [writeInOrder, Option.some.injEq, Prod.mk.injEq] at hw
        have hcur : st.curHeight = h0 := by rw [hht, if_pos hks]
        have hoff : st.curHeight - k * 1000 = h0 % CFCheckptInterval := by
          rw [hcur, hks]
          exact hmod
        have hne := hchain.2
        rw [if_pos hks] at hne
        have hlen : h0 % CFCheckptInterval ≤ (resp k).FilterHashes.length := by
          by_contra hcon
          apply hne
          simp only [trimFirst]
          exact List.drop_eq_nil_of_le (by omega)
        rw [if_pos hw.2.symm, if_pos hks, hoff, if_pos hlen]
        simp only [trimFirst, hw.2]
      · rw [if_neg hks]
        have hcur : st.curHeight = k * 1000 := by
          rw [hht, if_neg hks]
          rfl
        have hprev := hlink (by omega) _ _ hw
        by_cases hi : st.curHeader = init
        · rw [if_pos hi, hcur]
          simp only [Nat.sub_self, Nat.zero_le, if_true, List.drop_zero, hprev]
        · rw [if_neg hi]
    rw [placeResponse_next env init st k (resp k) _ b' h' (by omega) hcurr.1 hcurr.2 htrim hwrite]
    obtain ⟨k', st', hrun, _, hk2, hinv'⟩ := drainCache_spec env b0 init h0 N resp (k :: arrived)
      hN (by
        intro x hx
        rcases List.mem_cons.mp hx with e | e
        · omega
        · exact harr x e)
      hW (N - k) k (st.queryResponses.length + 1)
      { st with b := b', curHeader := h', written := st.written ++ [k] }
      rfl hk1 hj2
      (by
        intro x a1 a2
        by_cases e : x = k
        · rw [e]; exact List.mem_cons_self _ _
        · exact List.mem_cons_of_mem _ (hbefore x a1 (by omega)))
      hw'
      (by
        simp only [hwr]
        have e : k + 1 - h0 / CFCheckptInterval = (k - h0 / CFCheckptInterval) + 1 := by omega
        rw [e, List.range'_concat]
        congr 2
        omega)
      (by
        intro x
        simp only [hcache, List.mem_cons]
        by_cases e : x = k
        · subst e
          simp
        · simp [e])
      (by simp)
    rw [hrun]
    exact ⟨k', st', rfl, hk2, hinv'⟩
  · -- the interval is written already: discarded
    have hks : ¬ (k = h0 / CFCheckptInterval) := by omega
    have hcur : st.curHeight = k * 1000 := by
      rw [hht, if_neg hks]
      rfl
    rw [placeResponse_discarded env init st j (resp j) (by omega) (by omega) (by omega)]
    refine ⟨k, st, rfl, hkN, hk1, ?_, ?_, hw, hht, hwr, ?_⟩
    · intro j' a1 a2
      exact List.mem_cons_of_mem _ (hbefore j' a1 a2)
    · intro hmem
      rcases List.mem_cons.mp hmem with e | e
      · omega
      · exact hknot e
    · intro j'
      simp only [hcache, List.mem_cons]
      by_cases e : j' = j
      · subst e
        have : ¬ (k < j') := by omega
        simp [this]
      · simp [e]

theorem acceptedIndex_some {σ : Type} (env : Env σ) (checkpoints : List Hash)
    (genesisHeader init : Hash) (stopHashes : PeerMap Nat) (st : CFFetch σ)
    (q : MsgGetCFHeaders) (r : MsgCFHeaders) (j : Nat)
    (h : acceptedIndex env checkpoints genesisHeader stopHashes q r = some j) :
    cfCallback env checkpoints genesisHeader init stopHashes st q r
        = placeResponse env init st j r ∧
      ∃ p c, (if j > 0 then checkpoints[j - 1]? else some genesisHeader) = some p ∧
        checkpoints[j]? = some c ∧ verifyCheckpoint env p c r = true := by
  unfold acceptedIndex at h
  unfold cfCallback
  split at h
  · simp at h
  · rename_i hq
    rw [if_neg hq]
    split at h
    · simp at h
    · rename_i idx hget
      simp only [hget]
      simp only at h
      split at h
      · rename_i p c hp hc
        split at h
        · simp at h
        · rename_i hv
          simp only [Option.some.injEq] at h
          subst h
          simp only [hp, hc]
          rw [if_neg hv]
          refine ⟨rfl, p, c, rfl, rfl, ?_⟩
          simpa using hv
      · simp at h

theorem written_header_links {σ : Type} (env : Env σ) (checkpoints : List Hash)
    (genesisHeader init : Hash) (stopHashes : PeerMap Nat) (b0 : BM σ) (h0 : Nat)
    (qry : Nat → MsgGetCFHeaders) (resp : Nat → MsgCFHeaders)
    (hverified : ∀ j, h0 / CFCheckptInterval ≤ j → j < checkpoints.length →
      acceptedIndex env checkpoints genesisHeader stopHashes (qry j) (resp j) = some j)
    (hstore : ∀ c, checkpoints[h0 / CFCheckptInterval]? = some c →
      verifyCheckpoint env init c (trimFirst init h0 (resp (h0 / CFCheckptInterval))) = true)
    (j : Nat) (hj1 : h0 / CFCheckptInterval < j) (hj2 : j < checkpoints.length)
    (b : BM σ) (h : Hash)
    (hw : writeInOrder env b0 init (intervalMsgs init h0 resp j) = some (b, h)) :
    h = (resp j).PrevFilterHeader := by
  obtain ⟨i, rfl⟩ : ∃ i, j = i + 1 := by
    cases j with
    | zero => exact absurd hj1 (Nat.not_lt_zero _)
    | succ i => exact ⟨i, rfl⟩
  have hi : h0 / CFCheckptInterval ≤ i := by omega
  have hpre : (writeInOrder env b0 init (intervalMsgs init h0 resp i)).isSome = true := by
    apply writeInOrder_prefix env _ [if i = h0 / CFCheckptInterval then
      trimFirst init h0 (resp i) else resp i]
    rw [← intervalMsgs_succ init h0 resp i hi, hw]
    rfl
  obtain ⟨⟨b1, h1⟩, hw1⟩ := Option.isSome_iff_exists.mp hpre
  obtain ⟨b', h', hwrite, hw'⟩ := writeInOrder_step env b0 b1 init h1 h0 resp i hi hw1
    (by rw [hw]; rfl)
  rw [hw] at hw'
  simp only [Option.some.injEq, Prod.mk.injEq] at hw'
  have hchain := (writeCFHeadersMsg_returns_chain env b1 b' _ h' hwrite).1
  obtain ⟨_, p, c, hp, hc, hv⟩ := acceptedIndex_some env checkpoints genesisHeader init
    stopHashes ⟨b0, init, h0, [], []⟩ _ _ _ (hverified (i + 1) (by omega) hj2)
  rw [if_pos (by omega)] at hp
  simp only [Nat.add_sub_cancel] at hp
  have hprev := ((verifyCheckpoint_iff env _ _ _).mp hv).1
  rw [hw'.2, ← hprev]
  by_cases his : i = h0 / CFCheckptInterval
  · rw [if_pos his] at hchain
    have := ((verifyCheckpoint_iff env _ _ _).mp (hstore p (by rw [← his]; exact hp))).2
    rw [hchain, his]
    exact this
  · rw [if_neg his] at hchain
    obtain ⟨_, p', c', _, hc', hv'⟩ := acceptedIndex_some env checkpoints genesisHeader init
      stopHashes ⟨b0, init, h0, [], []⟩ _ _ _ (hverified i hi (by omega))
    have := ((verifyCheckpoint_iff env _ _ _).mp hv').2
    rw [hp] at hc'
    simp only [Option.some.injEq] at hc'
    rw [hchain, this, hc']

theorem runCallbacks_inv {σ : Type} (env : Env σ) (checkpoints : List Hash)
    (genesisHeader init : Hash) (stopHashes : PeerMap Nat) (b0 : BM σ) (h0 : Nat)
    (qry : Nat → MsgGetCFHeaders) (resp : Nat → MsgCFHeaders)
    (hN : checkpoints.length * 1000 < 4294967296)
    (hverified : ∀ j, h0 / CFCheckptInterval ≤ j → j < checkpoints.length →
      acceptedIndex env checkpoints genesisHeader stopHashes (qry j) (resp j) = some j)
    (hstore : ∀ c, checkpoints[h0 / CFCheckptInterval]? = some c →
      verifyCheckpoint env init c (trimFirst init h0 (resp (h0 / CFCheckptInterval))) = true)
    (hW : ∀ k, k ≤ checkpoints.length →
      (writeInOrder env b0 init (intervalMsgs init h0 resp k)).isSome = true) :
    ∀ (order arrived : List Nat) (k : Nat) (st : CFFetch σ),
      (∀ j ∈ order, h0 / CFCheckptInterval ≤ j ∧ j < checkpoints.length) →
      (∀ j ∈ arrived, j < checkpoints.length) → k ≤ checkpoints.length →
      FetchInv env b0 init h0 resp arrived k st →
      ∃ k' st', runCallbacks env checkpoints genesisHeader init stopHashes st
          (order.map fun j => (qry j, resp j)) = some st' ∧ k' ≤ checkpoints.length ∧
        FetchInv env b0 init h0 resp (order.reverse ++ arrived) k' st' := by
  intro order
  induction order with
  | nil =>
    intro arrived k st _ _ hk hinv
    exact ⟨k, st, rfl, hk, by simpa using hinv⟩
  | cons j rest ih =>
    intro arrived k st hord harr hk hinv
    have hj := hord j (List.mem_cons_self _ _)
    obtain ⟨k1, st1, hplace, hk1, hinv1⟩ := placeResponse_step env b0 init h0
      checkpoints.length resp arrived hN harr hW k st hk hinv j hj.1 hj.2
      (fun hlt b h hw => written_header_links env checkpoints genesisHeader init stopHashes
        b0 h0 qry resp hverified hstore j hlt hj.2 b h hw)
    obtain ⟨k', st', hrun, hk', hinv'⟩ := ih (j :: arrived) k1 st1
      (fun x hx => hord x (List.mem_cons_of_mem _ hx))
      (by
        intro x hx
        rcases List.mem_cons.mp hx with e | e
        · rw [e]; exact hj.2
        · exact harr x e)
      hk1 hinv1
    refine ⟨k', st', ?_, hk', ?_⟩
    · simp only [List.map_cons, runCallbacks]
      rw [(acceptedIndex_some env checkpoints genesisHeader init stopHashes st _ _ _
        (hverified j hj.1 hj.2)).1, hplace]
      exact hrun
    · simpa [List.reverse_cons, List.append_assoc] using hinv'

/-- C8: in `getCheckpointedCFHeaders`, with one checkpoint-verified response `resp j` per
requested interval `j`, the store matching the checkpoints up to its tip and the writes
succeeding when done in interval order, and for every order `order` in which responses
arrive (repeats allowed, intervals possibly missing): a response whose interval starts
beyond the next unwritten height is cached and nothing is written; a response whose
interval is fully written is discarded; the run ends without a panic, the intervals
written so far are the consecutive ones from the starting interval up to the first
`k` that has not arrived, in increasing order, written as the in-order writes do, and
the cache holds exactly the arrived intervals beyond `k`; and once every requested
interval has arrived, every interval has been written once, in order, and the final
state is the one of the in-order writes, whatever the arrival order. -/
theorem checkpointed_cfheaders_written_in_order {σ : Type} (env : Env σ) (b : BM σ)
    (checkpoints : List Hash) (fType : Nat) (curHeader : Hash) (curHeight : Nat)
    (queryMsgs : List MsgGetCFHeaders) (stopHashes : PeerMap Nat)
    (qry : Nat → MsgGetCFHeaders) (resp : Nat → MsgCFHeaders) (order : List Nat)
    (bN : BM σ) (hN : Hash)
    (hbound : checkpoints.length * 1000 < 4294967296)
    (htip : env.RegFilterHeaders.ChainTip b.server = some (curHeader, curHeight))
    (hbehind : curHeight < checkpoints.length * CFCheckptInterval)
    (hqueries : buildQueries env b fType (checkpoints.length - curHeight / CFCheckptInterval)
      (curHeight / CFCheckptInterval) [] [] = some (queryMsgs, stopHashes))
    (hverified : ∀ j, curHeight / CFCheckptInterval ≤ j → j < checkpoints.length →
      acceptedIndex env checkpoints b.genesisHeader stopHashes (qry j) (resp j) = some j)
    (hstore : ∀ c, checkpoints[curHeight / CFCheckptInterval]? = some c →
      verifyCheckpoint env curHeader c
        (trimFirst curHeader curHeight (resp (curHeight / CFCheckptInterval))) = true)
    (hwrites : writeInOrder env b curHeader
      (intervalMsgs curHeader curHeight resp checkpoints.length) = some (bN, hN))
    (horder : ∀ j ∈ order, curHeight / CFCheckptInterval ≤ j ∧ j < checkpoints.length) :
    (∀ (st : CFFetch σ) (j : Nat), curHeight / CFCheckptInterval ≤ j → j < checkpoints.length →
      st.curHeight + 1 < j * CFCheckptInterval + 1 →
      cfCallback env checkpoints b.genesisHeader curHeader stopHashes st (qry j) (resp j)
        = some ({ st with queryResponses := st.queryResponses.insert j (resp j) }, true)) ∧
    (∀ (st : CFFetch σ) (j : Nat), curHeight / CFCheckptInterval ≤ j → j < checkpoints.length →
      st.curHeight ≤ checkpoints.length * CFCheckptInterval →
      (j + 1) * CFCheckptInterval ≤ st.curHeight →
      cfCallback env checkpoints b.genesisHeader curHeader stopHashes st (qry j) (resp j)
        = some (st, true)) ∧
    (∃ st k, getCheckpointedCFHeaders env b checkpoints fType
          (order.map fun j => (qry j, resp j)) = some st ∧
        curHeight / CFCheckptInterval ≤ k ∧ k ≤ checkpoints.length ∧
        (∀ j, curHeight / CFCheckptInterval ≤ j → j < k → j ∈ order) ∧ k ∉ order ∧
        st.written
          = List.range' (curHeight / CFCheckptInterval) (k - curHeight / CFCheckptInterval) ∧
        writeInOrder env b curHeader (intervalMsgs curHeader curHeight resp k)
          = some (st.b, st.curHeader) ∧
        ∀ j : Nat, st.queryResponses.get j
          = if j ∈ order ∧ k < j then some (resp j) else none) ∧
    ((∀ j, curHeight / CFCheckptInterval ≤ j → j < checkpoints.length → j ∈ order) →
      getCheckpointedCFHeaders env b checkpoints fType (order.map fun j => (qry j, resp j))
        = some { b := bN, curHeader := hN,
                 curHeight := checkpoints.length * CFCheckptInterval,
                 queryResponses := [],
                 written := List.range' (curHeight / CFCheckptInterval)
                   (checkpoints.length - curHeight / CFCheckptInterval) }) := by
  have hW : ∀ k, k ≤ checkpoints.length →
      (writeInOrder env b curHeader (intervalMsgs curHeader curHeight resp k)).isSome = true := by
    intro k hk
    obtain ⟨rest, hrest⟩ := intervalMsgs_split curHeader curHeight resp k checkpoints.length hk
    apply writeInOrder_prefix env _ rest
    rw [← hrest, hwrites]
    rfl
  have hinv0 : FetchInv env b curHeader curHeight resp [] (curHeight / CFCheckptInterval)
      { b := b, curHeader := curHeader, curHeight := curHeight, queryResponses := [],
        written := [] } := by
    refine ⟨le_refl _, ?_, by simp, ?_, by simp, by simp, ?_⟩
    · intro j h1 h2
      omega
    · simp [intervalMsgs, writeInOrder]
    · intro j
      simp [PeerMap.get]
  have hsi : curHeight / CFCheckptInterval < checkpoints.length := by
    simp only [CFCheckptInterval] at hbehind ⊢
    omega
  obtain ⟨k, st, hrun, hk, hinv⟩ := runCallbacks_inv env checkpoints b.genesisHeader curHeader
    stopHashes b curHeight qry resp hbound hverified hstore hW order []
    (curHeight / CFCheckptInterval)
    { b := b, curHeader := curHeader, curHeight := curHeight, queryResponses := [],
      written := [] }
    horder (by simp) (by omega) hinv0
  have hget : getCheckpointedCFHeaders env b checkpoints fType
      (order.map fun j => (qry j, resp j)) = some st := by
    unfold getCheckpointedCFHeaders
    simp only [htip, hqueries]
    exact hrun
  simp only [List.append_nil, List.mem_reverse] at hinv
  obtain ⟨hk1, hbefore, hknot, hw, hht, hwr, hcache⟩ := hinv
  simp only [List.mem_append, List.mem_reverse, List.not_mem_nil, or_false] at hbefore hknot hcache
  refine ⟨?_, ?_, ⟨st, k, hget, hk1, hk, hbefore, hknot, hwr, hw, hcache⟩, ?_⟩
  · intro s j hj1 hj2 hlt
    rw [(acceptedIndex_some env checkpoints b.genesisHeader curHeader stopHashes s _ _ _
      (hverified j hj1 hj2)).1]
    simp only [CFCheckptInterval] at hlt
    exact placeResponse_cached env curHeader s j (resp j) (by omega) hlt
  · intro s j hj1 hj2 hc hle
    rw [(acceptedIndex_some env checkpoints b.genesisHeader curHeader stopHashes s _ _ _
      (hverified j hj1 hj2)).1]
    simp only [CFCheckptInterval] at hc hle
    exact placeResponse_discarded env curHeader s j (resp j) (by omega) (by omega) hle
  · intro hall
    have hkN : k = checkpoints.length := by
      by_contra hne
      exact hknot (hall k hk1 (by omega))
    subst hkN
    rw [hget]
    rw [hwrites] at hw
    simp only [Option.some.injEq, Prod.mk.injEq] at hw
    have hcur : st.curHeight = checkpoints.length * CFCheckptInterval := by
      rw [hht, if_neg (by omega)]
    have hnil : st.queryResponses = [] := by
      apply eq_nil_of_get_none
      intro j
      rw [hcache j]
      by_cases hj : j ∈ order
      · have := (horder j hj).2
        rw [if_neg (by omega)]
      · rw [if_neg (by tauto)]
    cases st
    simp only at hw hcur hnil hwr
    simp only [hw.1, hw.2, hcur, hnil, hwr]

theorem checkpointed_cfheaders_written_in_order_witness :
    ∃ bN hN,
      writeInOrder (sampleEnv []) fetchBM ((sampleEnv []).DoubleHashH 21 5)
          (intervalMsgs ((sampleEnv []).DoubleHashH 21 5) 1 fetchResp 2) = some (bN, hN) ∧
      bN.server.filters.map (fun x => (x.FilterHash, x.Height))
        = [(5, 0), (837, 1), (31683, 1000), (172951, 2000)] ∧
      getCheckpointedCFHeaders (sampleEnv []) fetchBM fetchCheckpoints GCSFilterRegular
          ([1, 0].map fun j => (fetchQuery j, fetchResp j))
        = some { b := bN, curHeader := hN, curHeight := 2000, queryResponses := [],
                 written := [0, 1] } := by
  have hsome : ∃ x, writeInOrder (sampleEnv []) fetchBM ((sampleEnv []).DoubleHashH 21 5)
      (intervalMsgs ((sampleEnv []).DoubleHashH 21 5) 1 fetchResp 2) = some x ∧
      x.1.server.filters.map (fun x => (x.FilterHash, x.Height))
        = [(5, 0), (837, 1), (31683, 1000), (172951, 2000)] := ⟨_, rfl, by decide⟩
  obtain ⟨⟨bN, hN⟩, hw, hf⟩ := hsome
  exact ⟨bN, hN, hw, hf,
    (checkpointed_cfheaders_written_in_order (sampleEnv []) fetchBM fetchCheckpoints
      GCSFilterRegular ((sampleEnv []).DoubleHashH 21 5) 1 [fetchQuery 0, fetchQuery 1]
      [(sampleHash h1, 0), (sampleHash h2, 1)] fetchQuery fetchResp [1, 0] bN hN
      (by decide) (by decide) (by decide) (by decide)
      (by
        intro j _ hj
        have hj' : j < 2 := hj
        interval_cases j <;> decide)
      (by
        intro c hc
        have hc' : c = 31683 := by
          have : fetchCheckpoints[1 / CFCheckptInterval]? = some 31683 := by decide
          rw [this] at hc
          exact (Option.some.inj hc).symm
        subst hc'
        decide)
      hw (by decide)).2.2.2 (by decide)⟩

/-! ## Filter cross-validation -/

theorem txMarksBad_iff (net : Network) (filter : Filter) (filterKey : Nat) (tx : List (List Nat)) :
    txMarksBad net filter filterKey tx = true ↔
      ∃ pre s post, tx = pre ++ s :: post ∧ Indexed net s ∧
        net.Match filter filterKey s = some false ∧
        ∀ s' ∈ pre, Indexed net s' → net.Match filter filterKey s' = some true := by
  induction tx with
  | nil =>
    simp only [txMarksBad, Bool.false_eq_true, false_iff]
    rintro ⟨pre, s, post, h, _⟩
    simp at h
  | cons x rest ih =>
    have hskip : ¬ Indexed net x → ((∃ pre s post, x :: rest = pre ++ s :: post ∧ Indexed net s ∧
          net.Match filter filterKey s = some false ∧
          ∀ s' ∈ pre, Indexed net s' → net.Match filter filterKey s' = some true) ↔
        ∃ pre s post, rest = pre ++ s :: post ∧ Indexed net s ∧
          net.Match filter filterKey s = some false ∧
          ∀ s' ∈ pre, Indexed net s' → net.Match filter filterKey s' = some true) := by
      intro hx
      constructor
      · rintro ⟨pre, s, post, h, hs, hm, hpre⟩
        cases pre with
        | nil =>
          simp only [List.nil_append, List.cons.injEq] at h
          rw [← h.1] at hs
          exact absurd hs hx
        | cons y pre =>
          simp only [List.cons_append, List.cons.injEq] at h
          exact ⟨pre, s, post, h.2, hs, hm, fun s' hs' => hpre s' (List.mem_cons_of_mem _ hs')⟩
      · rintro ⟨pre, s, post, h, hs, hm, hpre⟩
        refine ⟨x :: pre, s, post, by simp [h], hs, hm, ?_⟩
        intro s' hs' hi
        rcases List.mem_cons.mp hs' with e | e
        · rw [e] at hi
          exact absurd hi hx
        · exact hpre s' e hi
    unfold txMarksBad
    by_cases h1 : x.length = 0
    · rw [if_pos h1, ih]
      exact (hskip (fun hi => hi.1 h1)).symm
    · rw [if_neg h1]
      by_cases h2 : x.head? = some OP_RETURN ∧ net.IsPushOnlyScript x.tail = true
      · rw [if_pos h2, ih]
        exact (hskip (fun hi => hi.2 h2)).symm
      · rw [if_neg h2]
        have hix : Indexed net x := ⟨h1, h2⟩
        cases hm : net.Match filter filterKey x with
        | none =>
          simp only [Bool.false_eq_true, false_iff]
          rintro ⟨pre, s, post, h, hs, hms, hpre⟩
          cases pre with
          | nil =>
            simp only [List.nil_append, List.cons.injEq] at h
            rw [← h.1, hm] at hms
            simp at hms
          | cons y pre =>
            simp only [List.cons_append, List.cons.injEq] at h
            have := hpre y (List.mem_cons_self _ _) (by rw [← h.1]; exact hix)
            rw [← h.1, hm] at this
            simp at this
        | some v =>
          cases v with
          | true =>
            simp only
            rw [ih]
            constructor
            · rintro ⟨pre, s, post, h, hs, hms, hpre⟩
              refine ⟨x :: pre, s, post, by simp [h], hs, hms, ?_⟩
              intro s' hs' hi
              rcases List.mem_cons.mp hs' with e | e
              · rw [e]; exact hm
              · exact hpre s' e hi
            · rintro ⟨pre, s, post, h, hs, hms, hpre⟩
              cases pre with
              | nil =>
                simp only [List.nil_append, List.cons.injEq] at h
                rw [← h.1, hm] at hms
                simp at hms
              | cons y pre =>
                simp only [List.cons_append, List.cons.injEq] at h
                exact ⟨pre, s, post, h.2, hs, hms,
                  fun s' hs' => hpre s' (List.mem_cons_of_mem _ hs')⟩
          | false =>
            simp only [true_iff]
            exact ⟨[], x, rest, rfl, hix, hm, by simp⟩

theorem txMarksBad_iff_of_no_error (net : Network) (filter : Filter) (filterKey : Nat)
    (tx : List (List Nat))
    (hok : ∀ s ∈ tx, Indexed net s → net.Match filter filterKey s ≠ none) :
    txMarksBad net filter filterKey tx = true ↔
      ∃ s ∈ tx, Indexed net s ∧ net.Match filter filterKey s = some false := by
  rw [txMarksBad_iff]
  constructor
  · rintro ⟨pre, s, post, h, hs, hm, _⟩
    exact ⟨s, by simp [h], hs, hm⟩
  · intro hex
    induction tx with
    | nil => simp at hex
    | cons x rest ih =>
      by_cases hx : Indexed net x ∧ net.Match filter filterKey x = some false
      · exact ⟨[], x, rest, rfl, hx.1, hx.2, by simp⟩
      · obtain ⟨s, hs, hi, hm⟩ := hex
        have hrest : ∃ s ∈ rest, Indexed net s ∧ net.Match filter filterKey s = some false := by
          rcases List.mem_cons.mp hs with e | e
          · rw [e] at hi hm
            exact absurd ⟨hi, hm⟩ hx
          · exact ⟨s, e, hi, hm⟩
        obtain ⟨pre, s', post, h, hs', hm', hpre⟩ :=
          ih (fun s hs => hok s (List.mem_cons_of_mem _ hs)) hrest
        refine ⟨x :: pre, s', post, by simp [h], hs', hm', ?_⟩
        intro y hy hiy
        rcases List.mem_cons.mp hy with e | e
        · rw [e] at hiy ⊢
          have h1 := hok x (List.mem_cons_self _ _) hiy
          cases hmx : net.Match filter filterKey x with
          | none => exact absurd hmx h1
          | some v =>
            cases v with
            | true => rfl
            | false => exact absurd ⟨hiy, hmx⟩ hx
        · exact hpre y e hiy

theorem value_unique_of_nodup_keys {α : Type} (m : PeerMap α) (hkeys : (m.map Prod.fst).Nodup)
    (p : Peer) (a a' : α) (h : (p, a) ∈ m) (h' : (p, a') ∈ m) : a = a' := by
  induction m with
  | nil => simp at h
  | cons e rest ih =>
    simp only [List.map_cons, List.nodup_cons, List.mem_map, not_exists, not_and] at hkeys
    rcases List.mem_cons.mp h with e1 | e1
    · rcases List.mem_cons.mp h' with e2 | e2
      · rw [← e1] at e2
        exact (Prod.mk.inj e2).2.symm
      · exact absurd (by rw [← e1]) (hkeys.1 (p, a') e2)
    · rcases List.mem_cons.mp h' with e2 | e2
      · exact absurd (by rw [← e2]) (hkeys.1 (p, a) e1)
      · exact ih hkeys.2 e1 e2

/-- C11, as amended: for the regular filter type `resolveCFHeaderMismatch` returns peers
of the input map, each at most once, and it returns a peer exactly when some transaction
of the block has an output script that is non-empty, is not an `OP_RETURN` followed by
push-only data, and for which `Match` on the filter of that peer returns false, while
`Match` returned true, without an error, for every such script before it in the same
transaction.  When `Match` on the filter of the peer fails for no such script of the
block, the peer is returned exactly when the block has such a script for which `Match`
returns false, and a peer whose filter matches every such script is not returned. -/
theorem resolveCFHeaderMismatch_flags {σ : Type} (env : Env σ) (net : Network) (block : Block)
    (filtersFromPeers : PeerMap Filter)
    (hkeys : (filtersFromPeers.map Prod.fst).Nodup) :
    ∃ badPeers,
      resolveCFHeaderMismatch env net block GCSFilterRegular filtersFromPeers = some badPeers ∧
      badPeers.Nodup ∧
      (∀ p ∈ badPeers, ∃ filter, (p, filter) ∈ filtersFromPeers) ∧
      (∀ p filter, (p, filter) ∈ filtersFromPeers →
        (p ∈ badPeers ↔
          ∃ tx ∈ block.Transactions, ∃ pre s post, tx = pre ++ s :: post ∧ Indexed net s ∧
            net.Match filter (net.DeriveKey (env.BlockHash block.Header)) s = some false ∧
            ∀ s' ∈ pre, Indexed net s' →
              net.Match filter (net.DeriveKey (env.BlockHash block.Header)) s' = some true)) ∧
      (∀ p filter, (p, filter) ∈ filtersFromPeers →
        (∀ tx ∈ block.Transactions, ∀ s ∈ tx, Indexed net s →
          net.Match filter (net.DeriveKey (env.BlockHash block.Header)) s ≠ none) →
        (p ∈ badPeers ↔
          ∃ tx ∈ block.Transactions, ∃ s ∈ tx, Indexed net s ∧
            net.Match filter (net.DeriveKey (env.BlockHash block.Header)) s = some false)) := by
  have hmem : ∀ p filter, (p, filter) ∈ filtersFromPeers →
      (p ∈ (filtersFromPeers.filter fun pf => block.Transactions.any fun tx =>
          txMarksBad net pf.2 (net.DeriveKey (env.BlockHash block.Header)) tx).map Prod.fst ↔
        ∃ tx ∈ block.Transactions,
          txMarksBad net filter (net.DeriveKey (env.BlockHash block.Header)) tx = true) := by
    intro p filter hp
    simp only [List.mem_map, List.mem_filter, List.any_eq_true, Prod.exists, exists_and_right,
      exists_eq_right]
    constructor
    · rintro ⟨f', hf', hbad⟩
      rw [value_unique_of_nodup_keys filtersFromPeers hkeys p filter f' hp hf']
      exact hbad
    · intro hbad
      exact ⟨filter, hp, hbad⟩
  refine ⟨(filtersFromPeers.filter fun pf => block.Transactions.any fun tx =>
      txMarksBad net pf.2 (net.DeriveKey (env.BlockHash block.Header)) tx).map Prod.fst,
    by simp [resolveCFHeaderMismatch], ?_, ?_, ?_, ?_⟩
  · exact (List.Nodup.sublist (List.Sublist.map _ (List.filter_sublist _)) hkeys)
  · intro p hp
    simp only [List.mem_map, List.mem_filter, Prod.exists, exists_and_right,
      exists_eq_right] at hp
    obtain ⟨f, hf, _⟩ := hp
    exact ⟨f, hf⟩
  · intro p filter hp
    rw [hmem p filter hp]
    constructor
    · rintro ⟨tx, htx, hbad⟩
      exact ⟨tx, htx, (txMarksBad_iff net filter _ tx).mp hbad⟩
    · rintro ⟨tx, htx, hex⟩
      exact ⟨tx, htx, (txMarksBad_iff net filter _ tx).mpr hex⟩
  · intro p filter hp hok
    rw [hmem p filter hp]
    constructor
    · rintro ⟨tx, htx, hbad⟩
      exact ⟨tx, htx, (txMarksBad_iff_of_no_error net filter _ tx (hok tx htx)).mp hbad⟩
    · rintro ⟨tx, htx, hex⟩
      exact ⟨tx, htx, (txMarksBad_iff_of_no_error net filter _ tx (hok tx htx)).mpr hex⟩

theorem resolveCFHeaderMismatch_flags_witness :
    ([(1, [7]), (2, [8])].map Prod.fst : List Peer).Nodup ∧
    resolveCFHeaderMismatch (sampleEnv []) (sampleNet [] [] [])
        { Header := g0, Transactions := [[[7]], [[], [7, 1]]] } GCSFilterRegular
        [(1, [7]), (2, [8])] = some [2] ∧
    ∃ badPeers,
      resolveCFHeaderMismatch (sampleEnv []) (sampleNet [] [] [])
        { Header := g0, Transactions := [[[7]], [[], [7, 1]]] } GCSFilterRegular
        [(1, [7]), (2, [8])] = some badPeers ∧
      badPeers.Nodup ∧ ∀ p ∈ badPeers, ∃ filter, (p, filter) ∈ [(1, [7]), (2, [8])] :=
  ⟨by decide, by decide,
   (resolveCFHeaderMismatch_flags (sampleEnv []) (sampleNet [] [] [])
      { Header := g0, Transactions := [[[7]], [[], [7, 1]]] } [(1, [7]), (2, [8])]
      (by decide)).imp fun _ h => ⟨h.1, h.2.1, h.2.2.1⟩⟩

/-- C11, as stated, fails: the one transaction of the block has the output scripts
`[99]` and `[8]`, both non-empty and no `OP_RETURN`; on the filter of peer 1, `Match`
fails for `[99]` and returns false for `[8]`; the peer is not returned. -/
theorem unmatched_script_after_error_not_flagged :
    resolveCFHeaderMismatch (sampleEnv []) faultyNet
        { Header := g0, Transactions := [[[99], [8]]] } GCSFilterRegular [(1, [7])] = some [] ∧
    faultyNet.Match [7] (faultyNet.DeriveKey ((sampleEnv []).BlockHash g0)) [8] = some false ∧
    ([8] : List Nat).length ≠ 0 ∧ ([8] : List Nat).head? ≠ some OP_RETURN ∧
    faultyNet.Match [7] (faultyNet.DeriveKey ((sampleEnv []).BlockHash g0)) [99] = none := by
  decide

/-! ## Sync peer selection -/

theorem selectSyncPeer_none {σ : Type} (b : BM σ) (LastPingMicros : Peer → Int)
    (bestHeight : Nat) (peers : List Peer) (hping : ∀ p ∈ peers, 0 ≤ LastPingMicros p) :
    ∀ kept, (selectSyncPeer b LastPingMicros bestHeight peers none kept).1 = none := by
  induction peers with
  | nil => intro kept; rfl
  | cons sp rest ih =>
    intro kept
    have hsp := hping sp (List.mem_cons_self _ _)
    have hrest := ih (fun p hp => hping p (List.mem_cons_of_mem _ hp))
    rw [selectSyncPeer]
    by_cases hlt : b.LastBlock sp < i32 bestHeight
    · rw [if_pos hlt]
      exact hrest kept
    · rw [if_neg hlt]
      simp only
      rw [if_neg (by omega)]
      exact hrest _

/-- C12 fails in the code: `startSync` compares the ping of a candidate with a
`lastping` that is zero in every round, so with candidates whose last ping is not
negative it selects no peer at all: the manager is left as it was (no sync peer, no
`getheaders` request), whatever heights the candidates have announced. -/
theorem startSync_selects_no_peer {σ : Type} (env : Env σ) (LastPingMicros : Peer → Int)
    (LatestBlockLocator : σ → Option (List Hash)) (b : BM σ) (peers : List Peer)
    (hping : ∀ p ∈ peers, 0 ≤ LastPingMicros p) :
    (startSync env LastPingMicros LatestBlockLocator b peers).1 = b := by
  unfold startSync
  split
  · rfl
  · split
    · rfl
    · rename_i bestHeight _
      have h := selectSyncPeer_none b LastPingMicros bestHeight peers hping []
      split
      · rfl
      · rename_i bestPeer kept heq
        rw [heq] at h
        simp at h

theorem startSync_selects_no_peer_witness :
    candidatesBM.syncPeer = none ∧
    (sampleEnv []).BlockHeaders.ChainTip candidatesBM.server = some (h2, 2) ∧
    candidatesBM.LastBlock 1 = 5 ∧ candidatesBM.LastBlock 2 = 9 ∧
    (startSync (sampleEnv []) (fun p => if p = 1 then 30 else 20) (fun _ => some [])
      candidatesBM [1, 2]).2 = [1, 2] ∧
    (startSync (sampleEnv []) (fun p => if p = 1 then 30 else 20) (fun _ => some [])
      candidatesBM [1, 2]).1.syncPeer = none :=
  ⟨rfl, by decide, rfl, rfl, by decide,
   by rw [startSync_selects_no_peer (sampleEnv []) (fun p => if p = 1 then 30 else 20)
        (fun _ => some []) candidatesBM [1, 2] (by decide)]; rfl⟩

/-! ## Sync status -/

theorem i32_le_self (n : Nat) : i32 n ≤ n := by
  unfold i32
  omega

/-- C13: `BlockHeadersSynced` returns true only when the chain tip of the store can be
read and (a) there are no checkpoints or the best height is strictly above the height of
the last checkpoint, (b) there is no sync peer or the best height is at least the last
height the sync peer reported, and (c) the timestamp of the best header is not earlier
than the adjusted time minus 24 hours; and it returns false whenever the chain tip of
the store cannot be read. -/
theorem blockHeadersSynced_only_when {σ : Type} (env : Env σ) (b : BM σ) :
    (env.BlockHeaders.ChainTip b.server = none → BlockHeadersSynced env b = false) ∧
    (BlockHeadersSynced env b = true →
      ∃ header height, env.BlockHeaders.ChainTip b.server = some (header, height) ∧
        (env.chainParams.Checkpoints = [] ∨
          ∃ last, env.chainParams.Checkpoints.getLast? = some last ∧ last.Height < height) ∧
        (b.syncPeer = none ∨ ∃ sp, b.syncPeer = some sp ∧ b.LastBlock sp ≤ height) ∧
        env.AdjustedTime - 24 * 3600 ≤ header.Timestamp) := by
  refine ⟨fun hnone => by simp [BlockHeadersSynced, hnone], fun hsynced => ?_⟩
  unfold BlockHeadersSynced at hsynced
  split at hsynced
  · simp at hsynced
  · rename_i header height htip
    refine ⟨header, height, htip, ?_⟩
    have hi := i32_le_self height
    split at hsynced
    · simp at hsynced
    · rename_i hcp
      split at hsynced
      · simp at hsynced
      · rename_i hsp
        split at hsynced
        · simp at hsynced
        · rename_i htime
          refine ⟨?_, ?_, by omega⟩
          · cases hlast : env.chainParams.Checkpoints.getLast? with
            | none =>
              left
              exact List.getLast?_eq_none_iff.mp hlast
            | some last =>
              right
              rw [hlast] at hcp
              simp only [decide_eq_true_eq, ge_iff_le, not_le] at hcp
              exact ⟨last, rfl, by omega⟩
          · cases hs : b.syncPeer with
            | none => left; rfl
            | some sp =>
              right
              rw [hs] at hsp
              simp only [decide_eq_true_eq, not_lt] at hsp
              exact ⟨sp, rfl, by omega⟩

theorem blockHeadersSynced_only_when_witness :
    BlockHeadersSynced (sampleEnv []) (sampleBM log3 mem3 none none 0) = true ∧
    ∃ header height,
      (sampleEnv []).BlockHeaders.ChainTip (sampleBM log3 mem3 none none 0).server
        = some (header, height) ∧
      ((sampleEnv []).chainParams.Checkpoints = [] ∨
        ∃ last, (sampleEnv []).chainParams.Checkpoints.getLast? = some last ∧
          last.Height < height) ∧
      ((sampleBM log3 mem3 none none 0).syncPeer = none ∨
        ∃ sp, (sampleBM log3 mem3 none none 0).syncPeer = some sp ∧
          (sampleBM log3 mem3 none none 0).LastBlock sp ≤ height) ∧
      (sampleEnv []).AdjustedTime - 24 * 3600 ≤ header.Timestamp :=
  ⟨by decide, (blockHeadersSynced_only_when (sampleEnv []) (sampleBM log3 mem3 none none 0)).2
    (by decide)⟩

/-! ## Difficulty -/

theorem i32_of_range (x : Int) (h0 : 0 ≤ x) (h1 : x < 2147483648) : i32 x = x := by
  unfold i32
  omega

/-- C14: with the retarget fields as `newBlockManager` sets them from a positive
`TargetTimespan` and an adjustment factor of at least one (their product within
`int64`), at a retarget boundary and with the header `firstNode` stored at height
`lastNode.Height + 1 - blocksPerRetarget`, `calcNextRequiredDifficulty` returns
`BigToCompact(min(PowLimit, CompactToBig(lastNode.Bits) * c / TargetTimespan))`, the
division rounding down and `c` being the elapsed time
`lastNode.Timestamp - firstNode.Timestamp` clamped to
`[TargetTimespan / adjustmentFactor, TargetTimespan * adjustmentFactor]`; the new target
does not exceed `PowLimit`, nor, the old target not being negative, `adjustmentFactor`
times the old target. -/
theorem retarget_formula {σ : Type} (env : Env σ) (b : BM σ) (newBlockTime : Int)
    (reorgAttempt : Bool) (lastNode : Node) (rest : List Node) (firstNode : BlockHeader)
    (targetTimePerBlock adjustmentFactor : Int)
    (hfields : retargetFields env.chainParams.TargetTimespan targetTimePerBlock adjustmentFactor
      = some (b.blocksPerRetarget, b.minRetargetTimespan, b.maxRetargetTimespan))
    (hT : 0 < env.chainParams.TargetTimespan) (haf : 1 ≤ adjustmentFactor)
    (hmax : env.chainParams.TargetTimespan * adjustmentFactor < 9223372036854775808)
    (hbpr : 0 < b.blocksPerRetarget)
    (hlist : (if reorgAttempt then b.reorgList else b.headerList) = lastNode :: rest)
    (hheight : 0 ≤ lastNode.Height ∧ lastNode.Height + 1 < 2147483648)
    (hboundary : (lastNode.Height + 1) % b.blocksPerRetarget = 0)
    (hfirst : env.BlockHeaders.FetchHeaderByHeight b.server
      (lastNode.Height + 1 - b.blocksPerRetarget).toNat = some firstNode) :
    calcNextRequiredDifficulty env b newBlockTime reorgAttempt
      = .ok (env.BigToCompact (min env.chainParams.PowLimit
          (env.CompactToBig lastNode.Header.Bits *
            max (env.chainParams.TargetTimespan / adjustmentFactor)
              (min (env.chainParams.TargetTimespan * adjustmentFactor)
                (lastNode.Header.Timestamp - firstNode.Timestamp))
            / env.chainParams.TargetTimespan))) ∧
    min env.chainParams.PowLimit
        (env.CompactToBig lastNode.Header.Bits *
          max (env.chainParams.TargetTimespan / adjustmentFactor)
            (min (env.chainParams.TargetTimespan * adjustmentFactor)
              (lastNode.Header.Timestamp - firstNode.Timestamp))
          / env.chainParams.TargetTimespan) ≤ env.chainParams.PowLimit ∧
    (0 ≤ env.CompactToBig lastNode.Header.Bits →
      min env.chainParams.PowLimit
        (env.CompactToBig lastNode.Header.Bits *
          max (env.chainParams.TargetTimespan / adjustmentFactor)
            (min (env.chainParams.TargetTimespan * adjustmentFactor)
              (lastNode.Header.Timestamp - firstNode.Timestamp))
          / env.chainParams.TargetTimespan)
        ≤ adjustmentFactor * env.CompactToBig lastNode.Header.Bits) := by
  -- the fields
  unfold retargetFields at hfields
  split at hfields
  · simp at hfields
  · simp only [Option.some.injEq, Prod.mk.injEq] at hfields
    obtain ⟨_, hmin, hmaxf⟩ := hfields
    have hmin' : b.minRetargetTimespan = env.chainParams.TargetTimespan / adjustmentFactor := by
      rw [← hmin, Int.tdiv_eq_ediv (le_of_lt hT) (by omega)]
    have hprod : 0 ≤ env.chainParams.TargetTimespan * adjustmentFactor :=
      Int.mul_nonneg (le_of_lt hT) (by omega)
    have hmax' : b.maxRetargetTimespan = env.chainParams.TargetTimespan * adjustmentFactor := by
      rw [← hmaxf]
      unfold i64
      omega
    have hle : env.chainParams.TargetTimespan / adjustmentFactor
        ≤ env.chainParams.TargetTimespan * adjustmentFactor := by
      have h1 : env.chainParams.TargetTimespan / adjustmentFactor
          ≤ env.chainParams.TargetTimespan :=
        Int.ediv_le_self _ (le_of_lt hT)
      have h2 : env.chainParams.TargetTimespan * 1
          ≤ env.chainParams.TargetTimespan * adjustmentFactor :=
        Int.mul_le_mul_of_nonneg_left haf (le_of_lt hT)
      omega
    -- the height of the first node
    have hi : i32 (lastNode.Height + 1) = lastNode.Height + 1 :=
      i32_of_range _ (by omega) hheight.2
    have hge : b.blocksPerRetarget ≤ lastNode.Height + 1 :=
      Int.le_of_dvd (by omega) (Int.dvd_of_emod_eq_zero hboundary)
    have hi2 : i32 (lastNode.Height + 1 - b.blocksPerRetarget)
        = lastNode.Height + 1 - b.blocksPerRetarget := i32_of_range _ (by omega) (by omega)
    have hu : u32 (lastNode.Height + 1 - b.blocksPerRetarget)
        = (lastNode.Height + 1 - b.blocksPerRetarget).toNat := by
      unfold u32
      omega
    have hmod : Int.tmod (lastNode.Height + 1) b.blocksPerRetarget = 0 := by
      rw [Int.tmod_eq_emod (by omega) (le_of_lt hbpr)]
      exact hboundary
    -- the clamp
    have hclamp : (if lastNode.Header.Timestamp - firstNode.Timestamp < b.minRetargetTimespan
          then b.minRetargetTimespan
        else if lastNode.Header.Timestamp - firstNode.Timestamp > b.maxRetargetTimespan
          then b.maxRetargetTimespan
        else lastNode.Header.Timestamp - firstNode.Timestamp)
        = max (env.chainParams.TargetTimespan / adjustmentFactor)
            (min (env.chainParams.TargetTimespan * adjustmentFactor)
              (lastNode.Header.Timestamp - firstNode.Timestamp)) := by
      rw [hmin', hmax']
      split
      · omega
      · split <;> omega
    have hcmax : max (env.chainParams.TargetTimespan / adjustmentFactor)
            (min (env.chainParams.TargetTimespan * adjustmentFactor)
              (lastNode.Header.Timestamp - firstNode.Timestamp))
        ≤ env.chainParams.TargetTimespan * adjustmentFactor := by omega
    have hminif : ∀ x y : Int, (if y > x then x else y) = min x y := by
      intro x y
      split <;> omega
    refine ⟨?_, min_le_left _ _, ?_⟩
    · unfold calcNextRequiredDifficulty
      simp only [hlist, hi, hi2, hu, hmod, hfirst, hclamp]
      rw [if_neg (by omega), if_neg (by simp), if_neg (by omega)]
      congr 2
      exact hminif _ _
    · intro hold
      refine le_trans (min_le_right _ _) ?_
      have h1 : env.CompactToBig lastNode.Header.Bits *
            max (env.chainParams.TargetTimespan / adjustmentFactor)
              (min (env.chainParams.TargetTimespan * adjustmentFactor)
                (lastNode.Header.Timestamp - firstNode.Timestamp))
          ≤ env.CompactToBig lastNode.Header.Bits *
            (env.chainParams.TargetTimespan * adjustmentFactor) :=
        Int.mul_le_mul_of_nonneg_left hcmax hold
      have h2 := Int.ediv_le_ediv hT h1
      have h3 : env.CompactToBig lastNode.Header.Bits *
            (env.chainParams.TargetTimespan * adjustmentFactor)
          = (adjustmentFactor * env.CompactToBig lastNode.Header.Bits)
            * env.chainParams.TargetTimespan := by ring
      rw [h3, Int.mul_ediv_cancel _ (by omega)] at h2
      exact h2

theorem retarget_formula_witness :
    calcNextRequiredDifficulty (sampleEnv []) retargetBM 0 false = .ok 25 ∧
    (sampleEnv []).BigToCompact (min (sampleEnv []).chainParams.PowLimit
      ((sampleEnv []).CompactToBig h1.Bits *
        max ((sampleEnv []).chainParams.TargetTimespan / 4)
          (min ((sampleEnv []).chainParams.TargetTimespan * 4) (h1.Timestamp - g0.Timestamp))
        / (sampleEnv []).chainParams.TargetTimespan)) = 25 :=
  ⟨((retarget_formula (sampleEnv []) retargetBM 0 false ⟨h1, 2015⟩ [] g0 600 4
      (by decide) (by decide) (by decide) (by decide) (by decide) rfl (by decide) (by decide)
      (by decide)).1).trans (by decide),
   by decide⟩

theorem findPrevTestNetLoop_stuck {σ : Type} (env : Env σ) (b : BM σ) (p : Node)
    (rest : List Node) :
    ∀ (fuel : Nat) (iterHeight : Int), 0 ≤ iterHeight → iterHeight ≤ fuel →
      iterHeight < 2147483648 →
      findPrevTestNetLoop env b (p :: rest) fuel p.Header iterHeight = .ok p.Header := by
  intro fuel
  induction fuel with
  | zero =>
    intro iterHeight h0 h1 _
    have hz : iterHeight = 0 := by omega
    subst hz
    unfold findPrevTestNetLoop
    rw [if_neg (by simp)]
  | succ fuel ih =>
    intro iterHeight h0 h1 h2
    unfold findPrevTestNetLoop
    split
    · rename_i hc
      have hne : iterHeight ≠ 0 := by
        intro hz
        rw [hz] at hc
        simp at hc
      have hi : i32 (iterHeight - 1) = iterHeight - 1 := i32_of_range _ (by omega) (by omega)
      simp only [hi]
      exact ih (iterHeight - 1) (by omega) (by omega) (by omega)
    · rfl

/-- C15 fails in the code: the loop of `findPrevTestNetDifficulty` never moves `iterEl`,
so after the last node it only ever looks at the node before the last one.  When the
last node carries the floor difficulty away from a retarget height, the bits of its
predecessor are returned, whatever they are and whatever lies further back. -/
theorem findPrevTestNetDifficulty_stops_at_predecessor {σ : Type} (env : Env σ) (b : BM σ)
    (start p : Node) (rest : List Node)
    (hbpr : b.blocksPerRetarget ≠ 0)
    (hheight : 0 ≤ start.Height ∧ start.Height < 2147483648)
    (hnot : Int.tmod start.Height b.blocksPerRetarget ≠ 0)
    (hbits : start.Header.Bits = env.chainParams.PowLimitBits) :
    findPrevTestNetDifficulty env b (start :: p :: rest) = .ok p.Header.Bits := by
  have hne : start.Height ≠ 0 := by
    intro hz
    rw [hz] at hnot
    simp at hnot
  obtain ⟨fuel, hfuel⟩ : ∃ f, u32 start.Height = f + 1 := by
    refine ⟨u32 start.Height - 1, ?_⟩
    unfold u32
    omega
  have hfuel' : (fuel : Int) = start.Height - 1 := by
    unfold u32 at hfuel
    omega
  unfold findPrevTestNetDifficulty
  simp only [hbpr, if_false, hfuel]
  unfold findPrevTestNetLoop
  rw [if_pos ⟨hnot, hbits⟩]
  have hi : i32 (start.Height - 1) = start.Height - 1 := i32_of_range _ (by omega) (by omega)
  simp only [hi]
  rw [findPrevTestNetLoop_stuck env b p rest fuel (start.Height - 1) (by omega) (by omega)
    (by omega)]

theorem findPrevTestNetDifficulty_stops_at_predecessor_witness :
    (floorChain.map fun n => (n.Height, n.Header.Bits)) = [(5, 1000), (4, 1000), (3, 100)] ∧
    (sampleEnv []).chainParams.PowLimitBits = 1000 ∧
    (sampleBM log3 floorChain none none 0).blocksPerRetarget = 2016 ∧
    findPrevTestNetDifficulty (sampleEnv []) (sampleBM log3 floorChain none none 0) floorChain
      = .ok 1000 :=
  ⟨by decide, rfl, rfl,
   findPrevTestNetDifficulty_stops_at_predecessor (sampleEnv [])
     (sampleBM log3 floorChain none none 0) ⟨{ g0 with Bits := 1000, Nonce := 5 }, 5⟩
     ⟨{ g0 with Bits := 1000, Nonce := 4 }, 4⟩ [⟨{ g0 with Bits := 100, Nonce := 3 }, 3⟩]
     (by decide) (by decide) (by decide) rfl⟩

/-- C16: away from a retarget boundary `calcNextRequiredDifficulty` is this case
analysis: with no last node it returns `PowLimitBits`; with a last node whose height
plus one is no multiple of `blocksPerRetarget`, it returns the bits of the last node
when the network does not permit the reduced minimum difficulty, `PowLimitBits` when it
does and `newBlockTime` is strictly after the timestamp of the last node plus
`MinDiffReductionTime`, and otherwise the result of `findPrevTestNetDifficulty`. -/
theorem difficulty_away_from_retarget {σ : Type} (env : Env σ) (b : BM σ) (newBlockTime : Int)
    (reorgAttempt : Bool) :
    ((if reorgAttempt then b.reorgList else b.headerList) = [] →
      calcNextRequiredDifficulty env b newBlockTime reorgAttempt
        = .ok env.chainParams.PowLimitBits) ∧
    (∀ lastNode rest,
      (if reorgAttempt then b.reorgList else b.headerList) = lastNode :: rest →
      0 < b.blocksPerRetarget → 0 ≤ lastNode.Height → lastNode.Height + 1 < 2147483648 →
      (lastNode.Height + 1) % b.blocksPerRetarget ≠ 0 →
      calcNextRequiredDifficulty env b newBlockTime reorgAttempt =
        if env.chainParams.ReduceMinDifficulty = false then .ok lastNode.Header.Bits
        else if newBlockTime > lastNode.Header.Timestamp + env.chainParams.MinDiffReductionTime
          then .ok env.chainParams.PowLimitBits
        else findPrevTestNetDifficulty env b (lastNode :: rest)) := by
  constructor
  · intro hnil
    unfold calcNextRequiredDifficulty
    simp only [hnil]
  · intro lastNode rest hlist hbpr h0 h1 hmod
    have hi : i32 (lastNode.Height + 1) = lastNode.Height + 1 :=
      i32_of_range _ (by omega) h1
    have ht : Int.tmod (lastNode.Height + 1) b.blocksPerRetarget ≠ 0 := by
      rw [Int.tmod_eq_emod (by omega) (le_of_lt hbpr)]
      exact hmod
    unfold calcNextRequiredDifficulty
    simp only [hlist, hi]
    rw [if_neg (by omega), if_pos ht]
    cases hr : env.chainParams.ReduceMinDifficulty <;> simp

theorem difficulty_away_from_retarget_witness :
    (3 : Int) % (sampleBM log3 mem3 none none 0).blocksPerRetarget ≠ 0 ∧
    calcNextRequiredDifficulty (sampleEnv []) (sampleBM log3 mem3 none none 0) 2000 false
      = .ok h2.Bits :=
  ⟨by decide,
   ((difficulty_away_from_retarget (sampleEnv []) (sampleBM log3 mem3 none none 0) 2000
      false).2 ⟨h2, 2⟩ [⟨h1, 1⟩, ⟨g0, 0⟩] rfl (by decide) (by decide) (by decide)
      (by decide)).trans (by decide)⟩

/-! ## Reorganisation -/

theorem checkpointCheck_headerList {σ : Type} (env : Env σ) (peer : Peer) (l : LoopState σ)
    (node : Node) : (checkpointCheck env peer l node).bm.headerList = l.b.headerList := by
  unfold checkpointCheck
  split
  · rfl
  · split
    · split <;> rfl
    · rfl

theorem acceptReorg_chain {σ : Type} (env : Env σ) (peer : Peer) (l0 : LoopState σ) (b' : BM σ)
    (hdrs : List BlockHeader) (original checked backHead : BlockHeader) (backHeight : Nat)
    (hroll : (env.rollBackToHeight b'.server backHeight).2 = true) :
    (match acceptReorg env peer l0 b' hdrs original checked backHead backHeight with
      | .fall l node => checkpointCheck env peer l node
      | r => r).bm.headerList
      = [{ Header := checked, Height := i32 (u32 (backHeight + 1)) },
         { Header := backHead, Height := i32 backHeight }] := by
  unfold acceptReorg
  simp only
  rcases hrb : env.rollBackToHeight b'.server backHeight with ⟨srv, ok⟩
  rw [hrb] at hroll
  simp only at hroll
  subst hroll
  simp only
  rw [checkpointCheck_headerList]
  simp [reextend, PushBack, ResetHeaderState, numMaxMemHeaders]

theorem checkHeaderSanity_ok {σ : Type} (env : Env σ) (b : BM σ) (blockHeader checked : BlockHeader)
    (maxTimestamp : Int) (reorgAttempt : Bool) (height : Int) (u : Unit)
    (h : checkHeaderSanity env b blockHeader maxTimestamp reorgAttempt height = (checked, .ok u)) :
    ∃ bits, checked = { blockHeader with Bits := bits } := by
  unfold checkHeaderSanity at h
  split at h
  · simp at h
  · simp at h
  · rename_i diff hdiff
    simp only at h
    split at h
    · simp at h
    · split at h
      · simp at h
      · simp only [Prod.mk.injEq] at h
        exact ⟨diff, h.1.symm⟩

theorem reorgSanityLoop_head {σ : Type} (env : Env σ) (maxTimestamp height : Int)
    (backHeight : Nat) (blockHeader : BlockHeader) (hs : List BlockHeader) (j : Nat) (b b' : BM σ)
    (w total : Int) (tail : List BlockHeader)
    (h : reorgSanityLoop env maxTimestamp height backHeight (blockHeader :: hs) j b w
      = (b', tail, .ok total)) :
    ∃ bits, tail.headD blockHeader = { blockHeader with Bits := bits } := by
  simp only [reorgSanityLoop] at h
  split at h
  · simp at h
  · simp at h
  · rename_i checked u heq
    obtain ⟨bits, hbits⟩ := checkHeaderSanity_ok env b blockHeader checked maxTimestamp true
      height u heq
    simp only [Prod.mk.injEq] at h
    obtain ⟨_, h2, _⟩ := h
    rw [← h2]
    exact ⟨bits, hbits⟩

/-- C17: when `handleHeadersMsg` accepts a reorg rooted at the stored height
`backHeight` (the header does not extend the tip, passes the gates, its branch passes
the sanity checks and outweighs the known chain, and the rollback succeeds), that round
of its loop sets the sync peer to the sender, rolls the store back to `backHeight`,
writes the first candidate header (with the bits the sanity check stored in it) at
height `backHeight + 1`, and leaves as in-memory chain exactly the ancestor at
`backHeight` followed by that header at `backHeight + 1`. -/
theorem accepted_reorg_resets_chain {σ : Type} (env : Env σ) (peer : Peer) (maxTimestamp : Int)
    (l : LoopState σ) (i : Nat) (blockHeader : BlockHeader) (prevNode : Node) (rest : List Node)
    (backHead : BlockHeader) (backHeight : Nat) (b' : BM σ) (tail : List BlockHeader)
    (totalWork : Int)
    (hhdr : l.Headers[i]? = some blockHeader) (hl : l.b.headerList = prevNode :: rest)
    (hlink : env.BlockHash prevNode.Header ≠ blockHeader.PrevBlock)
    (hgate : l.b.syncPeer = some peer ∨ BlockHeadersSynced env l.b = true)
    (hnew : env.BlockHash blockHeader ≠ env.BlockHash prevNode.Header)
    (hunknown : env.BlockHeaders.FetchHeader l.b.server (env.BlockHash blockHeader) = none)
    (hparent : env.BlockHeaders.FetchHeader l.b.server blockHeader.PrevBlock
      = some (backHead, backHeight))
    (hcheckpoint : u32 (findPreviousHeaderCheckpoint env.chainParams prevNode.Height).Height
      ≤ backHeight)
    (hsane : reorgSanityLoop env maxTimestamp (i32 (prevNode.Height + 1)) backHeight
      (l.Headers.drop i) 0
      { l.b with reorgList := ResetHeaderState { Header := backHead, Height := i32 backHeight } }
      0 = (b', tail, .ok totalWork))
    (hmem : u32 prevNode.Height - backHeight < (prevNode :: rest).length)
    (hwork : knownWork env (u32 prevNode.Height - backHeight) (prevNode :: rest) < totalWork)
    (hroll : (env.rollBackToHeight l.b.server backHeight).2 = true) :
    (loopBody env peer maxTimestamp l i).bm.syncPeer = some peer ∧
    (∃ extra, newEvents l.b (loopBody env peer maxTimestamp l i).bm
      = .RollBack backHeight true ::
        .WriteHeaders [{ Header := tail.headD blockHeader, Height := u32 (backHeight + 1) }]
          (env.BlockHeaders.WriteHeaders (env.rollBackToHeight l.b.server backHeight).1
            [{ Header := tail.headD blockHeader, Height := u32 (backHeight + 1) }]).isSome ::
        extra) ∧
    (loopBody env peer maxTimestamp l i).bm.headerList
      = [{ Header := tail.headD blockHeader, Height := i32 (u32 (backHeight + 1)) },
         { Header := backHead, Height := i32 backHeight }] ∧
    ∃ bits, tail.headD blockHeader = { blockHeader with Bits := bits } := by
  have hbody := loopBody_reorg env peer maxTimestamp l i blockHeader prevNode rest backHead
    backHeight b' tail totalWork hhdr hl hlink hgate hnew hunknown hparent hcheckpoint hsane hmem
  have hframe := reorgSanityLoop_frame env maxTimestamp (i32 (prevNode.Height + 1)) backHeight
    (l.Headers.drop i) 0
    { l.b with reorgList := ResetHeaderState { Header := backHead, Height := i32 backHeight } } 0
  rw [hsane] at hframe
  simp only at hframe
  have htrace : b'.trace = l.b.trace := by rw [hframe]
  have hserver : b'.server = l.b.server := by rw [hframe]
  rw [if_neg (by omega), if_neg (by omega)] at hbody
  have hroll' : (env.rollBackToHeight b'.server backHeight).2 = true := by rw [hserver]; exact hroll
  obtain ⟨extra, e1, e2, e3⟩ := acceptReorg_events env peer
    { l with finalHash := env.BlockHash blockHeader } b' (l.Headers.take i ++ tail) blockHeader
    (tail.headD blockHeader) backHead backHeight
  have hchain := acceptReorg_chain env peer
    { l with finalHash := env.BlockHash blockHeader } b' (l.Headers.take i ++ tail) blockHeader
    (tail.headD blockHeader) backHead backHeight hroll'
  rw [← hbody] at e1 e2 hchain
  have hdrop : l.Headers.drop i = blockHeader :: l.Headers.drop (i + 1) := by
    obtain ⟨hlt, hget⟩ := List.getElem?_eq_some_iff.mp hhdr
    rw [← hget]
    exact List.drop_eq_getElem_cons hlt
  rw [hdrop] at hsane
  refine ⟨e2, ?_, hchain, reorgSanityLoop_head env maxTimestamp _ backHeight blockHeader _ 0 _ b' 0
    totalWork tail hsane⟩
  have e3' := e3 hroll'
  cases extra with
  | nil => simp at e3'
  | cons x xs =>
    simp only [List.head?_cons, Option.some.injEq] at e3'
    refine ⟨xs, ?_⟩
    unfold newEvents
    rw [e1, htrace, List.drop_left, hroll', e3', hserver]

theorem accepted_reorg_resets_chain_witness :
    (loopBody (sampleEnv []) 7 12200
      (initLoop (sampleBM log3 mem3 none (some 9) 0) [r2, r3]) 0).bm.syncPeer = some 7 ∧
    (loopBody (sampleEnv []) 7 12200
      (initLoop (sampleBM log3 mem3 none (some 9) 0) [r2, r3]) 0).bm.headerList
      = [⟨r2, 2⟩, ⟨h1, 1⟩] ∧
    (loopBody (sampleEnv []) 7 12200
      (initLoop (sampleBM log3 mem3 none (some 9) 0) [r2, r3]) 0).bm.server.blocks
      = [⟨g0, 0⟩, ⟨h1, 1⟩, ⟨r2, 2⟩] :=
  ⟨(accepted_reorg_resets_chain (sampleEnv []) 7 12200
      (initLoop (sampleBM log3 mem3 none (some 9) 0) [r2, r3]) 0 r2 ⟨h2, 2⟩ [⟨h1, 1⟩, ⟨g0, 0⟩]
      h1 1
      { sampleBM log3 mem3 none (some 9) 0 with
        reorgList := [⟨r3, 3⟩, ⟨r2, 2⟩, ⟨h1, 1⟩] }
      [r2, r3] 19800 rfl rfl (by decide) (Or.inr (by decide)) (by decide) (by decide) (by decide)
      (by decide) rfl (by decide) (by decide) (by decide)).1,
   by decide, by decide⟩

/-- C18 at its failing input: the checkpoint is `h2` at height 2, the chain is
`g0, h1, h2` and the sync peer sends `c3`, which extends the tip, followed by `r2`, which
forks from `h1` at height 1, below the previous checkpoint.  The batch is rejected and
the sender disconnected; the store is as before, but the in-memory chain has kept `c3`
at height 3, a header that was never written. -/
theorem rejected_fork_keeps_memory_headers :
    r2.PrevBlock = sampleHash h1 ∧
    listBlockHeaders.FetchHeader ⟨log3, []⟩ r2.PrevBlock = some (h1, 1) ∧
    (findPreviousHeaderCheckpoint (sampleEnv [⟨2, sampleHash h2⟩]).chainParams 3).Height = 2 ∧
    (sampleBM log3 mem3 none (some 7) 0).headerList = mem3 ∧
    (handleHeadersMsg (sampleEnv [⟨2, sampleHash h2⟩]) (sampleBM log3 mem3 none (some 7) 0) 7
        [c3, r2]).bm.trace = [.UpdateLastBlockHeight 7 3, .Disconnect 7] ∧
    (handleHeadersMsg (sampleEnv [⟨2, sampleHash h2⟩]) (sampleBM log3 mem3 none (some 7) 0) 7
        [c3, r2]).bm.server = ⟨log3, []⟩ ∧
    (handleHeadersMsg (sampleEnv [⟨2, sampleHash h2⟩]) (sampleBM log3 mem3 none (some 7) 0) 7
        [c3, r2]).bm.headerList = ⟨c3, 3⟩ :: mem3 := by
  decide

/-! ## Written filter headers -/

/-- C19, as amended: for a cfheaders message with at least one filter hash, whose
matching block headers `hs` from height `start` were fetched, the batch
`writeCFHeadersMsg` writes has one entry per filter hash, entry `i` holding the chained
header `h_(i+1)`; only the last entry carries a block: its `HeaderHash` is the hash of
the last matching block header and its `Height` is `start + n - 1`; every other entry
carries the zero hash and the height 0.  With the store tip equal to the previous filter
header of the message such a batch is written. -/
theorem written_batch_marks_last_entry {σ : Type} (env : Env σ) (b : BM σ) (msg : MsgCFHeaders)
    (hs : List BlockHeader) (start : Nat) (lastBlockHeader : BlockHeader)
    (hne : msg.FilterHashes ≠ [])
    (hanc : env.BlockHeaders.FetchHeaderAncestors b.server
      (u32 ((msg.FilterHashes.length : Int) - 1)) msg.StopHash = some (hs, start))
    (hlast : hs[msg.FilterHashes.length - 1]? = some lastBlockHeader)
    (hrange : start + msg.FilterHashes.length < 4294967296) :
    (∀ batch ok, Event.WriteFilterHeaders batch ok ∈ newEvents b (writeCFHeadersMsg env b msg).2 →
      batch.length = msg.FilterHashes.length ∧
      ∀ i, i < msg.FilterHashes.length →
        batch[i]? = some
          (if i + 1 = msg.FilterHashes.length then
            { FilterHash := specFilterChain env msg (i + 1),
              HeaderHash := env.BlockHash lastBlockHeader,
              Height := start + msg.FilterHashes.length - 1 }
           else
            { FilterHash := specFilterChain env msg (i + 1), HeaderHash := zeroHash,
              Height := 0 })) ∧
    (∀ tipHeight, env.RegFilterHeaders.ChainTip b.server = some (msg.PrevFilterHeader, tipHeight) →
      ∃ batch ok, Event.WriteFilterHeaders batch ok
        ∈ newEvents b (writeCFHeadersMsg env b msg).2) := by
  have hchain := chainHeaders_specFilterChain env msg msg.FilterHashes [] [] rfl
  simp only [List.length_nil, Nat.zero_add, List.nil_append] at hchain
  change chainHeaders env msg.FilterHashes msg.PrevFilterHeader [] = _ at hchain
  have hpos : 0 < msg.FilterHashes.length := List.length_pos.mpr hne
  have hnotneg : ¬ ((msg.FilterHashes.length : Int) - 1 < 0) := by omega
  have hidx : ((msg.FilterHashes.length : Int) - 1).toNat = msg.FilterHashes.length - 1 := by
    omega
  have hheight : u32 ((start : Int) + (u32 (msg.FilterHashes.length : Int) : Int) - 1)
      = start + msg.FilterHashes.length - 1 := by
    unfold u32
    omega
  have hbatch : ∀ batch : List FilterHeader,
      batch = sealBatch ((List.range msg.FilterHashes.length).map fun k =>
          ({ FilterHash := specFilterChain env msg (k + 1), HeaderHash := zeroHash, Height := 0 } :
            FilterHeader)) (msg.FilterHashes.length - 1) (env.BlockHash lastBlockHeader)
          (start + msg.FilterHashes.length - 1) →
      batch.length = msg.FilterHashes.length ∧
      ∀ i, i < msg.FilterHashes.length →
        batch[i]? = some
          (if i + 1 = msg.FilterHashes.length then
            { FilterHash := specFilterChain env msg (i + 1),
              HeaderHash := env.BlockHash lastBlockHeader,
              Height := start + msg.FilterHashes.length - 1 }
           else
            { FilterHash := specFilterChain env msg (i + 1), HeaderHash := zeroHash,
              Height := 0 }) := by
    intro batch hb
    subst hb
    unfold sealBatch
    refine ⟨by simp, ?_⟩
    intro i hi
    rw [List.getElem?_modify, List.getElem?_map, List.getElem?_range hi]
    by_cases hl : i + 1 = msg.FilterHashes.length
    · have : msg.FilterHashes.length - 1 = i := by omega
      simp [hl, this]
    · have : ¬ (msg.FilterHashes.length - 1 = i) := by omega
      simp [hl, this]
  constructor
  · intro batch ok hev
    apply hbatch
    unfold writeCFHeadersMsg at hev
    simp only [hchain, List.length_map, List.length_range, hanc, hnotneg, hidx, hlast,
      hheight] at hev
    split at hev
    · simp [newEvents] at hev
    · split at hev
      · simp [newEvents] at hev
      · simp only [if_false] at hev
        split at hev
        · simp only [newEvents, emit, List.drop_left, List.mem_singleton, Event.WriteFilterHeaders.injEq] at hev
          exact hev.1
        · simp only [newEvents, emit, List.append_assoc, List.drop_left, List.mem_append,
            List.mem_singleton, List.mem_cons, List.mem_map, Event.WriteFilterHeaders.injEq,
            reduceCtorEq, and_false, exists_false, or_false, List.not_mem_nil] at hev
          exact hev.1
  · intro tipHeight htip
    unfold writeCFHeadersMsg
    simp only [htip, ne_eq, not_true_eq_false, if_false, hchain, List.length_map,
      List.length_range, hanc, hnotneg, hidx, hlast, hheight]
    split
    · exact ⟨sealBatch ((List.range msg.FilterHashes.length).map fun k =>
          ({ FilterHash := specFilterChain env msg (k + 1), HeaderHash := zeroHash, Height := 0 } :
            FilterHeader)) (msg.FilterHashes.length - 1) (env.BlockHash lastBlockHeader)
          (start + msg.FilterHashes.length - 1), false, by simp [newEvents, emit]⟩
    · exact ⟨sealBatch ((List.range msg.FilterHashes.length).map fun k =>
          ({ FilterHash := specFilterChain env msg (k + 1), HeaderHash := zeroHash, Height := 0 } :
            FilterHeader)) (msg.FilterHashes.length - 1) (env.BlockHash lastBlockHeader)
          (start + msg.FilterHashes.length - 1), true, by simp [newEvents, emit]⟩

theorem written_batch_marks_last_entry_witness :
    ∃ batch ok, Event.WriteFilterHeaders batch ok ∈ newEvents
      { sampleBM log3 mem3 none none 0 with
        server := { blocks := log3, filters := [⟨5, sampleHash g0, 0⟩] } }
      (writeCFHeadersMsg (sampleEnv [])
        { sampleBM log3 mem3 none none 0 with
          server := { blocks := log3, filters := [⟨5, sampleHash g0, 0⟩] } }
        { FilterType := 0, StopHash := sampleHash h2, PrevFilterHeader := 5,
          FilterHashes := [9, 4] }).2 :=
  (written_batch_marks_last_entry (sampleEnv [])
    { sampleBM log3 mem3 none none 0 with
      server := { blocks := log3, filters := [⟨5, sampleHash g0, 0⟩] } }
    { FilterType := 0, StopHash := sampleHash h2, PrevFilterHeader := 5,
      FilterHashes := [9, 4] } [h1, h2] 1 h2 (by decide) (by decide) (by decide)
    (by decide)).2 0 (by decide)

/-- C19, as stated, fails: the message with the filter hashes 9 and 4 ending at `h2`
matches the block headers `h1`, `h2` from height 1; the first entry of the batch written
carries the zero hash and the height 0, not the hash of `h1` and the height 1. -/
theorem first_entry_carries_no_block :
    (sampleEnv []).BlockHeaders.FetchHeaderAncestors ⟨log3, [⟨5, sampleHash g0, 0⟩]⟩ 1
      (sampleHash h2) = some ([h1, h2], 1) ∧
    sampleHash h1 ≠ 0 ∧
    (writeCFHeadersMsg (sampleEnv [])
        { sampleBM log3 mem3 none none 0 with
          server := { blocks := log3, filters := [⟨5, sampleHash g0, 0⟩] } }
        { FilterType := 0, StopHash := sampleHash h2, PrevFilterHeader := 5,
          FilterHashes := [9, 4] }).2.trace.head?
      = some (.WriteFilterHeaders
          [{ FilterHash := 465, HeaderHash := 0, Height := 0 },
           { FilterHash := 17330, HeaderHash := sampleHash h2, Height := 2 }] true) := by
  decide

/-! ## Uncheckpointed filter headers -/

theorem keys_insert {α : Type} (m : PeerMap α) (k : Peer) (v : α) :
    (m.insert k v).map Prod.fst
      = if k ∈ m.map Prod.fst then m.map Prod.fst else m.map Prod.fst ++ [k] := by
  induction m with
  | nil => simp [PeerMap.insert]
  | cons e rest ih =>
    obtain ⟨k', v'⟩ := e
    by_cases hk : k' = k
    · simp [PeerMap.insert, hk]
    · have hk' : ¬ k = k' := fun e => hk e.symm
      simp only [PeerMap.insert, hk, if_false, List.map_cons, ih, List.mem_cons, hk', false_or]
      split <;> simp

theorem nodup_keys_insert {α : Type} (m : PeerMap α) (k : Peer) (v : α)
    (h : (m.map Prod.fst).Nodup) : ((m.insert k v).map Prod.fst).Nodup := by
  rw [keys_insert]
  split
  · exact h
  · rename_i hk
    rw [List.nodup_append]
    refine ⟨h, by simp, ?_⟩
    intro a ha hb
    simp only [List.mem_singleton] at hb
    rw [hb] at ha
    exact hk ha

theorem nodup_keys_foldl_insert {α β : Type} (f : β → Bool) (key : β → Peer) (val : β → α)
    (l : List β) :
    ∀ m : PeerMap α, (m.map Prod.fst).Nodup →
      ((l.foldl (fun acc r => if f r then acc.insert (key r) (val r) else acc) m).map
        Prod.fst).Nodup := by
  induction l with
  | nil => intro m h; exact h
  | cons x rest ih =>
    intro m h
    simp only [List.foldl_cons]
    apply ih
    split
    · exact nodup_keys_insert m _ _ h
    · exact h

theorem getCFHeadersForAllPeers_nodup {σ : Type} (env : Env σ) (net : Network) (b : BM σ)
    (height fType : Nat) (headers : PeerMap MsgCFHeaders)
    (h : getCFHeadersForAllPeers env net b height fType = .ok headers) :
    (headers.map Prod.fst).Nodup := by
  unfold getCFHeadersForAllPeers at h
  simp only at h
  split at h
  · simp only [Res.ok.injEq] at h
    rw [← h]
    simp
  · simp at h
  · rename_i stopHeader _
    simp only [Res.ok.injEq] at h
    rw [← h]
    have := nodup_keys_foldl_insert
      (fun r : Peer × MsgCFHeaders =>
        decide (r.2.StopHash = env.BlockHash stopHeader ∧ r.2.FilterType = fType))
      Prod.fst Prod.snd
      (net.QueryCFHeaders b.trace fType height (env.BlockHash stopHeader)) []
      (by simp)
    simpa using this

theorem get_of_mem_nodup {α : Type} (m : PeerMap α) (hkeys : (m.map Prod.fst).Nodup)
    (p : Peer) (a : α) (h : (p, a) ∈ m) : m.get p = some a := by
  induction m with
  | nil => simp at h
  | cons e rest ih =>
    obtain ⟨k, v⟩ := e
    simp only [List.map_cons, List.nodup_cons, List.mem_map, not_exists, not_and] at hkeys
    rcases List.mem_cons.mp h with e1 | e1
    · simp only [Prod.mk.injEq] at e1
      simp [PeerMap.get, e1.1, e1.2]
    · have hne : ¬ k = p := by
        intro hk
        exact hkeys.1 (p, a) e1 hk.symm
      simp only [PeerMap.get, hne, if_false]
      exact ih hkeys.2 e1

theorem longestResponse_spec :
    ∀ (m : PeerMap MsgCFHeaders) (key : Option Peer) (maxLen : Nat),
      (∀ e ∈ m, e.2.FilterHashes.length ≤ (longestResponse m key maxLen).2) ∧
      maxLen ≤ (longestResponse m key maxLen).2 ∧
      (((longestResponse m key maxLen).1 = key ∧ (longestResponse m key maxLen).2 = maxLen) ∨
        ∃ p msg, (p, msg) ∈ m ∧ (longestResponse m key maxLen).1 = some p ∧
          (longestResponse m key maxLen).2 = msg.FilterHashes.length ∧
          maxLen < msg.FilterHashes.length) := by
  intro m
  induction m with
  | nil =>
    intro key maxLen
    simp [longestResponse]
  | cons e rest ih =>
    intro key maxLen
    obtain ⟨peer, msg⟩ := e
    by_cases hlen : msg.FilterHashes.length > maxLen
    · obtain ⟨h1, h2, h3⟩ := ih (some peer) msg.FilterHashes.length
      simp only [longestResponse, hlen, if_true]
      refine ⟨?_, by omega, ?_⟩
      · intro e he
        rcases List.mem_cons.mp he with e1 | e1
        · rw [e1]; exact h2
        · exact h1 e e1
      · right
        rcases h3 with ⟨h3a, h3b⟩ | ⟨p, msg', hm, hk, hl, hgt⟩
        · exact ⟨peer, msg, List.mem_cons_self _ _, h3a, h3b, hlen⟩
        · exact ⟨p, msg', List.mem_cons_of_mem _ hm, hk, hl, by omega⟩
    · obtain ⟨h1, h2, h3⟩ := ih key maxLen
      simp only [longestResponse, hlen, if_false]
      refine ⟨?_, h2, ?_⟩
      · intro e he
        rcases List.mem_cons.mp he with e1 | e1
        · rw [e1]
          simp only
          omega
        · exact h1 e e1
      · rcases h3 with h3 | ⟨p, msg', hm, hk, hl, hgt⟩
        · left; exact h3
        · right
          exact ⟨p, msg', List.mem_cons_of_mem _ hm, hk, hl, hgt⟩

/-- A trace extension that holds bans and disconnects only. -/
theorem banIfConnected_only_bans {σ : Type} (net : Network) (b : BM σ) (p : Peer) :
    ∃ ev, (banIfConnected net b p).trace = b.trace ++ ev ∧
      ∀ e ∈ ev, ∃ q, e = .BanPeer q ∨ e = .Disconnect q := by
  unfold banIfConnected
  split
  · refine ⟨[.BanPeer p, .Disconnect p], by simp [emit], ?_⟩
    intro e he
    simp only [List.mem_cons, List.mem_singleton, List.not_mem_nil, or_false] at he
    rcases he with h | h
    · exact ⟨p, Or.inl h⟩
    · exact ⟨p, Or.inr h⟩
  · exact ⟨[], by simp, by simp⟩

theorem dropBadPeers_spec {σ : Type} (net : Network) :
    ∀ (ps : List Peer) (b : BM σ) (headers : PeerMap MsgCFHeaders),
      (dropBadPeers net ps b headers).2 = headers.filter (fun e => e.1 ∉ ps) ∧
      (dropBadPeers net ps b headers).1.server = b.server ∧
      ∃ ev, (dropBadPeers net ps b headers).1.trace = b.trace ++ ev ∧
        ∀ e ∈ ev, ∃ q, e = .BanPeer q ∨ e = .Disconnect q := by
  intro ps
  induction ps with
  | nil => intro b headers; exact ⟨by simp [dropBadPeers], rfl, [], by simp [dropBadPeers], by simp⟩
  | cons p rest ih =>
    intro b headers
    obtain ⟨h1, h2, ev, h3, h4⟩ := ih (banIfConnected net b p) (headers.delete p)
    obtain ⟨ev0, g1, g2⟩ := banIfConnected_only_bans net b p
    simp only [dropBadPeers]
    refine ⟨?_, by rw [h2, banIfConnected_server], ev0 ++ ev, by rw [h3, g1, List.append_assoc], ?_⟩
    · rw [h1]
      simp only [PeerMap.delete, List.filter_filter]
      apply List.filter_congr
      intro e _
      by_cases h : e.1 = p <;> by_cases h' : e.1 ∈ rest <;> simp [h, h']
    · intro e he
      rcases List.mem_append.mp he with h | h
      · exact g2 e h
      · exact h4 e h

theorem reconcileLoop_spec {σ : Type} (env : Env σ) (net : Network) (fType startHeight : Nat) :
    ∀ (n i : Nat) (b : BM σ) (headers : PeerMap MsgCFHeaders) (dropped : List Peer),
      (reconcileLoop env net fType startHeight n i b headers dropped).1.server = b.server ∧
      (∃ ev, (reconcileLoop env net fType startHeight n i b headers dropped).1.trace
          = b.trace ++ ev ∧ ∀ e ∈ ev, ∃ q, e = .BanPeer q ∨ e = .Disconnect q) ∧
      ∀ s d, (reconcileLoop env net fType startHeight n i b headers dropped).2 = some (s, d) →
        ∃ extra, d = dropped ++ extra ∧ s = headers.filter (fun e => e.1 ∉ extra) := by
  intro n
  induction n with
  | zero =>
    intro i b headers dropped
    refine ⟨rfl, ⟨[], by simp [reconcileLoop], by simp⟩, ?_⟩
    intro s d h
    simp only [reconcileLoop, Option.some.injEq, Prod.mk.injEq] at h
    exact ⟨[], by simp [h.2], by simp [h.1]⟩
  | succ n ih =>
    intro i b headers dropped
    have hnone : ∀ b0 : BM σ, b0.server = b.server → b0.trace = b.trace →
        ((b0, (none : Option (PeerMap MsgCFHeaders × List Peer))).1.server = b.server ∧
        (∃ ev, (b0, (none : Option (PeerMap MsgCFHeaders × List Peer))).1.trace = b.trace ++ ev ∧
          ∀ e ∈ ev, ∃ q, e = Event.BanPeer q ∨ e = Event.Disconnect q) ∧
        ∀ s d, (b0, (none : Option (PeerMap MsgCFHeaders × List Peer))).2 = some (s, d) →
          ∃ extra, d = dropped ++ extra ∧ s = headers.filter (fun e => e.1 ∉ extra)) := by
      intro b0 h1 h2
      exact ⟨h1, ⟨[], by simp [h2], by simp⟩, by intro s d h; simp at h⟩
    rw [reconcileLoop]
    split
    · simp only
      split
      · exact hnone b rfl rfl
      · split
        · exact hnone b rfl rfl
        · split
          · exact hnone b rfl rfl
          · rename_i badPeers _
            obtain ⟨d1, d2, ev0, d3, d4⟩ := dropBadPeers_spec net badPeers b headers
            obtain ⟨r1, ⟨ev, r2, r3⟩, r4⟩ := ih (i + 1) (dropBadPeers net badPeers b headers).1
              (dropBadPeers net badPeers b headers).2 (dropped ++ badPeers)
            refine ⟨by rw [r1, d2], ⟨ev0 ++ ev, by rw [r2, d3, List.append_assoc], ?_⟩, ?_⟩
            · intro e he
              rcases List.mem_append.mp he with h | h
              · exact d4 e h
              · exact r3 e h
            · intro s d h
              obtain ⟨extra, e1, e2⟩ := r4 s d h
              refine ⟨badPeers ++ extra, by rw [e1, List.append_assoc], ?_⟩
              rw [e2, d1, List.filter_filter]
              apply List.filter_congr
              intro e _
              by_cases h : e.1 ∈ badPeers <;> by_cases h' : e.1 ∈ extra <;> simp [h, h']
    · exact ih (i + 1) b headers dropped

theorem reconcileLoop_nil {σ : Type} (env : Env σ) (net : Network) (fType startHeight : Nat) :
    ∀ (n i : Nat) (b : BM σ) (dropped : List Peer),
      reconcileLoop env net fType startHeight n i b [] dropped = (b, some ([], dropped)) := by
  intro n
  induction n with
  | zero => intro i b dropped; rfl
  | succ n ih =>
    intro i b dropped
    rw [reconcileLoop]
    simp only [checkForCFHeaderMismatch, mismatchScan, Bool.false_eq_true, if_false]
    exact ih _ _ _

/-- C20: in `getUncheckpointedCFHeaders`, once the responses `headers` are in and the
loop over the positions has ended without an error, leaving the responses `survivors` of
the peers that were not deleted as bad (`dropped`), nothing has been written yet; if no
surviving response has a filter hash, an error is returned and nothing is written;
otherwise the message handed to `writeCFHeadersMsg` is a surviving response whose list
of filter hashes is at least as long as that of every surviving response, and the result
is that of this write. -/
theorem longest_surviving_response_written {σ : Type} (env : Env σ) (net : Network) (b : BM σ)
    (fType : Nat) (filtHeader : Hash) (filtHeight : Nat) (blockHeader : BlockHeader)
    (blockHeight : Nat) (headers survivors : PeerMap MsgCFHeaders) (b1 : BM σ)
    (dropped : List Peer)
    (hftip : env.RegFilterHeaders.ChainTip b.server = some (filtHeader, filtHeight))
    (hbtip : env.BlockHeaders.ChainTip b.server = some (blockHeader, blockHeight))
    (hbehind : filtHeight < blockHeight)
    (hheaders : getCFHeadersForAllPeers env net b (u32 ((filtHeight : Int) + 1)) fType
      = .ok headers)
    (hloop : reconcileLoop env net fType (u32 ((filtHeight : Int) + 1)) net.MaxCFHeadersPerMsg
      0 b headers [] = (b1, some (survivors, dropped))) :
    survivors = headers.filter (fun e => e.1 ∉ dropped) ∧
    b1.server = b.server ∧
    (∀ batch ok, Event.WriteFilterHeaders batch ok ∉ newEvents b b1) ∧
    ((∀ e ∈ survivors, e.2.FilterHashes.length = 0) →
      getUncheckpointedCFHeaders env net b fType = (.err, b1)) ∧
    ((∃ e ∈ survivors, 0 < e.2.FilterHashes.length) →
      ∃ p msg, (p, msg) ∈ survivors ∧
        (∀ e ∈ survivors, e.2.FilterHashes.length ≤ msg.FilterHashes.length) ∧
        getUncheckpointedCFHeaders env net b fType =
          match writeCFHeadersMsg env b1 msg with
          | (.ok _, b) => (.ok (), b)
          | (.err, b) => (.err, b)
          | (.panic, b) => (.panic, b)) := by
  obtain ⟨hsrv, ⟨ev, htr, hev⟩, hres⟩ := reconcileLoop_spec env net fType
    (u32 ((filtHeight : Int) + 1)) net.MaxCFHeadersPerMsg 0 b headers []
  rw [hloop] at hsrv htr hres
  simp only at hsrv htr
  obtain ⟨extra, hd, hs⟩ := hres survivors dropped rfl
  simp only [List.nil_append] at hd
  subst hd
  have hkeys : (survivors.map Prod.fst).Nodup := by
    rw [hs]
    exact List.Nodup.sublist (List.Sublist.map _ (List.filter_sublist _))
      (getCFHeadersForAllPeers_nodup env net b _ fType headers hheaders)
  have hfun : getUncheckpointedCFHeaders env net b fType =
      match (longestResponse survivors none 0).1 with
      | none => (.err, b1)
      | some key =>
        match survivors.get key with
        | none => (.err, b1)
        | some pristineHeaders =>
          match writeCFHeadersMsg env b1 pristineHeaders with
          | (.ok _, b) => (.ok (), b)
          | (.err, b) => (.err, b)
          | (.panic, b) => (.panic, b) := by
    unfold getUncheckpointedCFHeaders
    simp only [hftip, hbtip, hheaders]
    rw [if_neg (by omega), if_neg (by omega)]
    by_cases hlen : headers.length = 0
    · have hnil : headers = [] := List.length_eq_zero.mp hlen
      rw [hnil, reconcileLoop_nil] at hloop
      simp only [Prod.mk.injEq, Option.some.injEq] at hloop
      rw [if_pos hlen, ← hloop.2.1, ← hloop.1]
      rfl
    · rw [if_neg hlen, hloop]
  obtain ⟨l1, _, l3⟩ := longestResponse_spec survivors none 0
  refine ⟨hs, hsrv, ?_, ?_, ?_⟩
  · intro batch ok hmem
    unfold newEvents at hmem
    rw [htr, List.drop_left] at hmem
    obtain ⟨q, hq | hq⟩ := hev _ hmem <;> cases hq
  · intro hzero
    rw [hfun]
    rcases l3 with ⟨h1, _⟩ | ⟨p, msg, hm, _, _, hgt⟩
    · rw [h1]
    · have := hzero (p, msg) hm
      simp only at this
      omega
  · rintro ⟨e, he, hpos⟩
    rcases l3 with ⟨_, h2⟩ | ⟨p, msg, hm, hk, hl, _⟩
    · have := l1 e he
      omega
    · refine ⟨p, msg, hm, ?_, ?_⟩
      · intro e' he'
        rw [← hl]
        exact l1 e' he'
      · rw [hfun, hk]
        simp only [get_of_mem_nodup survivors hkeys p msg hm]

theorem longest_surviving_response_written_witness :
    (getUncheckpointedCFHeaders (sampleEnv []) reconcileNet
      { sampleBM log3 mem3 none none 0 with server := sampleServer } GCSFilterRegular).1
        = .ok () ∧
    (getUncheckpointedCFHeaders (sampleEnv []) reconcileNet
      { sampleBM log3 mem3 none none 0 with server := sampleServer }
        GCSFilterRegular).2.server.filters.map (fun x => x.FilterHash)
        = [5, (sampleEnv []).DoubleHashH 21 5,
           (sampleEnv []).DoubleHashH 24 ((sampleEnv []).DoubleHashH 21 5)] ∧
    [(1, sampleCFHeaders [21]), (3, sampleCFHeaders [21, 24])]
      = [(1, sampleCFHeaders [21]), (2, sampleCFHeaders [22, 23]),
          (3, sampleCFHeaders [21, 24])].filter (fun e => e.1 ∉ [2]) :=
  ⟨by decide, by decide,
   (longest_surviving_response_written (sampleEnv []) reconcileNet
      { sampleBM log3 mem3 none none 0 with server := sampleServer } GCSFilterRegular 5 0 h2 2
      [(1, sampleCFHeaders [21]), (2, sampleCFHeaders [22, 23]), (3, sampleCFHeaders [21, 24])]
      [(1, sampleCFHeaders [21]), (3, sampleCFHeaders [21, 24])]
      { sampleBM log3 mem3 none none 0 with
        server := sampleServer, trace := [.BanPeer 2, .Disconnect 2] }
      [2] (by decide) (by decide) (by decide) (by decide) rfl).1⟩

/-! ## Headers messages: frame and tip -/

/-- C27: `handleHeadersMsg` on a headers message with no headers returns at once with
the manager as it was: the store, the in-memory chains, the sync peer, the next
checkpoint and `headerTip`, `headerTipHash` are unchanged, and no call is made (no
disconnect, no request). -/
theorem empty_headers_message_is_noop {σ : Type} (env : Env σ) (b : BM σ) (peer : Peer) :
    handleHeadersMsg env b peer [] = .returned b ∧
    newEvents b (handleHeadersMsg env b peer []).bm = [] := by
  have h : handleHeadersMsg env b peer [] = .returned b := by
    simp [handleHeadersMsg]
  rw [h]
  exact ⟨rfl, by simp [newEvents, Outcome.bm]⟩

/-! ## Checkpoint lookup -/

/-- C25: for checkpoints sorted by strictly increasing height,
`findNextHeaderCheckpoint(height)` returns nil exactly when there are no checkpoints or
the height is at or beyond the height of the final checkpoint, and otherwise returns the
checkpoint of least height among those strictly above `height`. -/
theorem findNextHeaderCheckpoint_least_above (P : Params) (height : Int)
    (hs : SortedCheckpoints P.Checkpoints) :
    (findNextHeaderCheckpoint P height = none ↔
      P.Checkpoints = [] ∨
        ∃ final, P.Checkpoints.getLast? = some final ∧ final.Height ≤ height) ∧
    (∀ r, findNextHeaderCheckpoint P height = some r →
      r ∈ P.Checkpoints ∧ height < r.Height ∧
        ∀ c ∈ P.Checkpoints, height < c.Height → r.Height ≤ c.Height) := by
  constructor
  · unfold findNextHeaderCheckpoint
    cases hl : P.Checkpoints.getLast? with
    | none =>
      simp only [true_iff]
      left
      exact List.getLast?_eq_none_iff.mp hl
    | some final =>
      simp only
      have hne : P.Checkpoints ≠ [] := by
        intro hnil
        rw [hnil] at hl
        simp at hl
      constructor
      · intro h
        right
        refine ⟨final, rfl, ?_⟩
        by_contra hc
        rw [if_neg (by omega)] at h
        simp at h
      · rintro (h | ⟨f, hf, hle⟩)
        · exact absurd h hne
        · simp only [Option.some.injEq] at hf
          subst hf
          rw [if_pos (by omega)]
  · intro r hr
    rcases findNextHeaderCheckpoint_spec P height hs with ⟨hnone, _⟩ | ⟨r', hsome, h1, h2, h3⟩
    · rw [hnone] at hr
      simp at hr
    · rw [hsome] at hr
      simp only [Option.some.injEq] at hr
      subst hr
      exact ⟨h1, h2, h3⟩

theorem findNextHeaderCheckpoint_least_above_witness :
    SortedCheckpoints [⟨10, 7⟩, ⟨20, 8⟩, ⟨30, 9⟩] ∧
    findNextHeaderCheckpoint (sampleEnv [⟨10, 7⟩, ⟨20, 8⟩, ⟨30, 9⟩]).chainParams 10
      = some ⟨20, 8⟩ ∧
    ((⟨20, 8⟩ : Checkpoint) ∈ [(⟨10, 7⟩ : Checkpoint), ⟨20, 8⟩, ⟨30, 9⟩] ∧
      (10 : Int) < 20 ∧
      ∀ c ∈ [(⟨10, 7⟩ : Checkpoint), ⟨20, 8⟩, ⟨30, 9⟩], (10 : Int) < c.Height →
        (20 : Int) ≤ c.Height) :=
  ⟨by unfold SortedCheckpoints; decide, by decide,
   (findNextHeaderCheckpoint_least_above (sampleEnv [⟨10, 7⟩, ⟨20, 8⟩, ⟨30, 9⟩]).chainParams 10
      (by unfold SortedCheckpoints; decide)).2 ⟨20, 8⟩ (by decide)⟩

/-- C26: for checkpoints sorted by strictly increasing height,
`findPreviousHeaderCheckpoint(height)` returns the genesis checkpoint (height 0, genesis
hash) when there are no checkpoints or the height is not above the height of the first
checkpoint, and otherwise the checkpoint of greatest height among those strictly below
`height`; no listed checkpoint being equal to the genesis checkpoint, it returns the
genesis checkpoint in the first case only. -/
theorem findPreviousHeaderCheckpoint_greatest_below (P : Params) (height : Int)
    (hs : SortedCheckpoints P.Checkpoints) :
    ((P.Checkpoints = [] ∨ ∃ first, P.Checkpoints.head? = some first ∧ height ≤ first.Height) →
      findPreviousHeaderCheckpoint P height = { Height := 0, Hash := P.GenesisHash }) ∧
    (¬ (P.Checkpoints = [] ∨
        ∃ first, P.Checkpoints.head? = some first ∧ height ≤ first.Height) →
      findPreviousHeaderCheckpoint P height ∈ P.Checkpoints ∧
      (findPreviousHeaderCheckpoint P height).Height < height ∧
      ∀ c ∈ P.Checkpoints, c.Height < height →
        c.Height ≤ (findPreviousHeaderCheckpoint P height).Height) ∧
    ((∀ c ∈ P.Checkpoints, c ≠ { Height := 0, Hash := P.GenesisHash }) →
      (findPreviousHeaderCheckpoint P height = { Height := 0, Hash := P.GenesisHash } ↔
        P.Checkpoints = [] ∨
          ∃ first, P.Checkpoints.head? = some first ∧ height ≤ first.Height)) := by
  have hfirst : (P.Checkpoints = [] ∨
        ∃ first, P.Checkpoints.head? = some first ∧ height ≤ first.Height) ↔
      ∀ c ∈ P.Checkpoints, height ≤ c.Height := by
    cases hc : P.Checkpoints with
    | nil => simp
    | cons a rest =>
      rw [hc] at hs
      have hs' := List.pairwise_cons.mp hs
      simp only [reduceCtorEq, List.head?_cons, Option.some.injEq, exists_eq_left', false_or,
        List.mem_cons, forall_eq_or_imp]
      constructor
      · intro h
        refine ⟨h, ?_⟩
        intro c hcm
        have := hs'.1 c hcm
        omega
      · intro h
        exact h.1
  have hspec := findPreviousHeaderCheckpoint_spec P height hs
  have hcase1 : (∀ c ∈ P.Checkpoints, height ≤ c.Height) →
      findPreviousHeaderCheckpoint P height = { Height := 0, Hash := P.GenesisHash } := by
    intro hall
    rcases hspec with ⟨_, h⟩ | ⟨hm, hlt, _⟩
    · exact h
    · have := hall _ hm
      omega
  have hcase2 : ¬ (∀ c ∈ P.Checkpoints, height ≤ c.Height) →
      findPreviousHeaderCheckpoint P height ∈ P.Checkpoints ∧
      (findPreviousHeaderCheckpoint P height).Height < height ∧
      ∀ c ∈ P.Checkpoints, c.Height < height →
        c.Height ≤ (findPreviousHeaderCheckpoint P height).Height := by
    intro hn
    rcases hspec with ⟨h, _⟩ | h
    · exact absurd h hn
    · exact h
  refine ⟨fun h => hcase1 (hfirst.mp h), fun h => hcase2 (fun h' => h (hfirst.mpr h')), ?_⟩
  intro hne
  constructor
  · intro hg
    by_contra hcon
    have := (hcase2 (fun h' => hcon (hfirst.mpr h'))).1
    exact hne _ this hg
  · intro h
    exact hcase1 (hfirst.mp h)

theorem findPreviousHeaderCheckpoint_greatest_below_witness :
    SortedCheckpoints [⟨10, 7⟩, ⟨20, 8⟩, ⟨30, 9⟩] ∧
    findPreviousHeaderCheckpoint (sampleEnv [⟨10, 7⟩, ⟨20, 8⟩, ⟨30, 9⟩]).chainParams 30
      = ⟨20, 8⟩ ∧
    findPreviousHeaderCheckpoint (sampleEnv [⟨10, 7⟩, ⟨20, 8⟩, ⟨30, 9⟩]).chainParams 10
      = ⟨0, (sampleEnv [⟨10, 7⟩, ⟨20, 8⟩, ⟨30, 9⟩]).chainParams.GenesisHash⟩ :=
  ⟨by unfold SortedCheckpoints; decide, by decide,
   (findPreviousHeaderCheckpoint_greatest_below
      (sampleEnv [⟨10, 7⟩, ⟨20, 8⟩, ⟨30, 9⟩]).chainParams 10
      (by unfold SortedCheckpoints; decide)).1
      (Or.inr ⟨⟨10, 7⟩, rfl, by decide⟩)⟩

/-- C24 at its failing input: the chain is `g0, h1, h2` in the store and in memory and
the sync peer sends the known tip `h2` once more.  The call runs to its final tip
update, which sets `headerTipHash` to the hash of `h2` but `headerTip` to 0, the value
`finalHeight` holds when no header of the batch extended the tip; the chain tip is at
height 2. -/
theorem known_header_resets_headerTip :
    (sampleEnv []).BlockHeaders.ChainTip (sampleBM log3 mem3 none (some 7) 0).server
      = some (h2, 2) ∧
    (sampleBM log3 mem3 none (some 7) 0).headerList.head? = some ⟨h2, 2⟩ ∧
    (sampleBM log3 mem3 none (some 7) 0).headerTip = 2 ∧
    (handleHeadersMsg (sampleEnv []) (sampleBM log3 mem3 none (some 7) 0) 7 [h2]).panics = false ∧
    (handleHeadersMsg (sampleEnv []) (sampleBM log3 mem3 none (some 7) 0) 7 [h2]).bm.trace
      = [.NewHeadersBroadcast] ∧
    (handleHeadersMsg (sampleEnv []) (sampleBM log3 mem3 none (some 7) 0) 7 [h2]).bm.headerList
      = mem3 ∧
    (handleHeadersMsg (sampleEnv []) (sampleBM log3 mem3 none (some 7) 0) 7 [h2]).bm.headerTipHash
      = sampleHash h2 ∧
    (handleHeadersMsg (sampleEnv []) (sampleBM log3 mem3 none (some 7) 0) 7 [h2]).bm.headerTip
      = 0 := by
  decide

/-- C28 at its failing input: the store holds `g0, h1, h2`, the in-memory chain only
the tip `h2`, and the sync peer sends the branch `q1, q2, q3` that forks from `g0`.  The
walk over the known chain runs out of memory nodes at height 1 and asks the store for
`h1`; the lookup succeeds, and the call panics.  And with the branch `r2` that forks
from `h1`, the work of the known header `h2` is not added, its predecessor not being in
memory: `r2`, of equal work, replaces `h2`. -/
theorem known_work_falls_through_to_panic :
    (sampleEnv []).BlockHeaders.FetchHeader ⟨log3, []⟩ h2.PrevBlock = some (h1, 1) ∧
    (sampleEnv []).BlockHeaders.FetchHeader ⟨log3, []⟩ q1.PrevBlock = some (g0, 0) ∧
    (handleHeadersMsg (sampleEnv []) (sampleBM log3 [⟨h2, 2⟩] none (some 7) 0) 7
      [q1, q2, q3]).panics = true ∧
    (handleHeadersMsg (sampleEnv []) (sampleBM log3 mem3 none (some 7) 0) 7
      [q1, q2, q3]).panics = false ∧
    (sampleEnv []).CalcWork r2.Bits 3 r2.Version = (sampleEnv []).CalcWork h2.Bits 1 h2.Version ∧
    (handleHeadersMsg (sampleEnv []) (sampleBM log3 [⟨h2, 2⟩] none (some 7) 0) 7
      [r2]).bm.server.blocks = [⟨g0, 0⟩, ⟨h1, 1⟩, ⟨r2, 2⟩] ∧
    (handleHeadersMsg (sampleEnv []) (sampleBM log3 mem3 none (some 7) 0) 7
      [r2]).bm.server.blocks = log3 := by
  decide

/-- C30 at its failing input: the chain is `g0, h1, h2` in the store and in memory, and
the sync peer sends `c3`, which extends the tip, followed by a header whose parent is
unknown.  The call disconnects the peer and returns before the batch is written: the
last node in memory is `c3` at height 3, the tip of the store is still `h2` at height
2. -/
theorem disconnect_leaves_memory_ahead_of_store :
    (sampleBM log3 mem3 none (some 7) 0).headerList.head? = some ⟨h2, 2⟩ ∧
    (sampleEnv []).BlockHeaders.ChainTip (sampleBM log3 mem3 none (some 7) 0).server
      = some (h2, 2) ∧
    (handleHeadersMsg (sampleEnv []) (sampleBM log3 mem3 none (some 7) 0) 7
      [c3, child q3 5]).panics = false ∧
    (handleHeadersMsg (sampleEnv []) (sampleBM log3 mem3 none (some 7) 0) 7
      [c3, child q3 5]).bm.trace = [.UpdateLastBlockHeight 7 3, .Disconnect 7] ∧
    (handleHeadersMsg (sampleEnv []) (sampleBM log3 mem3 none (some 7) 0) 7
      [c3, child q3 5]).bm.headerList.head? = some ⟨c3, 3⟩ ∧
    (sampleEnv []).BlockHeaders.ChainTip
      (handleHeadersMsg (sampleEnv []) (sampleBM log3 mem3 none (some 7) 0) 7
        [c3, child q3 5]).bm.server = some (h2, 2) := by
  decide

/-- C29 fails in the code: `checkHeaderSanity` returns an error when the difficulty
computation fails, the proof-of-work check fails or the timestamp is strictly after
`maxTimestamp`, but it does not only check: once the required difficulty `diff` is
computed it stores it in the `Bits` of the header it was passed, so the header is left
with `Bits = diff` whatever its bits were, on the error paths that follow as well. -/
theorem checkHeaderSanity_overwrites_bits {σ : Type} (env : Env σ) (b : BM σ)
    (blockHeader : BlockHeader) (maxTimestamp : Int) (reorgAttempt : Bool) (height : Int)
    (diff : Nat)
    (hdiff : calcNextRequiredDifficulty env b blockHeader.Timestamp reorgAttempt = .ok diff) :
    (checkHeaderSanity env b blockHeader maxTimestamp reorgAttempt height).1
      = { blockHeader with Bits := diff } ∧
    ((checkHeaderSanity env b blockHeader maxTimestamp reorgAttempt height).2 = .ok () ↔
      env.CheckProofOfWork { blockHeader with Bits := diff } height = true ∧
        blockHeader.Timestamp ≤ maxTimestamp) ∧
    ((checkHeaderSanity env b blockHeader maxTimestamp reorgAttempt height).2 ≠ .ok () →
      (checkHeaderSanity env b blockHeader maxTimestamp reorgAttempt height).2 = .err) := by
  unfold checkHeaderSanity
  rw [hdiff]
  simp only
  by_cases hp : env.CheckProofOfWork { blockHeader with Bits := diff } height = true
  · by_cases ht : blockHeader.Timestamp > maxTimestamp
    · have hle : ¬ blockHeader.Timestamp ≤ maxTimestamp := by omega
      simp [hp, ht, hle]
    · have hle : blockHeader.Timestamp ≤ maxTimestamp := by omega
      simp [hp, ht, hle]
  · simp [hp]

theorem checkHeaderSanity_overwrites_bits_witness :
    ({ c3 with Bits := 77 } : BlockHeader).Bits = 77 ∧
    (checkHeaderSanity (sampleEnv []) (sampleBM log3 mem3 none none 0) { c3 with Bits := 77 }
      12200 false 3).1.Bits = 100 ∧
    (checkHeaderSanity (sampleEnv []) (sampleBM log3 mem3 none none 0) { c3 with Bits := 77 }
      12200 false 3).2 = .ok () :=
  ⟨rfl,
   by rw [(checkHeaderSanity_overwrites_bits (sampleEnv []) (sampleBM log3 mem3 none none 0)
        { c3 with Bits := 77 } 12200 false 3 100 (by decide)).1],
   by decide⟩

/-! ## Agreement between peers -/

theorem mismatchScan_iff (idx : Nat) :
    ∀ (headers : PeerMap MsgCFHeaders) (hash : Hash), NoZeroAt idx headers →
      (mismatchScan idx headers hash = true ↔
        (hash ≠ zeroHash ∧ ∃ e ∈ headers, ∃ a, e.2.FilterHashes[idx]? = some a ∧ a ≠ hash) ∨
          DisagreeAt idx headers) := by
  intro headers
  induction headers with
  | nil =>
    intro hash _
    simp [mismatchScan, DisagreeAt]
  | cons x rest ih =>
    intro hash hz
    have hz' : NoZeroAt idx rest := fun e he => hz e (List.mem_cons_of_mem _ he)
    obtain ⟨p, msg⟩ := x
    have hdis : ∀ h, msg.FilterHashes[idx]? = some h →
        (DisagreeAt idx ((p, msg) :: rest) ↔
          (∃ e ∈ rest, ∃ a, e.2.FilterHashes[idx]? = some a ∧ a ≠ h) ∨ DisagreeAt idx rest) := by
      intro h hh
      constructor
      · rintro ⟨e, he, e', he', a, a', h1, h2, hne⟩
        rcases List.mem_cons.mp he with r1 | r1
        · rcases List.mem_cons.mp he' with r2 | r2
          · subst r1; subst r2
            rw [h1] at h2
            exact absurd (Option.some.inj h2) hne
          · subst r1
            simp only at h1
            rw [hh] at h1
            left
            exact ⟨e', r2, a', h2, by rw [Option.some.inj h1]; exact fun c => hne c.symm⟩
        · rcases List.mem_cons.mp he' with r2 | r2
          · subst r2
            simp only at h2
            rw [hh] at h2
            left
            exact ⟨e, r1, a, h1, by rw [Option.some.inj h2]; exact hne⟩
          · right
            exact ⟨e, r1, e', r2, a, a', h1, h2, hne⟩
      · rintro (⟨e, he, a, h1, hne⟩ | ⟨e, he, e', he', a, a', h1, h2, hne⟩)
        · exact ⟨e, List.mem_cons_of_mem _ he, (p, msg), List.mem_cons_self _ _, a, h, h1, hh, hne⟩
        · exact ⟨e, List.mem_cons_of_mem _ he, e', List.mem_cons_of_mem _ he', a, a', h1, h2, hne⟩
    have hnone : msg.FilterHashes[idx]? = none →
        (DisagreeAt idx ((p, msg) :: rest) ↔ DisagreeAt idx rest) := by
      intro hn
      constructor
      · rintro ⟨e, he, e', he', a, a', h1, h2, hne⟩
        rcases List.mem_cons.mp he with r1 | r1
        · subst r1
          simp only at h1
          rw [hn] at h1
          cases h1
        · rcases List.mem_cons.mp he' with r2 | r2
          · subst r2
            simp only at h2
            rw [hn] at h2
            cases h2
          · exact ⟨e, r1, e', r2, a, a', h1, h2, hne⟩
      · rintro ⟨e, he, e', he', a, a', h1, h2, hne⟩
        exact ⟨e, List.mem_cons_of_mem _ he, e', List.mem_cons_of_mem _ he', a, a', h1, h2, hne⟩
    rw [mismatchScan]
    cases hm : msg.FilterHashes[idx]? with
    | none =>
      simp only
      rw [ih hash hz', hnone hm]
      constructor
      · rintro (⟨h0, e, he, a, h1, h2⟩ | h)
        · left
          exact ⟨h0, e, List.mem_cons_of_mem _ he, a, h1, h2⟩
        · right; exact h
      · rintro (⟨h0, e, he, a, h1, h2⟩ | h)
        · rcases List.mem_cons.mp he with r1 | r1
          · subst r1
            simp only at h1
            rw [hm] at h1
            cases h1
          · left
            exact ⟨h0, e, r1, a, h1, h2⟩
        · right; exact h
    | some h =>
      simp only
      have hnz : h ≠ zeroHash := by
        intro hzero
        apply hz (p, msg) (List.mem_cons_self _ _)
        rw [← hzero]
        exact hm
      by_cases h0 : hash = zeroHash
      · rw [if_pos h0, ih h hz', hdis h hm]
        constructor
        · rintro (⟨_, hex⟩ | hd)
          · right; left; exact hex
          · right; right; exact hd
        · rintro (⟨hne, _⟩ | hex | hd)
          · exact absurd h0 hne
          · left; exact ⟨hnz, hex⟩
          · right; exact hd
      · rw [if_neg h0]
        by_cases hh : hash ≠ h
        · rw [if_pos hh]
          simp only [true_iff]
          left
          exact ⟨h0, (p, msg), List.mem_cons_self _ _, h, hm, fun c => hh c.symm⟩
        · rw [if_neg hh]
          have heq : hash = h := by
            by_contra hc
            exact hh hc
          subst heq
          rw [ih hash hz', hdis hash hm]
          constructor
          · rintro (⟨_, e, he, a, h1, h2⟩ | hd)
            · left
              exact ⟨h0, e, List.mem_cons_of_mem _ he, a, h1, h2⟩
            · right; right; exact hd
          · rintro (⟨_, e, he, a, h1, h2⟩ | hex | hd)
            · rcases List.mem_cons.mp he with r1 | r1
              · subst r1
                simp only at h1
                rw [hm] at h1
                exact absurd (Option.some.inj h1).symm h2
              · left
                exact ⟨h0, e, r1, a, h1, h2⟩
            · left; exact ⟨h0, hex⟩
            · right; exact hd

/-- Away from the zero hash `checkForCFHeaderMismatch` does what its comment says: when
no response carries the zero hash at position `idx`, `checkForCFHeaderMismatch(headers,
idx)` returns true if and only if two responses both hold more than `idx` filter hashes
and differ at position `idx`, and the answer is the same for every order in which the
peers are visited. -/
theorem checkForCFHeaderMismatch_iff_disagree (headers : PeerMap MsgCFHeaders) (idx : Nat)
    (hz : NoZeroAt idx headers) :
    (checkForCFHeaderMismatch headers idx = true ↔ DisagreeAt idx headers) ∧
    ∀ headers', headers.Perm headers' →
      checkForCFHeaderMismatch headers' idx = checkForCFHeaderMismatch headers idx := by
  have key : ∀ hs : PeerMap MsgCFHeaders, NoZeroAt idx hs →
      (checkForCFHeaderMismatch hs idx = true ↔ DisagreeAt idx hs) := by
    intro hs hzs
    unfold checkForCFHeaderMismatch
    rw [mismatchScan_iff idx hs zeroHash hzs]
    simp
  refine ⟨key headers hz, ?_⟩
  intro headers' hp
  have hz' : NoZeroAt idx headers' := fun e he => hz e (hp.mem_iff.mpr he)
  have hd : DisagreeAt idx headers' ↔ DisagreeAt idx headers := by
    constructor
    · rintro ⟨e, he, e', he', rest⟩
      exact ⟨e, hp.mem_iff.mpr he, e', hp.mem_iff.mpr he', rest⟩
    · rintro ⟨e, he, e', he', rest⟩
      exact ⟨e, hp.mem_iff.mp he, e', hp.mem_iff.mp he', rest⟩
  have h1 := key headers hz
  have h2 := key headers' hz'
  cases ha : checkForCFHeaderMismatch headers idx <;>
    cases hb : checkForCFHeaderMismatch headers' idx <;> simp_all

/-- The responses `[21]` and `[22, 23]` differ at position 0 and a mismatch is
reported. -/
theorem checkForCFHeaderMismatch_iff_disagree_witness :
    NoZeroAt 0 [(1, plainCFHeaders [21]), (2, plainCFHeaders [22, 23])] ∧
    checkForCFHeaderMismatch [(1, plainCFHeaders [21]), (2, plainCFHeaders [22, 23])] 0 = true ∧
    DisagreeAt 0 [(1, plainCFHeaders [21]), (2, plainCFHeaders [22, 23])] :=
  have hz : NoZeroAt 0 [(1, plainCFHeaders [21]), (2, plainCFHeaders [22, 23])] := by
    unfold NoZeroAt
    decide
  ⟨hz, by decide,
   (checkForCFHeaderMismatch_iff_disagree
      [(1, plainCFHeaders [21]), (2, plainCFHeaders [22, 23])] 0 hz).1.mp (by decide)⟩

/-- C23 fails in the code: the responses of the peers 1 and 2 both hold a filter hash at
position 0 and the two differ, the first being the zero hash.  Visited in this order
`checkForCFHeaderMismatch` reports no mismatch, because the zero hash taken as reference
is read as the absence of a reference and replaced by the hash of peer 2 (lines
1093-1096);
visited in the other order it reports the mismatch, so the answer depends on the order
of the peers too. -/
theorem zero_hash_hides_mismatch :
    checkForCFHeaderMismatch [(1, plainCFHeaders [0]), (2, plainCFHeaders [5])] 0 = false ∧
    checkForCFHeaderMismatch [(2, plainCFHeaders [5]), (1, plainCFHeaders [0])] 0 = true ∧
    (plainCFHeaders [0]).FilterHashes[0]? ≠ (plainCFHeaders [5]).FilterHashes[0]? := by
  decide

theorem sanityScan_of_agree (i : Nat) :
    ∀ (cp : PeerMap (List Hash)) (c0 : Hash), AgreeAt i cp →
      (c0 ≠ zeroHash → ∀ e ∈ cp, ∀ a, e.2[i]? = some a → a = c0) →
      sanityScan i cp c0 ≠ none := by
  intro cp
  induction cp with
  | nil => intro c0 _ _; simp [sanityScan]
  | cons x rest ih =>
    intro c0 hag hc0
    obtain ⟨p, xs⟩ := x
    have hag' : AgreeAt i rest := fun e he e' he' =>
      hag e (List.mem_cons_of_mem _ he) e' (List.mem_cons_of_mem _ he')
    rw [sanityScan]
    cases hx : xs[i]? with
    | none =>
      simp only
      exact ih c0 hag' (fun h e he => hc0 h e (List.mem_cons_of_mem _ he))
    | some c =>
      simp only
      have hrest : ∀ e ∈ rest, ∀ a, e.2[i]? = some a → a = c := by
        intro e he a ha
        exact hag e (List.mem_cons_of_mem _ he) (p, xs) (List.mem_cons_self _ _) a c ha hx
      by_cases hz : c0 = zeroHash
      · rw [if_pos hz, if_neg (by simp)]
        exact ih c hag' (fun _ => hrest)
      · rw [if_neg hz]
        have hc : c = c0 := hc0 hz (p, xs) (List.mem_cons_self _ _) c hx
        rw [if_neg (by simp [hc])]
        exact ih c0 hag' (fun h e he => hc0 h e (List.mem_cons_of_mem _ he))

theorem sanityScan_none_iff (i : Nat) (cp : PeerMap (List Hash)) (hz : NoZeroCheckpoint cp) :
    sanityScan i cp zeroHash = none ↔ ¬ AgreeAt i cp := by
  constructor
  · intro hnone hag
    exact sanityScan_of_agree i cp zeroHash hag (fun h => absurd rfl h) hnone
  · intro hnag
    by_contra hsome
    obtain ⟨c, hc⟩ := Option.ne_none_iff_exists'.mp hsome
    apply hnag
    intro e he e' he' a a' ha ha'
    have h := (sanityScan_agree i cp zeroHash c hz hc).2
    rw [h e he a ha, h e' he' a' ha']

theorem exists_entry_below_maxLen :
    ∀ (cp : PeerMap (List Hash)) (m i : Nat),
      i < cp.foldl (fun maxLen e => if e.2.length > maxLen then e.2.length else maxLen) m →
      i < m ∨ ∃ e ∈ cp, i < e.2.length := by
  intro cp
  induction cp with
  | nil => intro m i h; left; simpa using h
  | cons x rest ih =>
    intro m i h
    simp only [List.foldl_cons] at h
    by_cases hx : x.2.length > m
    · simp only [hx, if_true] at h
      rcases ih _ i h with h1 | ⟨e, he, h2⟩
      · right; exact ⟨x, List.mem_cons_self _ _, h1⟩
      · right; exact ⟨e, List.mem_cons_of_mem _ he, h2⟩
    · simp only [hx, if_false] at h
      rcases ih _ i h with h1 | ⟨e, he, h2⟩
      · left; exact h1
      · right; exact ⟨e, List.mem_cons_of_mem _ he, h2⟩

theorem sanityLoop_round {σ : Type} (env : Env σ) (server : σ) (cp : PeerMap (List Hash))
    (storeTip : Nat) (hz : NoZeroCheckpoint cp)
    (hfetch : ∀ h, h ≤ storeTip → env.RegFilterHeaders.FetchHeaderByHeight server h ≠ none)
    (n i : Nat) (hi : (i + 1) * 1000 < 4294967296) (hex : ∃ e ∈ cp, i < e.2.length) :
    (AgreeAt i cp ∧ StoreAgreesAt env server storeTip cp i →
      sanityLoop env server cp storeTip (n + 1) i = sanityLoop env server cp storeTip n (i + 1)) ∧
    (¬ (AgreeAt i cp ∧ StoreAgreesAt env server storeTip cp i) →
      sanityLoop env server cp storeTip (n + 1) i = ((i : Int), false)) := by
  have hu : u32 (((i : Int) + 1) * CFCheckptInterval) = (i + 1) * CFCheckptInterval := by
    have := u32_of_lt ((i + 1) * 1000) hi
    simpa [CFCheckptInterval] using this
  obtain ⟨e0, he0, hlt0⟩ := hex
  have ha0 : e0.2[i]? = some (e0.2[i]) := List.getElem?_eq_getElem hlt0
  rw [sanityLoop]
  cases hs : sanityScan i cp zeroHash with
  | none =>
    have hnag := (sanityScan_none_iff i cp hz).mp hs
    simp only
    exact ⟨fun h => absurd h.1 hnag, fun _ => trivial⟩
  | some c =>
    have hag : AgreeAt i cp := by
      by_contra hc
      have := (sanityScan_none_iff i cp hz).mpr hc
      rw [hs] at this
      cases this
    have hall := (sanityScan_agree i cp zeroHash c hz hs).2
    have hc0 : e0.2[i] = c := hall e0 he0 _ ha0
    simp only [hu]
    by_cases hh : (i + 1) * CFCheckptInterval ≤ storeTip
    · rw [if_pos hh]
      obtain ⟨header, hheader⟩ := Option.ne_none_iff_exists'.mp (hfetch _ hh)
      rw [hheader]
      simp only
      by_cases hne : header ≠ c
      · rw [if_pos hne]
        refine ⟨?_, fun _ => rfl⟩
        rintro ⟨_, hst⟩
        have := hst hh e0 he0 _ ha0
        rw [hheader, hc0] at this
        exact absurd (Option.some.inj this) hne
      · rw [if_neg hne]
        refine ⟨fun _ => rfl, ?_⟩
        intro hbad
        exfalso
        apply hbad
        refine ⟨hag, ?_⟩
        intro _ e he a ha
        rw [hheader, hall e he a ha]
        congr 1
        by_contra hcon
        exact hne hcon
    · rw [if_neg hh]
      refine ⟨fun _ => rfl, ?_⟩
      intro hbad
      exfalso
      exact hbad ⟨hag, fun h => absurd h hh⟩

theorem sanityLoop_first_bad {σ : Type} (env : Env σ) (server : σ) (cp : PeerMap (List Hash))
    (storeTip : Nat) (hz : NoZeroCheckpoint cp)
    (hfetch : ∀ h, h ≤ storeTip → env.RegFilterHeaders.FetchHeaderByHeight server h ≠ none)
    (M : Nat) (hM : M * 1000 < 4294967296)
    (hex : ∀ i, i < M → ∃ e ∈ cp, i < e.2.length) :
    ∀ n i, i + n ≤ M →
      (sanityLoop env server cp storeTip n i = (-1, false) ∧
        ∀ j, i ≤ j → j < i + n → AgreeAt j cp ∧ StoreAgreesAt env server storeTip cp j) ∨
      ∃ k : Nat, i ≤ k ∧ k < i + n ∧ sanityLoop env server cp storeTip n i = ((k : Int), false) ∧
        ¬ (AgreeAt k cp ∧ StoreAgreesAt env server storeTip cp k) ∧
        ∀ j, i ≤ j → j < k → AgreeAt j cp ∧ StoreAgreesAt env server storeTip cp j := by
  intro n
  induction n with
  | zero =>
    intro i _
    left
    exact ⟨rfl, fun j h1 h2 => by omega⟩
  | succ n ih =>
    intro i hin
    obtain ⟨r1, r2⟩ := sanityLoop_round env server cp storeTip hz hfetch n i (by omega)
      (hex i (by omega))
    by_cases hg : AgreeAt i cp ∧ StoreAgreesAt env server storeTip cp i
    · rw [r1 hg]
      rcases ih (i + 1) (by omega) with ⟨h1, h2⟩ | ⟨k, k1, k2, k3, k4, k5⟩
      · left
        refine ⟨h1, ?_⟩
        intro j j1 j2
        by_cases hj : j = i
        · rw [hj]; exact hg
        · exact h2 j (by omega) (by omega)
      · right
        refine ⟨k, by omega, by omega, k3, k4, ?_⟩
        intro j j1 j2
        by_cases hj : j = i
        · rw [hj]; exact hg
        · exact k5 j (by omega) j2
    · right
      exact ⟨i, le_refl _, by omega, r2 hg, hg, fun j j1 j2 => by omega⟩

/-- Away from the zero hash `checkCFCheckptSanity` does what its comment says: when no
peer reports the zero hash as a checkpoint and the store can be read up to its tip,
`checkCFCheckptSanity` returns no error; it returns -1 if and
only if at every index the checkpoint lists that reach it agree and, for every index `i`
with `(i + 1) * CFCheckptInterval` at most the height of the store tip, the checkpoint
of the peers at `i` is the filter header of the store at that height; and it returns the
index `k` if and only if `k` is the earliest index at which two peers differ or the
value of the peers differs from the store. -/
theorem checkCFCheckptSanity_first_mismatch {σ : Type} (env : Env σ) (server : σ)
    (cp : PeerMap (List Hash)) (storeHeader : Hash) (storeTip : Nat)
    (htip : env.RegFilterHeaders.ChainTip server = some (storeHeader, storeTip))
    (hz : NoZeroCheckpoint cp)
    (hfetch : ∀ h, h ≤ storeTip → env.RegFilterHeaders.FetchHeaderByHeight server h ≠ none)
    (hbound : ∀ e ∈ cp, e.2.length * 1000 < 4294967296) :
    (checkCFCheckptSanity env server cp).2 = false ∧
    (checkCFCheckptSanity env server cp = (-1, false) ↔
      ∀ i, AgreeAt i cp ∧ StoreAgreesAt env server storeTip cp i) ∧
    (∀ k : Nat, checkCFCheckptSanity env server cp = ((k : Int), false) ↔
      ¬ (AgreeAt k cp ∧ StoreAgreesAt env server storeTip cp k) ∧
        ∀ j, j < k → AgreeAt j cp ∧ StoreAgreesAt env server storeTip cp j) := by
  have hM0 : ∀ i, i < cp.foldl (fun maxLen e => if e.2.length > maxLen then e.2.length else maxLen) 0 →
      ∃ e ∈ cp, i < e.2.length := by
    intro i hi
    rcases exists_entry_below_maxLen cp 0 i hi with h | h
    · omega
    · exact h
  have hMb : cp.foldl (fun maxLen e => if e.2.length > maxLen then e.2.length else maxLen) 0
      * 1000 < 4294967296 := by
    by_cases h0 : cp.foldl (fun maxLen e => if e.2.length > maxLen then e.2.length else maxLen) 0
        = 0
    · rw [h0]; omega
    · obtain ⟨e, he, hlt⟩ := hM0 (cp.foldl
        (fun maxLen e => if e.2.length > maxLen then e.2.length else maxLen) 0 - 1) (by omega)
      have := hbound e he
      omega
  have hbeyond : ∀ i, cp.foldl (fun maxLen e => if e.2.length > maxLen then e.2.length
      else maxLen) 0 ≤ i → AgreeAt i cp ∧ StoreAgreesAt env server storeTip cp i := by
    intro i hi
    have hnone : ∀ e ∈ cp, e.2[i]? = none := by
      intro e he
      have := (le_maxLen cp 0).2 e he
      exact List.getElem?_eq_none (by omega)
    constructor
    · intro e he e' _ a a' ha _
      rw [hnone e he] at ha
      cases ha
    · intro _ e he a ha
      rw [hnone e he] at ha
      cases ha
  have hres : checkCFCheckptSanity env server cp = sanityLoop env server cp storeTip
      (cp.foldl (fun maxLen e => if e.2.length > maxLen then e.2.length else maxLen) 0) 0 := by
    unfold checkCFCheckptSanity
    rw [htip]
  have hloop := sanityLoop_first_bad env server cp storeTip hz hfetch _ hMb hM0
    (cp.foldl (fun maxLen e => if e.2.length > maxLen then e.2.length else maxLen) 0) 0
    (by omega)
  rw [← hres] at hloop
  simp only [Nat.zero_add, Nat.zero_le, true_implies] at hloop
  rcases hloop with ⟨h1, h2⟩ | ⟨k, _, k2, k3, k4, k5⟩
  · have hall : ∀ i, AgreeAt i cp ∧ StoreAgreesAt env server storeTip cp i := by
      intro i
      by_cases hi : i < cp.foldl
          (fun maxLen e => if e.2.length > maxLen then e.2.length else maxLen) 0
      · exact h2 i hi
      · exact hbeyond i (by omega)
    refine ⟨by rw [h1], ⟨fun _ => hall, fun _ => h1⟩, ?_⟩
    intro k
    constructor
    · intro hk
      rw [h1] at hk
      simp only [Prod.mk.injEq, and_true] at hk
      omega
    · rintro ⟨hbad, _⟩
      exact absurd (hall k) hbad
  · refine ⟨by rw [k3], ⟨?_, ?_⟩, ?_⟩
    · intro h
      rw [k3] at h
      simp only [Prod.mk.injEq, and_true] at h
      omega
    · intro hall
      exact absurd (hall k) k4
    · intro k'
      constructor
      · intro hk
        rw [k3] at hk
        simp only [Prod.mk.injEq, and_true, Nat.cast_inj] at hk
        subst hk
        exact ⟨k4, k5⟩
      · rintro ⟨hbad, hleast⟩
        have hkk : k' = k := by
          rcases Nat.lt_trichotomy k' k with h | h | h
          · exact absurd (k5 k' h) hbad
          · exact h
          · exact absurd (hleast k h) k4
        rw [hkk]
        exact k3

/-- The lists `[11, 12]` and `[11, 13]` agree at index 0 and differ at index 1, which is
the index returned. -/
theorem checkCFCheckptSanity_first_mismatch_witness :
    checkCFCheckptSanity (sampleEnv []) sampleServer [(1, [11, 12]), (2, [11, 13])]
      = (1, false) ∧
    ¬ AgreeAt 1 [(1, [11, 12]), (2, [11, 13])] ∧ AgreeAt 0 [(1, [11, 12]), (2, [11, 13])] :=
  have h := (checkCFCheckptSanity_first_mismatch (sampleEnv []) sampleServer
    [(1, [11, 12]), (2, [11, 13])] 5 0 (by decide)
    (by unfold NoZeroCheckpoint; decide)
    (by
      intro h hh
      have h0 : h = 0 := by omega
      subst h0
      decide)
    (by decide)).2.2 1
  have hres : checkCFCheckptSanity (sampleEnv []) sampleServer [(1, [11, 12]), (2, [11, 13])]
      = (1, false) := by decide
  ⟨hres, fun hag => (h.mp hres).1 ⟨hag, fun hle => by
      simp only [CFCheckptInterval] at hle
      omega⟩,
    ((h.mp hres).2 0 (by omega)).1⟩

/-- C22 fails in the code: the peers 1 and 2 report different checkpoints at index 0,
the first of them the zero hash, and the store, whose tip is at height 0, holds nothing
at the height of that checkpoint to compare with.  `checkCFCheckptSanity` returns -1, as
for lists in agreement, and not the index 0 of the difference: the zero hash taken as
reference is read as the absence of a reference and replaced by the checkpoint of peer 2
(lines 1316-1318). -/
theorem zero_checkpoint_passes_sanity :
    checkCFCheckptSanity (sampleEnv []) sampleServer [(1, [0]), (2, [5])] = (-1, false) ∧
    ([0] : List Hash)[0]? ≠ ([5] : List Hash)[0]? ∧
    (sampleEnv []).RegFilterHeaders.ChainTip sampleServer = some (5, 0) := by
  decide


/-! ## Checkpoint negotiation in `cfHandler` -/

/-- The negotiation loop never lowers the count of `getCheckpts` calls. -/
theorem negotiate_queries_mono {σ : Type} (env : Env σ) (net : Network)
    (CFCheckptReplies : List Event → Nat → Hash → List (Peer × MsgCFCheckpt)) (fType : Nat)
    (lastHeight : Nat) (lastHash : Hash) (lastCp : Checkpoint) (rounds : Nat) :
    ∀ s : Negotiation σ,
      s.queries ≤
        (negotiate env net CFCheckptReplies fType lastHeight lastHash lastCp rounds s).queries := by
  induction rounds with
  | zero => intro s; simp [negotiate]
  | succ n ih =>
    intro s
    rw [negotiate]
    by_cases hloop : s.goodCheckpoints.length = 0 ∧ lastHeight ≥ CFCheckptInterval
    · rw [if_pos hloop]
      by_cases hmin : minCheckpointHeight s.allCFCheckpoints < lastHeight
      · simp only [if_pos hmin]
        generalize getCheckpts _ _ _ = all
        cases all with
        | nil =>
          dsimp only
          refine Nat.le_trans ?_ (ih _)
          exact Nat.le_succ _
        | cons e rest =>
          dsimp only
          split
          · exact Nat.le_succ _
          · refine Nat.le_trans ?_ (ih _)
            exact Nat.le_succ _
      · simp only [if_neg hmin]
        split
        · exact Nat.le_refl _
        · refine Nat.le_trans ?_ (ih _)
          exact Nat.le_refl _
    · rw [if_neg hloop]

/-- The negotiation loop never lowers the count of `resolveConflict` calls. -/
theorem negotiate_resolutions_mono {σ : Type} (env : Env σ) (net : Network)
    (CFCheckptReplies : List Event → Nat → Hash → List (Peer × MsgCFCheckpt)) (fType : Nat)
    (lastHeight : Nat) (lastHash : Hash) (lastCp : Checkpoint) (rounds : Nat) :
    ∀ s : Negotiation σ,
      s.resolutions ≤
        (negotiate env net CFCheckptReplies fType lastHeight lastHash lastCp rounds
          s).resolutions := by
  induction rounds with
  | zero => intro s; simp [negotiate]
  | succ n ih =>
    intro s
    rw [negotiate]
    by_cases hloop : s.goodCheckpoints.length = 0 ∧ lastHeight ≥ CFCheckptInterval
    · rw [if_pos hloop]
      by_cases hmin : minCheckpointHeight s.allCFCheckpoints < lastHeight
      · simp only [if_pos hmin]
        generalize getCheckpts _ _ _ = all
        cases all with
        | nil =>
          dsimp only
          refine Nat.le_trans ?_ (ih _)
          exact Nat.le_refl _
        | cons e rest =>
          dsimp only
          split
          · exact Nat.le_succ _
          · refine Nat.le_trans ?_ (ih _)
            exact Nat.le_succ _
      · simp only [if_neg hmin]
        split
        · exact Nat.le_succ _
        · refine Nat.le_trans ?_ (ih _)
          exact Nat.le_succ _
    · rw [if_neg hloop]

/-- The negotiation loop does nothing at all when the block-header tip is below one
checkpoint interval. -/
theorem negotiate_below_interval {σ : Type} (env : Env σ) (net : Network)
    (CFCheckptReplies : List Event → Nat → Hash → List (Peer × MsgCFCheckpt)) (fType : Nat)
    (lastHeight : Nat) (lastHash : Hash) (lastCp : Checkpoint) (rounds : Nat)
    (s : Negotiation σ) (hlow : lastHeight < CFCheckptInterval) :
    negotiate env net CFCheckptReplies fType lastHeight lastHash lastCp rounds s = s := by
  cases rounds with
  | zero => simp [negotiate]
  | succ n =>
    rw [negotiate, if_neg]
    intro h
    exact absurd h.2 (Nat.not_le.mpr hlow)

/-- The first round of the negotiation loop queries the peers when the shortest list of
cached checkpoints ends below the block-header tip. -/
theorem negotiate_first_round_queries {σ : Type} (env : Env σ) (net : Network)
    (CFCheckptReplies : List Event → Nat → Hash → List (Peer × MsgCFCheckpt)) (fType : Nat)
    (lastHeight : Nat) (lastHash : Hash) (lastCp : Checkpoint) (rounds : Nat)
    (s : Negotiation σ) (hgood : s.goodCheckpoints = [])
    (hmin : minCheckpointHeight s.allCFCheckpoints < lastHeight)
    (hhigh : CFCheckptInterval ≤ lastHeight) :
    s.queries + 1 ≤
      (negotiate env net CFCheckptReplies fType lastHeight lastHash lastCp (rounds + 1)
        s).queries := by
  rw [negotiate, if_pos ⟨by simp [hgood], hhigh⟩]
  simp only [if_pos hmin]
  generalize getCheckpts _ _ _ = all
  cases all with
  | nil =>
    dsimp only
    refine Nat.le_trans ?_ (negotiate_queries_mono env net CFCheckptReplies fType lastHeight
      lastHash lastCp rounds _)
    exact Nat.le_refl _
  | cons e rest =>
    dsimp only
    split
    · exact Nat.le_refl _
    · refine Nat.le_trans ?_ (negotiate_queries_mono env net CFCheckptReplies fType lastHeight
        lastHash lastCp rounds _)
      exact Nat.le_refl _

/-- While every list of cached checkpoints reaches the block-header tip, the negotiation
loop makes no query and keeps the cached checkpoints. -/
theorem negotiate_cached {σ : Type} (env : Env σ) (net : Network)
    (CFCheckptReplies : List Event → Nat → Hash → List (Peer × MsgCFCheckpt)) (fType : Nat)
    (lastHeight : Nat) (lastHash : Hash) (lastCp : Checkpoint) (rounds : Nat) :
    ∀ s : Negotiation σ, ¬ minCheckpointHeight s.allCFCheckpoints < lastHeight →
      (negotiate env net CFCheckptReplies fType lastHeight lastHash lastCp rounds s).queries
          = s.queries ∧
        (negotiate env net CFCheckptReplies fType lastHeight lastHash lastCp rounds
          s).allCFCheckpoints = s.allCFCheckpoints := by
  induction rounds with
  | zero => intro s _; simp [negotiate]
  | succ n ih =>
    intro s hmin
    rw [negotiate]
    by_cases hloop : s.goodCheckpoints.length = 0 ∧ lastHeight ≥ CFCheckptInterval
    · rw [if_pos hloop]
      simp only [if_neg hmin]
      split
      · exact ⟨rfl, rfl⟩
      · exact ih _ hmin
    · rw [if_neg hloop]
      exact ⟨rfl, rfl⟩

/-- The first round of the negotiation loop calls `resolveConflict` on the cached
checkpoints when every list of them reaches the block-header tip. -/
theorem negotiate_first_round_resolves {σ : Type} (env : Env σ) (net : Network)
    (CFCheckptReplies : List Event → Nat → Hash → List (Peer × MsgCFCheckpt)) (fType : Nat)
    (lastHeight : Nat) (lastHash : Hash) (lastCp : Checkpoint) (rounds : Nat)
    (s : Negotiation σ) (hgood : s.goodCheckpoints = [])
    (hmin : ¬ minCheckpointHeight s.allCFCheckpoints < lastHeight)
    (hhigh : CFCheckptInterval ≤ lastHeight) :
    s.resolutions + 1 ≤
      (negotiate env net CFCheckptReplies fType lastHeight lastHash lastCp (rounds + 1)
        s).resolutions := by
  rw [negotiate, if_pos ⟨by simp [hgood], hhigh⟩]
  simp only [if_neg hmin]
  split
  · exact Nat.le_refl _
  · refine Nat.le_trans ?_ (negotiate_resolutions_mono env net CFCheckptReplies fType
      lastHeight lastHash lastCp rounds _)
    exact Nat.le_refl _

/-- C21, as amended: with the block-header store's tip readable when the wait for block
headers ends, `cfHandler` reaches the end of its negotiation loop whatever the number of
rounds allowed and whatever filter checkpoints `allCFCheckpoints` an earlier pass left.
It skips the negotiation, with no `getCheckpts` query, no `resolveConflict` call, no
checkpoint found and the manager and the cached checkpoints untouched, when the stored
tip is below one checkpoint interval.  When the stored tip is at one checkpoint interval
or above it does not skip it, whether or not the block headers are synced and whatever
the lag of the filter-header tip: if no checkpoints are cached, as on the first pass, or
the shortest cached list ends below the stored tip, the first round queries the peers for
filter checkpoints; otherwise no query is made in any round and the first round calls
`resolveConflict` on the cached checkpoints. -/
theorem negotiation_skipped_below_interval {σ : Type} (env : Env σ) (net : Network)
    (CFCheckptReplies : List Event → Nat → Hash → List (Peer × MsgCFCheckpt)) (b : BM σ)
    (allCFCheckpoints : PeerMap (List Hash)) (lastHeader : BlockHeader) (lastHeight : Nat)
    (htip : env.BlockHeaders.ChainTip b.server = some (lastHeader, lastHeight))
    (rounds : Nat) :
    ∃ s, negotiateCheckpoints env net CFCheckptReplies b allCFCheckpoints rounds = some s ∧
      (lastHeight < CFCheckptInterval →
        s.queries = 0 ∧ s.resolutions = 0 ∧ s.goodCheckpoints = [] ∧ s.panicked = false ∧
          s.b = b ∧ s.allCFCheckpoints = allCFCheckpoints) ∧
      (CFCheckptInterval ≤ lastHeight → 0 < rounds →
        (allCFCheckpoints = [] ∨ minCheckpointHeight allCFCheckpoints < lastHeight →
          1 ≤ s.queries) ∧
        (¬ minCheckpointHeight allCFCheckpoints < lastHeight →
          s.queries = 0 ∧ 1 ≤ s.resolutions ∧ s.allCFCheckpoints = allCFCheckpoints)) := by
  have hrun : negotiateCheckpoints env net CFCheckptReplies b allCFCheckpoints rounds =
      some (negotiate env net CFCheckptReplies GCSFilterRegular lastHeight
        (env.BlockHash lastHeader)
        (env.chainParams.Checkpoints.getLast?.getD { Height := 0, Hash := zeroHash }) rounds
        { b := b, allCFCheckpoints := allCFCheckpoints, goodCheckpoints := [], queries := 0,
          resolutions := 0, panicked := false }) := by
    simp only [negotiateCheckpoints, htip]
  refine ⟨_, hrun, ?_, ?_⟩
  · intro hlow
    rw [negotiate_below_interval _ _ _ _ _ _ _ _ _ hlow]
    exact ⟨rfl, rfl, rfl, rfl, rfl, rfl⟩
  · intro hhigh hrounds
    obtain ⟨n, rfl⟩ : ∃ n, rounds = n + 1 := ⟨rounds - 1, by omega⟩
    have hpos : 0 < lastHeight := Nat.lt_of_lt_of_le (by decide) hhigh
    refine ⟨?_, ?_⟩
    · intro hq
      have hmin : minCheckpointHeight allCFCheckpoints < lastHeight := by
        rcases hq with hnil | hmin
        · subst hnil
          simpa [minCheckpointHeight] using hpos
        · exact hmin
      exact negotiate_first_round_queries env net CFCheckptReplies GCSFilterRegular
        lastHeight (env.BlockHash lastHeader)
        (env.chainParams.Checkpoints.getLast?.getD { Height := 0, Hash := zeroHash }) n
        { b := b, allCFCheckpoints := allCFCheckpoints, goodCheckpoints := [], queries := 0,
          resolutions := 0, panicked := false } rfl hmin hhigh
    · intro hmin
      have hc := negotiate_cached env net CFCheckptReplies GCSFilterRegular
        lastHeight (env.BlockHash lastHeader)
        (env.chainParams.Checkpoints.getLast?.getD { Height := 0, Hash := zeroHash }) (n + 1)
        { b := b, allCFCheckpoints := allCFCheckpoints, goodCheckpoints := [], queries := 0,
          resolutions := 0, panicked := false } hmin
      exact ⟨hc.1, negotiate_first_round_resolves env net CFCheckptReplies GCSFilterRegular
        lastHeight (env.BlockHash lastHeader)
        (env.chainParams.Checkpoints.getLast?.getD { Height := 0, Hash := zeroHash }) n
        { b := b, allCFCheckpoints := allCFCheckpoints, goodCheckpoints := [], queries := 0,
          resolutions := 0, panicked := false } rfl hmin hhigh, hc.2⟩

/-- C21, as amended, on the sample store, whose tip is at height 2, with the checkpoints
of one peer cached: no query and no resolution. -/
theorem negotiation_skipped_below_interval_witness :
    ∃ s, negotiateCheckpoints (sampleEnv []) (sampleNet [] [] [])
        (fun _ _ h => [(1, ⟨0, h, [11, 12]⟩)])
        { sampleBM log3 mem3 none none 0 with server := sampleServer } [(1, [11])] 3 = some s ∧
      s.queries = 0 ∧ s.resolutions = 0 :=
  match negotiation_skipped_below_interval (sampleEnv []) (sampleNet [] [] [])
      (fun _ _ h => [(1, ⟨0, h, [11, 12]⟩)])
      { sampleBM log3 mem3 none none 0 with server := sampleServer } [(1, [11])]
      h2 2 (by decide) 3 with
  | ⟨s, hs, hlow, _⟩ => ⟨s, hs, (hlow (by decide)).1, (hlow (by decide)).2.1⟩

/-- C21, as stated, fails: with the block headers synced and the filter-header tip 1500
less than one checkpoint interval behind the block-header tip 2000, `cfHandler` leaves
the wait and negotiates before it reaches the tip-following loop.  On the first pass,
with no checkpoints cached, it queries the peers for filter checkpoints and calls
`resolveConflict` on the reply; on a later pass, with checkpoints up to the tip cached,
it makes no query and calls `resolveConflict` on the cached checkpoints. -/
theorem synced_small_lag_still_negotiates :
    BlockHeadersSynced (sampleEnv []) tipBM = true ∧
      u32 ((tipBM.filterHeaderTip : Int) + CFCheckptInterval) > tipBM.headerTip ∧
      waitOver (sampleEnv []) tipBM = true ∧
      (negotiateCheckpoints (sampleEnv []) (sampleNet [] [] [])
          (fun _ _ h => [(1, ⟨0, h, [11, 12]⟩)]) tipBM [] 1).map
        (fun s => (s.queries, s.resolutions, s.goodCheckpoints)) = some (1, 1, [11, 12]) ∧
      (negotiateCheckpoints (sampleEnv []) (sampleNet [] [] [])
          (fun _ _ h => [(1, ⟨0, h, [11, 12]⟩)]) tipBM [(1, [11, 12])] 1).map
        (fun s => (s.queries, s.resolutions, s.goodCheckpoints)) = some (0, 1, [11, 12]) := by
  decide

end Spv
